import Mathlib

/-!
# lobSTR genotyper: a verification development

A shallow embedding of `src/Genotyper.cpp` (allele enumeration, per-sample read
partition, the pairwise likelihood grid, the maximum-likelihood call, the call-level
diagnostics and the per-locus driver) and of `ALIGNMENT::operator<` from
`src/BWAReadAligner.h`.

Conventions of the embedding.

* C++ `int` is `Int`; overflow of `int` is undefined behaviour in the source and is
  outside the embedding.
* C++ `float` arithmetic is a parameter (`Arith`).  The source uses floats at two
  scales that never mix: the linear scale (probabilities, likelihood sums, ratios;
  carrier `P`) and the log10 scale (log-likelihoods, Phred-like scores; carrier `L`),
  with `log10 : P → L` and `pow(10, ·) : L → P` between them.  General theorems hold
  for every `Arith` that satisfies the laws they list (laws that IEEE-754 floats
  satisfy as well); scenario evaluations use `exactArith`, exact rational arithmetic
  extended with the IEEE special values (infinities and NaN), without rounding.  Where
  rounding decides a property, `floatArith` rounds every linear-scale result to the
  nearest IEEE binary32 value.
* `std::map` lookups are total functions with the value-initialised default.
* `PrintMessageDieOnError(_, ERROR)` terminates the process; functions that can reach
  it return `Except Failure _`.
* `Genotype` returns `some record` when it hands the record to
  `vcfWriter->WriteRecord` and `none` when it writes nothing; the duplicate removal
  `RemovePCRDuplicates` is a parameter.
-/

set_option autoImplicit false

/-! ## Float arithmetic as a parameter -/

/-- The float operations used by the genotyper, on the linear scale `P` and on the
log10 scale `L`. -/
structure Arith where
  /-- Linear-scale floats. -/
  P : Type
  /-- Log10-scale floats. -/
  L : Type
  /-- Conversion `static_cast<float>(int)` and integer literals such as `0`, `1`, `1.0`. -/
  ofInt : Int → P
  /-- The literal `0.5`. -/
  half : P
  add : P → P → P
  sub : P → P → P
  mul : P → P → P
  div : P → P → P
  /-- Comparison `x > y`. -/
  gt : P → P → Bool
  /-- Comparison `x >= y`. -/
  ge : P → P → Bool
  /-- Comparison `x == y`. -/
  eq : P → P → Bool
  /-- The function `log10`. -/
  log10 : P → L
  /-- The function `pow(10, ·)`. -/
  pow10 : L → P
  /-- Integer literals on the log scale (`0`, `-1000000`). -/
  ofIntL : Int → L
  addL : L → L → L
  subL : L → L → L
  /-- The product `-1 * x`. -/
  negL : L → L
  /-- Comparison `x > y` on the log scale. -/
  gtL : L → L → Bool

/-! ### Exact arithmetic with IEEE special values -/

/-- Rationals extended with `+∞`, `-∞` and NaN. -/
inductive ExtQ where
  | fin (q : ℚ)
  | pinf
  | ninf
  | nan
  deriving DecidableEq

namespace ExtQ

def neg : ExtQ → ExtQ
  | fin q => fin (-q)
  | pinf => ninf
  | ninf => pinf
  | nan => nan

def add : ExtQ → ExtQ → ExtQ
  | fin a, fin b => fin (a + b)
  | nan, _ => nan
  | _, nan => nan
  | pinf, ninf => nan
  | ninf, pinf => nan
  | pinf, _ => pinf
  | _, pinf => pinf
  | ninf, _ => ninf
  | _, ninf => ninf

def sub (x y : ExtQ) : ExtQ := add x (neg y)

/-- The infinity with the sign of `q * s`, where `s = true` stands for `+∞`;
NaN when `q = 0`. -/
def infTimes (s : Bool) (q : ℚ) : ExtQ :=
  if q = 0 then nan else if (0 < q) = s then pinf else ninf

def mul : ExtQ → ExtQ → ExtQ
  | fin a, fin b => fin (a * b)
  | nan, _ => nan
  | _, nan => nan
  | pinf, fin q => infTimes true q
  | ninf, fin q => infTimes false q
  | fin q, pinf => infTimes true q
  | fin q, ninf => infTimes false q
  | pinf, pinf => pinf
  | ninf, ninf => pinf
  | pinf, ninf => ninf
  | ninf, pinf => ninf

/-- Division; a zero divisor is `+0`: `q / 0` is `±∞` by the sign of `q`, `0 / 0` is NaN. -/
def div : ExtQ → ExtQ → ExtQ
  | fin a, fin b => if b = 0 then infTimes true a else fin (a / b)
  | nan, _ => nan
  | _, nan => nan
  | fin _, pinf => fin 0
  | fin _, ninf => fin 0
  | pinf, fin q => if 0 ≤ q then pinf else ninf
  | ninf, fin q => if 0 ≤ q then ninf else pinf
  | pinf, pinf => nan
  | pinf, ninf => nan
  | ninf, pinf => nan
  | ninf, ninf => nan

def gt : ExtQ → ExtQ → Bool
  | fin a, fin b => decide (b < a)
  | nan, _ => false
  | _, nan => false
  | pinf, pinf => false
  | pinf, _ => true
  | ninf, _ => false
  | fin _, pinf => false
  | fin _, ninf => true

def eq : ExtQ → ExtQ → Bool
  | fin a, fin b => decide (a = b)
  | pinf, pinf => true
  | ninf, ninf => true
  | _, _ => false

def ge (x y : ExtQ) : Bool := gt x y || eq x y

end ExtQ

/-- A log10-scale value, kept exactly as its argument: `⟨v⟩` is `log10 v`, so that
`⟨fin 0⟩` is `-∞`, `⟨fin 1⟩` is `0` and `⟨pinf⟩` is `+∞`. -/
structure LogVal where
  arg : ExtQ
  deriving DecidableEq

/-- The rational `10 ^ z`. -/
def tenPow (z : Int) : ℚ :=
  if 0 ≤ z then ((10 ^ z.toNat : ℕ) : ℚ) else 1 / ((10 ^ (-z).toNat : ℕ) : ℚ)

/-- The logarithm `log10`: NaN on negative arguments, `-∞` at `0`. -/
def LogVal.log10 : ExtQ → LogVal
  | .fin q => if q < 0 then ⟨.nan⟩ else ⟨.fin q⟩
  | .pinf => ⟨.pinf⟩
  | .ninf => ⟨.nan⟩
  | .nan => ⟨.nan⟩

/-- Exact arithmetic: no rounding, no overflow or underflow; log10-scale values are
kept symbolically, so sums of logarithms are logarithms of products.  It serves for
evaluations and for properties that rounding does not decide; a property that rounding
decides is settled in `floatArith`. -/
@[reducible] def exactArith : Arith where
  P := ExtQ
  L := LogVal
  ofInt z := .fin (z : ℚ)
  half := .fin (1 / 2)
  add := ExtQ.add
  sub := ExtQ.sub
  mul := ExtQ.mul
  div := ExtQ.div
  gt := ExtQ.gt
  ge := ExtQ.ge
  eq := ExtQ.eq
  log10 := LogVal.log10
  pow10 l := l.arg
  ofIntL z := ⟨.fin (tenPow z)⟩
  addL x y := ⟨ExtQ.mul x.arg y.arg⟩
  subL x y := ⟨ExtQ.div x.arg y.arg⟩
  negL x := ⟨ExtQ.div (.fin 1) x.arg⟩
  gtL x y := ExtQ.gt x.arg y.arg

/-- Exact arithmetic in which `pow(10, x)` underflows to zero for `x < -400`, as it does
for IEEE doubles (whose smallest positive value is about `4.9e-324`). -/
@[reducible] def underflowArith : Arith :=
  { exactArith with
    pow10 := fun l => if ExtQ.gt (.fin (tenPow (-400))) l.arg then .fin 0 else l.arg }

/-! ### Rounding to `float` -/

/-- The rational `2 ^ z`. -/
def twoPow (z : Int) : ℚ :=
  if 0 ≤ z then ((2 ^ z.toNat : ℕ) : ℚ) else 1 / ((2 ^ (-z).toNat : ℕ) : ℚ)

/-- The largest `e` with `-126 < e ≤ n - 126` and `2^e ≤ x`, searched downwards from
`n - 126`; `-126` when there is none. -/
def floatExponent.search : Nat → ℚ → Int
  | 0, _ => -126
  | n + 1, x =>
    if twoPow (((n + 1 : Nat) : Int) - 126) ≤ x then ((n + 1 : Nat) : Int) - 126
    else floatExponent.search n x

/-- The exponent of a positive rational `x` within the range of `float`: the largest
`e ≤ 127` with `2^e ≤ x`, and `-126` (the exponent of the subnormal values) when
`x < 2^-125`. -/
def floatExponent (x : ℚ) : Int := floatExponent.search 253 x

/-- Rounding of a rational to the nearest integer, a tie to the even neighbour. -/
def roundHalfEven (m : ℚ) : Int :=
  let f := Int.floor m
  let r := m - (f : ℚ)
  if r < 1 / 2 then f else if 1 / 2 < r then f + 1 else if f % 2 = 0 then f else f + 1

/-- The multiple of the unit in the last place `2^(e-23)` nearest to `x`, where `e` is
the exponent of `|x|`. -/
def roundFloat.value (x : ℚ) : ℚ :=
  let u := twoPow (floatExponent |x| - 23)
  u * (roundHalfEven (x / u) : ℚ)

/-- Rounding of a rational to the nearest `float` (IEEE binary32: significand of 24
bits, ties to even, subnormal values below `2^-126`, overflow to an infinity from
`2^128`).  The sign of a zero is not kept. -/
def roundFloat (x : ℚ) : ExtQ :=
  if x = 0 then .fin 0
  else
    let r := roundFloat.value x
    if twoPow 128 ≤ r then .pinf else if r ≤ -twoPow 128 then .ninf else .fin r

/-- Rounding of a float result; the special values are kept. -/
def ExtQ.round : ExtQ → ExtQ
  | .fin q => roundFloat q
  | x => x

/-- Arithmetic of `float` on the linear scale: every result of `+`, `-`, `*`, `/`, of a
conversion from `int` and of `pow(10, ·)` is rounded to the nearest `float`.  The
log10-scale values are kept symbolically as in `exactArith`: the result of `log10` is
not rounded. -/
@[reducible] def floatArith : Arith :=
  { exactArith with
    ofInt := fun z => ExtQ.round (.fin (z : ℚ)),
    add := fun x y => ExtQ.round (ExtQ.add x y),
    sub := fun x y => ExtQ.round (ExtQ.sub x y),
    mul := fun x y => ExtQ.round (ExtQ.mul x y),
    div := fun x y => ExtQ.round (ExtQ.div x y),
    pow10 := fun l => ExtQ.round l.arg }

/-! ## Data model -/

/-- The struct `ALIGNMENT` of `src/BWAReadAligner.h`, one placement found by BWA
(`end_` is the field `end`, `repeat_` the field `repeat`; the float `copynum`, which
the comparison does not read, is left out). -/
structure ALIGNMENT where
  id : Int
  chrom : String
  start : Int
  end_ : Int
  left : Bool
  repeat_ : String
  strand : Bool
  pos : Int
  endpos : Int
  deriving DecidableEq, Repr

/-- The member `bool ALIGNMENT::operator<(const ALIGNMENT& ref_pos1) const`. -/
def ALIGNMENT.lt (self ref_pos1 : ALIGNMENT) : Bool :=
  if self.chrom ≠ ref_pos1.chrom then true
  else if self.start = ref_pos1.start then decide (self.end_ < ref_pos1.end_)
  else decide (self.start < ref_pos1.start)

/-- The fields of `AlignedRead` (declared in `src/common.h`) that the genotyper reads. -/
structure AlignedRead where
  ID : String
  chrom : String
  msStart : Int
  msEnd : Int
  diffFromRef : Int
  mate : Bool
  read_group : String
  strand : Bool
  stitched : Bool
  dist_from_end : Int
  period : Int
  repseq : String
  deriving DecidableEq, Repr

/-- The noise model as the genotyper queries it: `strInfo[coord]` gives the locus GC
content and mappability score, `GetTransitionProb(allele, observed, period, length,
gc, score)` a transition probability. -/
structure NoiseModel (A : Arith) where
  strInfo : String × Int → A.P × A.P
  GetTransitionProb : Int → Int → Int → Int → A.P → A.P → A.P

/-- One likelihood grid, `map<pair<int,int>, float>`, as a key-sorted association list. -/
abbrev Grid (A : Arith) := List ((Int × Int) × A.L)

/-- The locus record `STRRecord` (declared in `src/common.h`): locus metadata and the
per-sample vectors, one entry appended per sample. -/
structure STRRecord (A : Arith) where
  samples : List String := []
  chrom : String := ""
  start : Int := 0
  stop : Int := 0
  repseq : String := ""
  period : Int := 0
  name : String := ""
  refcopy : A.P := A.ofInt 0
  ref_allele : String := ""
  repseq_in_ref : String := ""
  alleles_to_include : List Int := []
  numcalls : Int := 0
  numcovered : Int := 0
  num_stitched : List Int := []
  allele1 : List Int := []
  allele2 : List Int := []
  coverage : List Int := []
  totalcov : List Int := []
  prob_ref : List A.L := []
  max_log_lik : List A.L := []
  phred_max_lik_score : List A.L := []
  max_lik_score : List A.P := []
  allele1_marginal_lik_score : List A.P := []
  allele2_marginal_lik_score : List A.P := []
  conflicting : List Int := []
  agreeing : List Int := []
  likelihood_grid : List (Grid A) := []
  mean_dist_ends : List A.P := []
  strand_bias : List A.P := []
  readstring : List String := []
  allele1_string : List String := []
  allele2_string : List String := []

namespace Genotyper

/-- The constant `SMALL_CONST` (`const float SMALL_CONST = 0`). -/
def SMALL_CONST (A : Arith) : A.P := A.ofInt 0

/-! ## `Genotyper::CalcLogLik` -/

/-- What `CalcLogLik` returns: the log-likelihood and the two out-parameters. -/
structure LogLik (A : Arith) where
  loglik : A.L
  counta : Int
  countb : Int

/-- The per-read mixture `(1-err)*(x*s + y*(1-s)) + err` with `s = 0.5`, `err = 0.0`.
(The value first computed for `s` from the read length is overwritten by `s = 0.5`
before any use.) -/
def toadd (A : Arith) (x y : A.P) : A.P :=
  let s := A.half
  let err := A.ofInt 0
  A.add (A.mul (A.sub (A.ofInt 1) err) (A.add (A.mul x s) (A.mul y (A.sub (A.ofInt 1) s)))) err

/-- The body of the loop over the reads in `CalcLogLik`. -/
def CalcLogLik.step (A : Arith) (noise_model : NoiseModel A) (a b period : Int)
    (acc : LogLik A) (it : AlignedRead) : LogLik A :=
  let diff := it.diffFromRef
  let length := it.msEnd - it.msStart + diff
  let coord := (it.chrom, it.msStart)
  let gc := (noise_model.strInfo coord).1
  let score := (noise_model.strInfo coord).2
  let counta := if diff = a then acc.counta + 1 else acc.counta
  let countb := if diff = b then acc.countb + 1 else acc.countb
  let x := noise_model.GetTransitionProb a diff period length gc score
  let y := noise_model.GetTransitionProb b diff period length gc score
  { loglik := A.addL acc.loglik (A.log10 (A.add (toadd A x y) (SMALL_CONST A))),
    counta := counta, countb := countb }

/-- The function `Genotyper::CalcLogLik(a, b, aligned_reads, period, &counta, &countb)`. -/
def CalcLogLik (A : Arith) (noise_model : NoiseModel A) (a b : Int)
    (aligned_reads : List AlignedRead) (period : Int) : LogLik A :=
  if aligned_reads.length = 0 then { loglik := A.ofIntL 0, counta := 0, countb := 0 }
  else aligned_reads.foldl (CalcLogLik.step A noise_model a b period)
    { loglik := A.ofIntL 0, counta := 0, countb := 0 }

/-- The result of `CalcLogLik` with the two counters exchanged. -/
def LogLik.swap {A : Arith} (r : LogLik A) : LogLik A :=
  { loglik := r.loglik, counta := r.countb, countb := r.counta }

/-! ## `Genotyper::GetAlleles` -/

/-- The locals of `GetAlleles` that the loop over the reads updates. -/
structure AlleleState where
  alleles : List Int
  min_allele : Int
  max_allele : Int
  deriving DecidableEq

/-- The body of the first loop of `GetAlleles`: a mate read is skipped; a non-zero
offset not yet in the list and not below the floor is appended and tracked. -/
def GetAlleles.observe (refcopy : Int) (st : AlleleState) (it : AlignedRead) : AlleleState :=
  if it.mate then st
  else if it.diffFromRef ≠ 0 ∧ it.diffFromRef ∉ st.alleles ∧ it.diffFromRef + refcopy ≥ 1 then
    { alleles := st.alleles ++ [it.diffFromRef],
      min_allele := if it.diffFromRef < st.min_allele then it.diffFromRef else st.min_allele,
      max_allele := if it.diffFromRef > st.max_allele then it.diffFromRef else st.max_allele }
  else st

/-- The body of the second loop of `GetAlleles`, iteration `i`. -/
def GetAlleles.pad (gridk refcopy min_allele max_allele : Int) (alleles : List Int)
    (i : Nat) : List Int :=
  let up := alleles ++ [max_allele + ((i : Int) + 1) * gridk]
  if min_allele - ((i : Int) + 1) * gridk + refcopy ≥ 1 then
    up ++ [min_allele - ((i : Int) + 1) * gridk]
  else up

/-- The function `Genotyper::GetAlleles(aligned_reads, &alleles)`; `gridk` (from
`src/runtime_parameters.h`) is a parameter. -/
def GetAlleles (gridk : Int) (aligned_reads : List AlignedRead) : List Int :=
  match aligned_reads with
  | [] => []
  | front :: _ =>
    let refcopy := front.msEnd - front.msStart + 1
    let st := aligned_reads.foldl (GetAlleles.observe refcopy)
      { alleles := [0], min_allele := 0, max_allele := 0 }
    (List.range gridk.toNat).foldl
      (GetAlleles.pad gridk refcopy st.min_allele st.max_allele) st.alleles

/-! ## `Genotyper::GetReadsPerSample` -/

/-- How a call can end without returning: the fatal `PrintMessageDieOnError(_, ERROR)`,
or the `std::out_of_range` thrown by `vector::at`. -/
inductive Failure where
  | fatal (msg : String)
  | out_of_range
  deriving DecidableEq, Repr

/-- Modelled from the spec: `PrintMessageDieOnError(msg, ERROR)` is declared in
`src/common.h` and defined outside `src/`; the spec calls an unresolved read group a
fatal error that aborts the run, so the call ends the function with `Failure.fatal`. -/
def PrintMessageDieOnError_ERROR {α : Type} (msg : String) : Except Failure α :=
  .error (.fatal msg)

/-- The map `sample_to_index` after the loop `sample_to_index[samples[i]] = i`. -/
def sample_to_index (samples : List String) : String → Option Nat :=
  samples.enum.foldl (fun m (e : Nat × String) => fun k => if k = e.2 then some e.1 else m k)
    (fun _ => none)

/-- The statement `sample_reads->at(i).push_back(read)`. -/
def pushAt (read : AlignedRead) :
    Nat → List (List AlignedRead) → Except Failure (List (List AlignedRead))
  | _, [] => .error .out_of_range
  | 0, l :: ls => .ok ((l ++ [read]) :: ls)
  | n + 1, l :: ls =>
    match pushAt read n ls with
    | .ok ls1 => .ok (l :: ls1)
    | .error e => .error e

/-- The body of the loop of `GetReadsPerSample` over the reads.  The lookup
`sample_to_index[sample]` is `operator[]` of `std::map`: an absent key yields the
value-initialised index `0`. -/
def GetReadsPerSample.step (samples : List String) (rg_id_to_sample : String → Option String)
    (sample_reads : List (List AlignedRead)) (it : AlignedRead) :
    Except Failure (List (List AlignedRead)) :=
  match rg_id_to_sample it.read_group with
  | some sample =>
    let i := ((sample_to_index samples) sample).getD 0
    pushAt it i sample_reads
  | none => PrintMessageDieOnError_ERROR ("Could not find sample for read group " ++ it.read_group)

/-- The index `i` that the loop of `GetReadsPerSample` computes for a read whose group is
in the map (`0` by default). -/
def GetReadsPerSample.index (samples : List String) (rg_id_to_sample : String → Option String)
    (it : AlignedRead) : Nat :=
  match rg_id_to_sample it.read_group with
  | some sample => ((sample_to_index samples) sample).getD 0
  | none => 0

/-- The loop of `GetReadsPerSample` over the reads, stopping at the first failure. -/
def GetReadsPerSample.loop (samples : List String) (rg_id_to_sample : String → Option String) :
    List AlignedRead → List (List AlignedRead) → Except Failure (List (List AlignedRead))
  | [], sample_reads => .ok sample_reads
  | it :: rest, sample_reads =>
    match GetReadsPerSample.step samples rg_id_to_sample sample_reads it with
    | .ok next => GetReadsPerSample.loop samples rg_id_to_sample rest next
    | .error e => .error e

/-- The function `Genotyper::GetReadsPerSample(aligned_reads, samples, rg_id_to_sample,
&sample_reads)`: `.ok sample_reads` when it returns `true`. -/
def GetReadsPerSample (aligned_reads : List AlignedRead) (samples : List String)
    (rg_id_to_sample : String → Option String) : Except Failure (List (List AlignedRead)) :=
  GetReadsPerSample.loop samples rg_id_to_sample aligned_reads (samples.map (fun _ => []))

/-! ## Call-level diagnostics -/

/-- The function `Genotyper::GetMeanDistEnds`: the float accumulators `mean_dist_ends`
and `denom` run over the reads whose offset is `allele1` or `allele2`. -/
def GetMeanDistEnds (A : Arith) (aligned_reads : List AlignedRead)
    (allele1 allele2 : Int) : A.P :=
  let acc := aligned_reads.foldl
    (fun (acc : A.P × A.P) it =>
      if it.diffFromRef = allele1 ∨ it.diffFromRef = allele2 then
        (A.add acc.1 (A.ofInt it.dist_from_end), A.add acc.2 (A.ofInt 1))
      else acc)
    (A.ofInt 0, A.ofInt 0)
  let mean_dist_ends := acc.1
  let denom := acc.2
  if A.eq denom (A.ofInt 0) then A.ofInt 0
  else A.div mean_dist_ends denom

/-- The four pseudo-counted strand buckets of `GetStrandBias`. -/
structure Buckets (A : Arith) where
  a : A.P
  b : A.P
  c : A.P
  d : A.P

/-- The loop of `GetStrandBias` over the reads. -/
def GetStrandBias.buckets (A : Arith) (aligned_reads : List AlignedRead)
    (allele1 allele2 : Int) : Buckets A :=
  aligned_reads.foldl
    (fun (k : Buckets A) it =>
      if it.diffFromRef = allele1 then
        if it.strand then { k with c := A.add k.c (A.ofInt 1) }
        else { k with a := A.add k.a (A.ofInt 1) }
      else if it.diffFromRef = allele2 then
        if it.strand then { k with d := A.add k.d (A.ofInt 1) }
        else { k with b := A.add k.b (A.ofInt 1) }
      else k)
    { a := A.ofInt 1, b := A.ofInt 1, c := A.ofInt 1, d := A.ofInt 1 }

/-- The function `Genotyper::GetStrandBias`. -/
def GetStrandBias (A : Arith) (aligned_reads : List AlignedRead)
    (allele1 allele2 : Int) : A.P :=
  let k := GetStrandBias.buckets A aligned_reads allele1 allele2
  if A.eq k.a (A.ofInt 0) || A.eq k.b (A.ofInt 0) || A.eq k.c (A.ofInt 0)
      || A.eq k.d (A.ofInt 0) then A.ofInt (-1)
  else
    let R := A.div (A.mul k.a k.d) (A.mul k.c k.b)
    let sbu := A.add R (A.div (A.ofInt 1) R)
    let refratio := if A.gt k.a k.c then A.div k.a k.c else A.div k.c k.a
    let altratio := if A.gt k.b k.d then A.div k.b k.d else A.div k.d k.b
    A.div (A.mul sbu refratio) altratio

/-! ## `Genotyper::FindMLE` -/

/-- The call `likelihood_grid.insert(pair(key, value))` on the ordered map: an existing
key keeps its value. -/
def gridInsert {A : Arith} (k : Int × Int) (v : A.L) : Grid A → Grid A
  | [] => [(k, v)]
  | (k0, v0) :: rest =>
    if k = k0 then (k0, v0) :: rest
    else if k.1 < k0.1 ∨ (k.1 = k0.1 ∧ k.2 < k0.2) then (k, v) :: (k0, v0) :: rest
    else (k0, v0) :: gridInsert k v rest

/-- The index pairs `(i, j)`, `i ≤ j`, of the double loop of `FindMLE`, in loop order,
as the pairs `(alleles.at(i), alleles.at(j))`. -/
def loopPairs : List Int → List (Int × Int)
  | [] => []
  | c :: cs => (c :: cs).map (fun d => (c, d)) ++ loopPairs cs

/-- The pair `allelotype` of one iteration: the two alleles, smaller first. -/
def allelotype (p : Int × Int) : Int × Int :=
  if p.1 > p.2 then (p.2, p.1) else p

/-- The local `hetfreq` of one iteration: `1.0` for a homozygous pair and for a pair
that no read matches, else `counta/(counta+countb)` folded into `[0, 0.5]`. -/
def hetfreq (A : Arith) (first second counta countb : Int) : A.P :=
  if first ≠ second ∧ ¬ (counta = 0 ∧ countb = 0) then
    let h := A.div (A.ofInt counta) (A.ofInt (counta + countb))
    if A.gt h A.half then A.sub (A.ofInt 1) h else h
  else A.ofInt 1

/-- The local `include_score` of one iteration. -/
def include_score (haploid : Bool) (first second : Int) : Bool :=
  if first ≠ second ∧ haploid = true then false else true

/-- The part of the `if` that updates the call in the loop of `FindMLE` which does not
depend on the running maximum, for the pair `q` (smaller allele first):
`include_score && (hetfreq >= min_het_freq)`.  This is the test of the code, with
`hetfreq = 1.0` for a pair that no read matches; the eligibility in the spec's words is
`specEligible`. -/
def selectable (A : Arith) (noise_model : NoiseModel A) (min_het_freq : A.P)
    (aligned_reads : List AlignedRead) (haploid : Bool) (period : Int) (q : Int × Int) : Bool :=
  let r := CalcLogLik A noise_model q.1 q.2 aligned_reads period
  include_score haploid q.1 q.2 && A.ge (hetfreq A q.1 q.2 r.counta r.countb) min_het_freq

/-- The locals of `FindMLE` that the double loop updates. -/
structure MLEState (A : Arith) where
  sum_all_likelihoods : A.P
  marginal_lik_score_numerator : Int → A.P
  likelihood_grid : Grid A
  allele1 : Int
  allele2 : Int
  ref_log_lik : A.L
  max_log_lik : A.L

/-- The locals of `FindMLE` before the double loop. -/
def FindMLE.init (A : Arith) (MISSING : Int) : MLEState A :=
  { sum_all_likelihoods := SMALL_CONST A,
    marginal_lik_score_numerator := fun _ => A.ofInt 0,
    likelihood_grid := [],
    allele1 := MISSING,
    allele2 := MISSING,
    ref_log_lik := A.ofIntL (-1000000),
    max_log_lik := A.ofIntL (-1000000) }

/-- The update `m[k] += v` of `map<int,float>`. -/
def mapAdd {A : Arith} (m : Int → A.P) (k : Int) (v : A.P) : Int → A.P :=
  fun i => if i = k then A.add (m i) v else m i

/-- The body of the double loop of `FindMLE` for the pair `p = (alleles.at(i), alleles.at(j))`. -/
def FindMLE.step (A : Arith) (noise_model : NoiseModel A) (min_het_freq : A.P)
    (aligned_reads : List AlignedRead) (haploid : Bool) (period : Int)
    (st : MLEState A) (p : Int × Int) : MLEState A :=
  let at0 := allelotype p
  let r := CalcLogLik A noise_model at0.1 at0.2 aligned_reads period
  let currScore := r.loglik
  let likelihood_grid := gridInsert at0 currScore st.likelihood_grid
  let hf := hetfreq A at0.1 at0.2 r.counta r.countb
  let inc := include_score haploid at0.1 at0.2
  let likelihood_term := A.pow10 currScore
  let sum_all_likelihoods := A.add st.sum_all_likelihoods likelihood_term
  let m1 := mapAdd st.marginal_lik_score_numerator at0.1 likelihood_term
  let m2 := if at0.1 ≠ at0.2 then mapAdd m1 at0.2 likelihood_term else m1
  let upd := inc && A.gtL currScore st.max_log_lik && A.ge hf min_het_freq
  let max_log_lik := if upd then currScore else st.max_log_lik
  let allele1 := if upd then at0.1 else st.allele1
  let allele2 := if upd then at0.2 else st.allele2
  let ref_log_lik := if allele1 = 0 ∧ allele2 = 0 then currScore else st.ref_log_lik
  { sum_all_likelihoods := sum_all_likelihoods,
    marginal_lik_score_numerator := m2,
    likelihood_grid := likelihood_grid,
    allele1 := allele1,
    allele2 := allele2,
    ref_log_lik := ref_log_lik,
    max_log_lik := max_log_lik }

/-- The double loop of `FindMLE` over `str_record->alleles_to_include`. -/
def FindMLE.loop (A : Arith) (noise_model : NoiseModel A) (MISSING : Int)
    (min_het_freq : A.P) (aligned_reads : List AlignedRead) (haploid : Bool)
    (period : Int) (alleles : List Int) : MLEState A :=
  (loopPairs alleles).foldl
    (FindMLE.step A noise_model min_het_freq aligned_reads haploid period)
    (FindMLE.init A MISSING)

/-- The quality score: `pow(10, max_log_lik) / sum_all_likelihoods`, set to `1` when
it compares greater than `1`. -/
def FindMLE.max_lik_score (A : Arith) (st : MLEState A) : A.P :=
  let raw := A.div (A.pow10 st.max_log_lik) st.sum_all_likelihoods
  if A.gt raw (A.ofInt 1) then A.ofInt 1 else raw

/-- The function `Genotyper::FindMLE(aligned_reads, spanning_reads, haploid, str_record)`:
the double loop, the scores, and the entries appended to the record.  `MISSING` (from
`src/common.h`) and `min_het_freq` (from `src/runtime_parameters.h`) are parameters. -/
def FindMLE (A : Arith) (noise_model : NoiseModel A) (MISSING : Int) (min_het_freq : A.P)
    (aligned_reads : List AlignedRead) (spanning_reads : Int → Int) (haploid : Bool)
    (str_record : STRRecord A) : STRRecord A :=
  let coverage : Int := aligned_reads.length
  let st := FindMLE.loop A noise_model MISSING min_het_freq aligned_reads haploid
    str_record.period str_record.alleles_to_include
  let max_lik_score := FindMLE.max_lik_score A st
  let phred_max_lik_score := A.negL (A.log10 (A.sub (A.ofInt 1) max_lik_score))
  let allele1_marginal_lik_score :=
    A.div (st.marginal_lik_score_numerator st.allele1) st.sum_all_likelihoods
  let allele2_marginal_lik_score :=
    A.div (st.marginal_lik_score_numerator st.allele2) st.sum_all_likelihoods
  let prob_ref := A.subL st.ref_log_lik (A.log10 st.sum_all_likelihoods)
  let agreeing0 := spanning_reads st.allele1
  let agreeing := if st.allele1 ≠ st.allele2 then agreeing0 + spanning_reads st.allele2
    else agreeing0
  let conflicting := coverage - agreeing
  let mean_dist_ends := GetMeanDistEnds A aligned_reads st.allele1 st.allele2
  let strand_bias := GetStrandBias A aligned_reads st.allele1 st.allele2
  { str_record with
    numcalls := if coverage ≠ 0 then str_record.numcalls + 1 else str_record.numcalls,
    allele1 := str_record.allele1 ++ [st.allele1],
    allele2 := str_record.allele2 ++ [st.allele2],
    coverage := str_record.coverage ++ [coverage],
    prob_ref := str_record.prob_ref ++ [prob_ref],
    max_log_lik := str_record.max_log_lik ++ [st.max_log_lik],
    phred_max_lik_score := str_record.phred_max_lik_score ++ [phred_max_lik_score],
    max_lik_score := str_record.max_lik_score ++ [max_lik_score],
    allele1_marginal_lik_score :=
      str_record.allele1_marginal_lik_score ++ [allele1_marginal_lik_score],
    allele2_marginal_lik_score :=
      str_record.allele2_marginal_lik_score ++ [allele2_marginal_lik_score],
    conflicting := str_record.conflicting ++ [conflicting],
    agreeing := str_record.agreeing ++ [agreeing],
    likelihood_grid := str_record.likelihood_grid ++ [st.likelihood_grid],
    mean_dist_ends := str_record.mean_dist_ends ++ [mean_dist_ends],
    strand_bias := str_record.strand_bias ++ [strand_bias] }


/-- The loop invariant of `FindMLE` for the call: either no pair has been selected and
the call is still `(MISSING, MISSING)`, or the call is a processed selectable pair whose
score is `max_log_lik`; and no processed selectable pair scores above `max_log_lik`. -/
def CallInv (A : Arith) (noise_model : NoiseModel A) (MISSING : Int) (min_het_freq : A.P)
    (aligned_reads : List AlignedRead) (haploid : Bool) (period : Int)
    (done : List (Int × Int)) (st : MLEState A) : Prop :=
  ((st.allele1 = MISSING ∧ st.allele2 = MISSING) ∨
    (∃ p ∈ done, allelotype p = (st.allele1, st.allele2) ∧
      selectable A noise_model min_het_freq aligned_reads haploid period (allelotype p) = true ∧
      st.max_log_lik
        = (CalcLogLik A noise_model (allelotype p).1 (allelotype p).2 aligned_reads period).loglik))
  ∧ ∀ p ∈ done,
      selectable A noise_model min_het_freq aligned_reads haploid period (allelotype p) = true →
      A.gtL (CalcLogLik A noise_model (allelotype p).1 (allelotype p).2 aligned_reads period).loglik
        st.max_log_lik = false

end Genotyper

namespace Genotyper

/-! ## Reference definitions that follow the spec's words -/

/-- The minor-allele support fraction of a pair in the spec's words:
`min(counta, countb) / (counta + countb)`. -/
def specSupportFraction (A : Arith) (counta countb : Int) : A.P :=
  A.div (A.ofInt (min counta countb)) (A.ofInt (counta + countb))

/-- Eligibility in the spec's words: a pair is eligible unless it is heterozygous and
either the locus is flagged haploid or its minor-allele support fraction is not at least
the configured minimum. -/
def specEligible (A : Arith) (noise_model : NoiseModel A) (min_het_freq : A.P)
    (aligned_reads : List AlignedRead) (haploid : Bool) (period : Int) (q : Int × Int) : Bool :=
  let r := CalcLogLik A noise_model q.1 q.2 aligned_reads period
  !(decide (q.1 ≠ q.2)
    && (haploid || !(A.ge (specSupportFraction A r.counta r.countb) min_het_freq)))

/-- The state of `GetAlleles` after its first loop: the collected alleles and the
tracked minimum and maximum. -/
def GetAlleles.observed (refcopy : Int) (aligned_reads : List AlignedRead) : AlleleState :=
  aligned_reads.foldl (GetAlleles.observe refcopy)
    { alleles := [0], min_allele := 0, max_allele := 0 }

/-- The unnormalised evidence `10^(pair log-likelihood)` of one pair of the loop. -/
def pairEvidence (A : Arith) (noise_model : NoiseModel A) (aligned_reads : List AlignedRead)
    (period : Int) (p : Int × Int) : A.P :=
  A.pow10 (CalcLogLik A noise_model (allelotype p).1 (allelotype p).2 aligned_reads period).loglik

/-- The spec's denominator: the sum of `10^(pair log-likelihood)` over all evaluated
candidate pairs, added up in loop order from `SMALL_CONST`. -/
def specDenominator (A : Arith) (noise_model : NoiseModel A) (aligned_reads : List AlignedRead)
    (period : Int) (alleles : List Int) : A.P :=
  (loopPairs alleles).foldl
    (fun acc p => A.add acc (pairEvidence A noise_model aligned_reads period p)) (SMALL_CONST A)

/-- The spec's marginal numerator of allele `x`: the sum of `10^(pair log-likelihood)` over
every evaluated candidate pair that contains `x`, each pair once, in loop order. -/
def specMarginalNumerator (A : Arith) (noise_model : NoiseModel A)
    (aligned_reads : List AlignedRead) (period : Int) (alleles : List Int) (x : Int) : A.P :=
  ((loopPairs alleles).filter
      (fun p => decide ((allelotype p).1 = x ∨ (allelotype p).2 = x))).foldl
    (fun acc p => A.add acc (pairEvidence A noise_model aligned_reads period p)) (A.ofInt 0)

/-- The spec's per-read mixture `(1-err)*(x*s + y*(1-s)) + err` with the mixing weight
`s = 0.5` and an error floor `err`. -/
def specMixture (A : Arith) (err x y : A.P) : A.P :=
  A.add (A.mul (A.sub (A.ofInt 1) err)
    (A.add (A.mul x A.half) (A.mul y (A.sub (A.ofInt 1) A.half)))) err

/-- The spec's log-likelihood of the pair `(a, b)`: the sum over the reads of
`log10(mixture + eps)`, and `0` for the empty read list. -/
def specLogLik (A : Arith) (err eps : A.P) (noise_model : NoiseModel A) (a b : Int)
    (aligned_reads : List AlignedRead) (period : Int) : A.L :=
  (aligned_reads.map (fun it =>
      let gc := (noise_model.strInfo (it.chrom, it.msStart)).1
      let score := (noise_model.strInfo (it.chrom, it.msStart)).2
      let length := it.msEnd - it.msStart + it.diffFromRef
      let x := noise_model.GetTransitionProb a it.diffFromRef period length gc score
      let y := noise_model.GetTransitionProb b it.diffFromRef period length gc score
      A.log10 (A.add (specMixture A err x y) eps))).foldl A.addL (A.ofIntL 0)

/-- The Phred-like score `-1 * log10(1 - q)` of a quality score `q`. -/
def phred (A : Arith) (q : A.P) : A.L :=
  A.negL (A.log10 (A.sub (A.ofInt 1) q))

end Genotyper

namespace Genotyper

/-! ## `Genotyper::ProcessLocus` -/

/-- One annotation `STRAnnotation` (declared in `src/common.h`), as `LoadAnnotations`
fills it. -/
structure STRAnnotation where
  chrom : String
  msStart : Int
  name : String
  alleles : List Int
  deriving DecidableEq, Repr

/-- The members of `Genotyper` and the run-time parameters (`src/runtime_parameters.h`)
that `ProcessLocus` and `Genotype` read.  `RemovePCRDuplicates` is the external
duplicate-removal routine, which rewrites a read list in place. -/
structure Config (A : Arith) where
  noise_model : NoiseModel A
  haploid_chroms : List String
  ref_nucleotides : String × Int → Option String
  ref_repseq : String × Int → Option String
  samples : List String
  rg_id_to_sample : String → Option String
  annotations : String × Int → Option STRAnnotation
  use_chrom : String
  report_nocalls : Bool
  rmdup : Bool
  gridk : Int
  min_het_freq : A.P
  MISSING : Int
  RemovePCRDuplicates : List AlignedRead → List AlignedRead

/-- The statement `spanning_reads[d]++` on the ordered `map<int,int>`. -/
def spanInc (d : Int) : List (Int × Int) → List (Int × Int)
  | [] => [(d, 1)]
  | (k, v) :: rest =>
    if d = k then (k, v + 1) :: rest
    else if d < k then (d, 1) :: (k, v) :: rest
    else (k, v) :: spanInc d rest

/-- The lookup `spanning_reads[d]`, `0` for an absent key. -/
def spanLookup (m : List (Int × Int)) (d : Int) : Int :=
  match m.lookup d with
  | some v => v
  | none => 0

/-- The first loop of `ProcessLocus`: the number of stitched reads and the read counts by
offset. -/
def ProcessLocus.count (aligned_reads : List AlignedRead) : Int × List (Int × Int) :=
  aligned_reads.foldl
    (fun (acc : Int × List (Int × Int)) ar =>
      (if ar.stitched then acc.1 + 1 else acc.1, spanInc ar.diffFromRef acc.2))
    (0, [])

/-- The string `readstring` of `ProcessLocus`. -/
def ProcessLocus.readstring (aligned_reads : List AlignedRead)
    (spanning_reads : List (Int × Int)) : String :=
  if aligned_reads.length = 0 then "NA"
  else String.intercalate ";"
    (spanning_reads.map (fun kv => toString kv.1 ++ "|" ++ toString kv.2))

/-- The function `Genotyper::ProcessLocus(aligned_reads, str_record, is_haploid)`; it
always returns `true`.  (`back()` is read after `FindMLE` has appended the call.) -/
def ProcessLocus (A : Arith) (cfg : Config A) (aligned_reads : List AlignedRead)
    (str_record : STRRecord A) (is_haploid : Bool) : STRRecord A :=
  let c := ProcessLocus.count aligned_reads
  let num_stitched := c.1
  let spanning_reads := c.2
  let rec1 := { str_record with num_stitched := str_record.num_stitched ++ [num_stitched] }
  let rec2 := FindMLE A cfg.noise_model cfg.MISSING cfg.min_het_freq aligned_reads
    (spanLookup spanning_reads) is_haploid rec1
  let readstring := ProcessLocus.readstring aligned_reads spanning_reads
  let back1 := rec2.allele1.getLastD cfg.MISSING
  let back2 := rec2.allele2.getLastD cfg.MISSING
  let allele1_string :=
    if back1 = cfg.MISSING ∨ back2 = cfg.MISSING then "NA" else toString back1
  let allele2_string :=
    if back1 = cfg.MISSING ∨ back2 = cfg.MISSING then "NA" else toString back2
  { rec2 with
    readstring := rec2.readstring ++ [readstring],
    allele1_string := rec2.allele1_string ++ [allele1_string],
    allele2_string := rec2.allele2_string ++ [allele2_string] }

/-- Each of the eighteen per-sample vectors that `ProcessLocus` fills has length `n`. -/
def processedLength {A : Arith} (r : STRRecord A) (n : Nat) : Prop :=
  r.num_stitched.length = n ∧ r.allele1.length = n ∧ r.allele2.length = n
    ∧ r.coverage.length = n ∧ r.prob_ref.length = n ∧ r.max_log_lik.length = n
    ∧ r.phred_max_lik_score.length = n ∧ r.max_lik_score.length = n
    ∧ r.allele1_marginal_lik_score.length = n ∧ r.allele2_marginal_lik_score.length = n
    ∧ r.conflicting.length = n ∧ r.agreeing.length = n ∧ r.likelihood_grid.length = n
    ∧ r.mean_dist_ends.length = n ∧ r.strand_bias.length = n ∧ r.readstring.length = n
    ∧ r.allele1_string.length = n ∧ r.allele2_string.length = n

/-- Every per-sample vector of the record, `totalcov` included, has length `n`. -/
def perSampleLength {A : Arith} (r : STRRecord A) (n : Nat) : Prop :=
  processedLength r n ∧ r.totalcov.length = n

/-- The record `r` is `r0` with exactly one element appended to each of the eighteen
per-sample vectors that `ProcessLocus` fills. -/
def appendsOne {A : Arith} (r r0 : STRRecord A) : Prop :=
  (∃ v, r.num_stitched = r0.num_stitched ++ [v]) ∧ (∃ v, r.allele1 = r0.allele1 ++ [v])
    ∧ (∃ v, r.allele2 = r0.allele2 ++ [v]) ∧ (∃ v, r.coverage = r0.coverage ++ [v])
    ∧ (∃ v, r.prob_ref = r0.prob_ref ++ [v]) ∧ (∃ v, r.max_log_lik = r0.max_log_lik ++ [v])
    ∧ (∃ v, r.phred_max_lik_score = r0.phred_max_lik_score ++ [v])
    ∧ (∃ v, r.max_lik_score = r0.max_lik_score ++ [v])
    ∧ (∃ v, r.allele1_marginal_lik_score = r0.allele1_marginal_lik_score ++ [v])
    ∧ (∃ v, r.allele2_marginal_lik_score = r0.allele2_marginal_lik_score ++ [v])
    ∧ (∃ v, r.conflicting = r0.conflicting ++ [v]) ∧ (∃ v, r.agreeing = r0.agreeing ++ [v])
    ∧ (∃ v, r.likelihood_grid = r0.likelihood_grid ++ [v])
    ∧ (∃ v, r.mean_dist_ends = r0.mean_dist_ends ++ [v])
    ∧ (∃ v, r.strand_bias = r0.strand_bias ++ [v])
    ∧ (∃ v, r.readstring = r0.readstring ++ [v])
    ∧ (∃ v, r.allele1_string = r0.allele1_string ++ [v])
    ∧ (∃ v, r.allele2_string = r0.allele2_string ++ [v])

/-! ## `Genotyper::Genotype` -/

/-- Modelled from the spec: `STRRecord::Reset()` is declared in `src/common.h` and defined
outside `src/`; the spec creates the locus record once per locus and appends one sample at
a time, so the reset record has empty per-sample vectors and zero counters. -/
def STRRecord_Reset (A : Arith) : STRRecord A := {}

/-- The body of the per-sample loop of `Genotype`, iteration `i`. -/
def Genotype.sample (A : Arith) (cfg : Config A) (is_haploid : Bool)
    (sample_reads overlap_reads_per_sample : List (List AlignedRead))
    (str_record : STRRecord A) (i : Nat) : Except Failure (STRRecord A) :=
  match sample_reads.get? i with
  | none => .error .out_of_range
  | some reads0 =>
    let reads := if cfg.rmdup then cfg.RemovePCRDuplicates reads0 else reads0
    let rec1 := ProcessLocus A cfg reads str_record is_haploid
    match overlap_reads_per_sample.get? i with
    | none => .error .out_of_range
    | some overlap =>
      .ok { rec1 with
        totalcov := rec1.totalcov ++ [(overlap.length : Int)],
        numcovered := if overlap.length > 0 then rec1.numcovered + 1 else rec1.numcovered }

/-- The per-sample loop of `Genotype` over the indices `is`. -/
def Genotype.loop (A : Arith) (cfg : Config A) (is_haploid : Bool)
    (sample_reads overlap_reads_per_sample : List (List AlignedRead)) :
    List Nat → STRRecord A → Except Failure (STRRecord A)
  | [], str_record => .ok str_record
  | i :: is, str_record =>
    match Genotype.sample A cfg is_haploid sample_reads overlap_reads_per_sample str_record i with
    | .ok next => Genotype.loop A cfg is_haploid sample_reads overlap_reads_per_sample is next
    | .error e => .error e

/-- The two `if` blocks that add a called allele to `alleles_to_include`: a non-zero
allele that `std::find` does not find is appended. -/
def pushIfNew (alleles : List Int) (allele : Int) : List Int :=
  if allele ≠ 0 then (if allele ∉ alleles then alleles ++ [allele] else alleles) else alleles

/-- The loop of `Genotype` that rebuilds `alleles_to_include` from the calls, over the
indices `is`. -/
def Genotype.calledAlleles {A : Arith} (str_record : STRRecord A) :
    List Nat → List Int → Except Failure (List Int)
  | [], alleles => .ok alleles
  | i :: is, alleles =>
    match str_record.allele1.get? i, str_record.allele2.get? i with
    | some allele1, some allele2 =>
      Genotype.calledAlleles str_record is (pushIfNew (pushIfNew alleles allele1) allele2)
    | _, _ => .error .out_of_range

/-- The part of `Genotype` before the reads are divided by sample: `none` when the locus
is skipped, else the haploid flag, whether the locus is annotated, and the record with
the locus metadata and the candidate alleles.  (The source reads
`overlapping_reads.front()` before it tests for an empty list; the empty list is taken to
return.) -/
def Genotype.setup (A : Arith) (cfg : Config A)
    (read_list overlapping_reads : List AlignedRead) :
    Except Failure (Option (Bool × Bool × STRRecord A)) :=
  match overlapping_reads with
  | [] => .ok none
  | front :: _ =>
    let chrom := front.chrom
    let is_haploid := decide (chrom ∈ cfg.haploid_chroms) || decide ("all" ∈ cfg.haploid_chroms)
    if front.period < 1 ∨ front.period > 6 then .ok none
    else if ¬ (cfg.use_chrom = "" ∨ (cfg.use_chrom ≠ "" ∧ cfg.use_chrom = front.chrom)) then
      .ok none
    else
      match cfg.ref_nucleotides (chrom, front.msStart) with
      | none => .ok none
      | some ref_allele =>
        match cfg.ref_repseq (chrom, front.msStart) with
        | none => .error .out_of_range
        | some repseq_in_ref =>
          if front.repseq = "" then .ok none
          else
            let rec0 : STRRecord A :=
              { STRRecord_Reset A with
                samples := cfg.samples,
                period := front.period,
                chrom := chrom,
                start := front.msStart,
                stop := front.msEnd,
                repseq := front.repseq,
                refcopy := A.div (A.ofInt (front.msEnd - front.msStart + 1))
                  (A.ofInt front.period),
                ref_allele := ref_allele,
                repseq_in_ref := repseq_in_ref }
            match cfg.annotations (chrom, front.msStart) with
            | some annot =>
              .ok (some (is_haploid, true,
                { rec0 with name := annot.name, alleles_to_include := annot.alleles }))
            | none =>
              if (GetAlleles cfg.gridk read_list).length = 0 ∧ cfg.report_nocalls = false then
                .ok none
              else
                .ok (some (is_haploid, false,
                  { rec0 with alleles_to_include := GetAlleles cfg.gridk read_list }))

/-- The part of `Genotype` up to the end of the per-sample loop: `none` when the locus is
skipped, else whether the locus is annotated and the record after the loop. -/
def Genotype.afterLoop (A : Arith) (cfg : Config A)
    (read_list overlapping_reads : List AlignedRead) :
    Except Failure (Option (Bool × STRRecord A)) :=
  match Genotype.setup A cfg read_list overlapping_reads with
  | .error e => .error e
  | .ok none => .ok none
  | .ok (some (is_haploid, is_annotated, rec1)) =>
    match GetReadsPerSample overlapping_reads cfg.samples cfg.rg_id_to_sample with
    | .error e => .error e
    | .ok overlap_reads_per_sample =>
      match GetReadsPerSample read_list cfg.samples cfg.rg_id_to_sample with
      | .error e => .error e
      | .ok sample_reads =>
        match Genotype.loop A cfg is_haploid sample_reads overlap_reads_per_sample
            (List.range cfg.samples.length) rec1 with
        | .error e => .error e
        | .ok rec2 => .ok (some (is_annotated, rec2))

/-- The part of `Genotype` after the per-sample loop: the allele list is rebuilt from the
calls when the locus is not annotated, sorted with `std::sort`, and `0` is inserted at
its front. -/
def Genotype.finish {A : Arith} (is_annotated : Bool) (str_record : STRRecord A) :
    Except Failure (STRRecord A) :=
  let alleles : Except Failure (List Int) :=
    if is_annotated = false then
      Genotype.calledAlleles str_record (List.range str_record.samples.length) []
    else .ok str_record.alleles_to_include
  match alleles with
  | .error e => .error e
  | .ok l => .ok { str_record with alleles_to_include := 0 :: l.insertionSort (fun x y => x ≤ y) }

/-- The record of `Genotype` just before the test that decides whether it is written;
`none` when the locus is skipped. -/
def Genotype.record (A : Arith) (cfg : Config A)
    (read_list overlapping_reads : List AlignedRead) : Except Failure (Option (STRRecord A)) :=
  match Genotype.afterLoop A cfg read_list overlapping_reads with
  | .error e => .error e
  | .ok none => .ok none
  | .ok (some (is_annotated, rec2)) =>
    match Genotype.finish is_annotated rec2 with
    | .error e => .error e
    | .ok rec3 => .ok (some rec3)

/-- The function `Genotyper::Genotype(read_list, overlapping_reads)`: `some record` when
the record is handed to `vcfWriter->WriteRecord`, `none` when nothing is written. -/
def Genotype (A : Arith) (cfg : Config A)
    (read_list overlapping_reads : List AlignedRead) : Except Failure (Option (STRRecord A)) :=
  match Genotype.record A cfg read_list overlapping_reads with
  | .error e => .error e
  | .ok none => .ok none
  | .ok (some str_record) =>
    if str_record.numcalls > 0 ∨ (cfg.report_nocalls = true ∧ str_record.numcovered > 0) then
      .ok (some str_record)
    else .ok none

end Genotyper

namespace Genotyper

/-- The padding alleles in the spec's words, for a grid step `g`, a grid count `k`, a
feasibility test `feasible` and the observed minimum `mn` and maximum `mx`: for
`i = 1..k` the allele `mx + i*g`, and the allele `mn - i*g` when it is feasible (listed
step by step, upward allele first). -/
def specPadding (g : Int) (k : Nat) (feasible : Int → Bool) (mn mx : Int) : List Int :=
  (List.range k).flatMap (fun i =>
    (mx + ((i : Int) + 1) * g)
      :: (if feasible (mn - ((i : Int) + 1) * g) then [mn - ((i : Int) + 1) * g] else []))

end Genotyper

/-! ## Scenario inputs -/

namespace Scenario

/-- A non-mate read with offset `d` at a locus with period 4 and a reference tract of
40 bases (`msEnd - msStart + 1 = 40`, reference copy number 10). -/
def read (d : Int) : AlignedRead :=
  { ID := "read", chrom := "chr1", msStart := 101, msEnd := 140, diffFromRef := d,
    mate := false, read_group := "rg1", strand := false, stitched := false,
    dist_from_end := 5, period := 4, repseq := "AGAT" }

/-- The three reads with offsets `0, 0, -4`. -/
def reads : List AlignedRead := [read 0, read 0, read (-4)]

/-- The noise model whose transition probability is `1` when the proposed allele equals
the observed offset and `0` otherwise. -/
def exactMatch : NoiseModel exactArith :=
  { strInfo := fun _ => (.fin 0, .fin 0),
    GetTransitionProb := fun a d _ _ _ _ => if a = d then .fin 1 else .fin 0 }


/-- A locus record before the first sample is processed: period 4 and the candidate
alleles `{-8, -4, 0, 4}` with the reference allele first. -/
def record : STRRecord exactArith :=
  { period := 4, alleles_to_include := [0, -4, 4, -8] }

/-- The value of `MISSING` used in the scenarios. -/
def MISSING : Int := -10000

/-- The read counts by offset (`spanning_reads`) of the scenario reads. -/
def spanning (d : Int) : Int := if d = 0 then 2 else if d = -4 then 1 else 0

/-- A minimum heterozygous support fraction, `0.2`. -/
def min_het_freq : ExtQ := .fin (1 / 5)

/-- The record after `FindMLE` on the scenario reads at a diploid locus. -/
def called : STRRecord exactArith :=
  Genotyper.FindMLE exactArith exactMatch MISSING min_het_freq reads spanning false record

end Scenario

/-! ### A heterozygous call that no read matches -/

namespace Unsupported

/-- The noise model whose transition probability is `1` when the observed offset is
within one base of the proposed allele and `0` otherwise. -/
def nearest : NoiseModel exactArith :=
  { strInfo := fun _ => (.fin 0, .fin 0),
    GetTransitionProb := fun a d _ _ _ _ => if (a - d).natAbs ≤ 1 then .fin 1 else .fin 0 }

/-- Two reads with offsets `1` and `3`. -/
def reads : List AlignedRead := [Scenario.read 1, Scenario.read 3]

/-- A record with the candidate alleles `{0, 4}`. -/
def record : STRRecord exactArith :=
  { period := 4, alleles_to_include := [0, 4] }

/-- The read counts by offset of the two reads. -/
def spanning (d : Int) : Int := if d = 1 then 1 else if d = 3 then 1 else 0

/-- The record after `FindMLE` on the two reads at a diploid locus. -/
def called : STRRecord exactArith :=
  Genotyper.FindMLE exactArith nearest Scenario.MISSING Scenario.min_het_freq reads spanning
    false record

end Unsupported

/-! ### A locus without candidate alleles -/

namespace NoCandidates

/-- The exact-match noise model in the arithmetic with underflow. -/
def noise : NoiseModel underflowArith :=
  { strInfo := fun _ => (.fin 0, .fin 0),
    GetTransitionProb := fun a d _ _ _ _ => if a = d then .fin 1 else .fin 0 }

/-- The record of a locus with period 4 and an empty candidate list, as `GetAlleles`
leaves it when the locus has no read. -/
def record : STRRecord underflowArith :=
  { period := 4, alleles_to_include := [] }

/-- The record after `FindMLE` for a sample without reads. -/
def called : STRRecord underflowArith :=
  Genotyper.FindMLE underflowArith noise Scenario.MISSING (.fin (1 / 5)) [] (fun _ => 0)
    false record

/-- The record after `FindMLE` at a locus whose only candidate is the reference allele,
for a sample with one read of offset `4`, to which the exact-match noise model gives
probability `0` under the pair `(0, 0)`. -/
def calledUnexplained : STRRecord underflowArith :=
  Genotyper.FindMLE underflowArith noise Scenario.MISSING (.fin (1 / 5)) [Scenario.read 4]
    (fun d => if d = 4 then 1 else 0) false { period := 4, alleles_to_include := [0] }

end NoCandidates

/-! ### Placements on two chromosomes -/

namespace Placements

/-- A placement on `chr1`. -/
def p1 : ALIGNMENT :=
  { id := 1, chrom := "chr1", start := 100, end_ := 140, left := true, repeat_ := "AGAT",
    strand := true, pos := 80, endpos := 99 }

/-- A placement on `chr2` with the same coordinates. -/
def p2 : ALIGNMENT :=
  { id := 2, chrom := "chr2", start := 100, end_ := 140, left := true, repeat_ := "AGAT",
    strand := true, pos := 80, endpos := 99 }

end Placements

/-! ### Reads of a sample that is not in the sample list -/

namespace Unlisted

/-- The read-group map `rg1 ↦ B`. -/
def rg_id_to_sample (g : String) : Option String := if g = "rg1" then some "B" else none

/-- One read of read group `rg1`. -/
def reads : List AlignedRead := [Scenario.read 0]

end Unlisted

/-! ### A locus where the reference genotype is the call -/

namespace RefCall

/-- Two reads with offset `0`. -/
def reads : List AlignedRead := [Scenario.read 0, Scenario.read 0]

/-- A record with the candidate alleles `{0, 4}`. -/
def record : STRRecord exactArith :=
  { period := 4, alleles_to_include := [0, 4] }

/-- The locals of `FindMLE` after the double loop on the two reads. -/
def state : Genotyper.MLEState exactArith :=
  Genotyper.FindMLE.loop exactArith Scenario.exactMatch Scenario.MISSING Scenario.min_het_freq
    reads false 4 [0, 4]

/-- The record after `FindMLE` on the two reads at a diploid locus. -/
def called : STRRecord exactArith :=
  Genotyper.FindMLE exactArith Scenario.exactMatch Scenario.MISSING Scenario.min_het_freq reads
    (fun d => if d = 0 then 2 else 0) false record

end RefCall

/-! ### A locus with one sample -/

namespace Locus

/-- A genotyper for the sample `S1` with read group `rg1`, diploid, without annotations,
with `gridk = 4`, the exact-match noise model and no duplicate removal; the reference has
the locus `chr1:101`. -/
def config : Genotyper.Config exactArith :=
  { noise_model := Scenario.exactMatch,
    haploid_chroms := [],
    ref_nucleotides := fun k => if k = ("chr1", 101) then some "AGATAGATAGAT" else none,
    ref_repseq := fun k => if k = ("chr1", 101) then some "AGAT" else none,
    samples := ["S1"],
    rg_id_to_sample := fun g => if g = "rg1" then some "S1" else none,
    annotations := fun _ => none,
    use_chrom := "",
    report_nocalls := false,
    rmdup := false,
    gridk := 4,
    min_het_freq := Scenario.min_het_freq,
    MISSING := Scenario.MISSING,
    RemovePCRDuplicates := fun l => l }

/-- The record that `Genotype` writes for `x`, or the reset record when it writes none. -/
def written (x : Except Genotyper.Failure (Option (STRRecord exactArith))) :
    STRRecord exactArith :=
  match x with
  | .ok (some r) => r
  | _ => Genotyper.STRRecord_Reset exactArith

/-- The record after the per-sample loop in `x`, or the reset record when the locus is
skipped. -/
def looped (x : Except Genotyper.Failure (Option (Bool × STRRecord exactArith))) :
    STRRecord exactArith :=
  match x with
  | .ok (some p) => p.2
  | _ => Genotyper.STRRecord_Reset exactArith

/-- Three reads with the offsets `4`, `8` and `12`: no pair of alleles matches all of
them. -/
def unexplained : List AlignedRead := [Scenario.read 4, Scenario.read 8, Scenario.read 12]

end Locus

/-! ### An annotated locus -/

namespace Annotated

/-- The annotation of the locus `chr1:101` as `LoadAnnotations` fills it for a line with
one alternate allele four bases longer than the reference: the alleles are `0, 4`. -/
def annot : Genotyper.STRAnnotation :=
  { chrom := "chr1", msStart := 101, name := "STR1", alleles := [0, 4] }

/-- The genotyper of `Locus.config` with the annotation `annot` loaded. -/
def config : Genotyper.Config exactArith :=
  { Locus.config with
    annotations := fun k => if k = ("chr1", 101) then some annot else none }

end Annotated

/-! ### The scenario in `float` arithmetic -/

namespace Rounded

/-- The exact-match noise model of the scenario, in `float` arithmetic. -/
def exactMatch : NoiseModel floatArith :=
  { strInfo := fun _ => (.fin 0, .fin 0),
    GetTransitionProb := fun a d _ _ _ _ => if a = d then .fin 1 else .fin 0 }

/-- The locus record of the scenario, in `float` arithmetic. -/
def record : STRRecord floatArith :=
  { period := 4, alleles_to_include := [0, -4, 4, -8] }

end Rounded

/-! ## Laws of the exact arithmetic -/

theorem ExtQ.add_comm (x y : ExtQ) : ExtQ.add x y = ExtQ.add y x := by
  cases x <;> cases y <;> simp [ExtQ.add, Rat.add_comm]

theorem ExtQ.one_sub_half : ExtQ.sub (.fin 1) (.fin (1 / 2)) = .fin (1 / 2) := by
  simp only [ExtQ.sub, ExtQ.neg, ExtQ.add]
  norm_num

theorem ExtQ.gt_irrefl (x : ExtQ) : ExtQ.gt x x = false := by
  cases x <;> simp [ExtQ.gt]

theorem ExtQ.gt_trans (x y z : ExtQ) (hxy : ExtQ.gt x y = true) (hyz : ExtQ.gt y z = true) :
    ExtQ.gt x z = true := by
  cases x <;> cases y <;> cases z <;> simp [ExtQ.gt] at hxy hyz ⊢
  exact lt_trans hyz hxy

/-! ## Symmetry of `CalcLogLik` -/

namespace Genotyper

theorem toadd_comm (A : Arith) (hadd : ∀ x y : A.P, A.add x y = A.add y x)
    (hhalf : A.sub (A.ofInt 1) A.half = A.half) (x y : A.P) :
    toadd A x y = toadd A y x := by
  simp only [toadd, hhalf]
  rw [hadd (A.mul x A.half) (A.mul y A.half)]

theorem CalcLogLik.step_swap (A : Arith) (noise_model : NoiseModel A)
    (hadd : ∀ x y : A.P, A.add x y = A.add y x)
    (hhalf : A.sub (A.ofInt 1) A.half = A.half)
    (a b period : Int) (acc : LogLik A) (it : AlignedRead) :
    CalcLogLik.step A noise_model b a period acc.swap it
      = (CalcLogLik.step A noise_model a b period acc it).swap := by
  simp only [CalcLogLik.step, LogLik.swap]
  rw [toadd_comm A hadd hhalf]

theorem CalcLogLik.foldl_swap (A : Arith) (noise_model : NoiseModel A)
    (hadd : ∀ x y : A.P, A.add x y = A.add y x)
    (hhalf : A.sub (A.ofInt 1) A.half = A.half)
    (a b period : Int) (reads : List AlignedRead) (acc : LogLik A) :
    reads.foldl (CalcLogLik.step A noise_model b a period) acc.swap
      = (reads.foldl (CalcLogLik.step A noise_model a b period) acc).swap := by
  induction reads generalizing acc with
  | nil => rfl
  | cons it rest ih =>
    simp only [List.foldl_cons]
    rw [CalcLogLik.step_swap A noise_model hadd hhalf, ih]

theorem CalcLogLik_swap (A : Arith) (noise_model : NoiseModel A)
    (hadd : ∀ x y : A.P, A.add x y = A.add y x)
    (hhalf : A.sub (A.ofInt 1) A.half = A.half)
    (a b : Int) (reads : List AlignedRead) (period : Int) :
    CalcLogLik A noise_model b a reads period
      = (CalcLogLik A noise_model a b reads period).swap := by
  unfold CalcLogLik
  split
  · rfl
  · exact CalcLogLik.foldl_swap A noise_model hadd hhalf a b period reads
      { loglik := A.ofIntL 0, counta := 0, countb := 0 }

/-- Claim C1: for every read list, period, noise model and pair of alleles `a`, `b`,
`CalcLogLik(a, b, ...)` and `CalcLogLik(b, a, ...)` return the same log-likelihood, and
the two match counters are exchanged.  The float arithmetic may be any in which
addition is commutative and `1 - 0.5` is `0.5`. -/
theorem C1_CalcLogLik_symmetric (A : Arith) (noise_model : NoiseModel A)
    (hadd : ∀ x y : A.P, A.add x y = A.add y x)
    (hhalf : A.sub (A.ofInt 1) A.half = A.half)
    (a b : Int) (reads : List AlignedRead) (period : Int) :
    (CalcLogLik A noise_model a b reads period).loglik
        = (CalcLogLik A noise_model b a reads period).loglik
      ∧ (CalcLogLik A noise_model a b reads period).counta
        = (CalcLogLik A noise_model b a reads period).countb
      ∧ (CalcLogLik A noise_model a b reads period).countb
        = (CalcLogLik A noise_model b a reads period).counta := by
  rw [CalcLogLik_swap A noise_model hadd hhalf a b reads period]
  exact ⟨rfl, rfl, rfl⟩

/-- Witness of C1 in exact arithmetic: alleles `0` and `-4` on the scenario reads. -/
theorem C1_CalcLogLik_symmetric_witness :
    (∀ x y : exactArith.P, exactArith.add x y = exactArith.add y x)
      ∧ exactArith.sub (exactArith.ofInt 1) exactArith.half = exactArith.half
      ∧ (CalcLogLik exactArith Scenario.exactMatch 0 (-4) Scenario.reads 4).loglik
        = (CalcLogLik exactArith Scenario.exactMatch (-4) 0 Scenario.reads 4).loglik
      ∧ (CalcLogLik exactArith Scenario.exactMatch 0 (-4) Scenario.reads 4).counta
        = (CalcLogLik exactArith Scenario.exactMatch (-4) 0 Scenario.reads 4).countb
      ∧ (CalcLogLik exactArith Scenario.exactMatch 0 (-4) Scenario.reads 4).countb
        = (CalcLogLik exactArith Scenario.exactMatch (-4) 0 Scenario.reads 4).counta :=
  ⟨ExtQ.add_comm, ExtQ.one_sub_half,
    C1_CalcLogLik_symmetric exactArith Scenario.exactMatch ExtQ.add_comm ExtQ.one_sub_half
      0 (-4) Scenario.reads 4⟩

end Genotyper

/-! ## The maximum-likelihood call of `FindMLE` -/

namespace Genotyper

theorem mem_loopPairs {l : List Int} {p : Int × Int} (h : p ∈ loopPairs l) :
    p.1 ∈ l ∧ p.2 ∈ l := by
  induction l with
  | nil => simp [loopPairs] at h
  | cons c cs ih =>
    simp only [loopPairs, List.mem_append, List.mem_map] at h
    rcases h with ⟨d, hd, rfl⟩ | h
    · exact ⟨List.mem_cons_self _ _, hd⟩
    · exact ⟨List.mem_cons_of_mem _ (ih h).1, List.mem_cons_of_mem _ (ih h).2⟩

theorem loopPairs_complete {l : List Int} {a b : Int} (ha : a ∈ l) (hb : b ∈ l) :
    (a, b) ∈ loopPairs l ∨ (b, a) ∈ loopPairs l := by
  induction l with
  | nil => simp at ha
  | cons c cs ih =>
    simp only [loopPairs, List.mem_append, List.mem_map]
    rcases List.mem_cons.1 ha with rfl | ha1
    · exact Or.inl (Or.inl ⟨b, hb, rfl⟩)
    · rcases List.mem_cons.1 hb with rfl | hb1
      · exact Or.inr (Or.inl ⟨a, ha, rfl⟩)
      · rcases ih ha1 hb1 with h | h
        · exact Or.inl (Or.inr h)
        · exact Or.inr (Or.inr h)

theorem allelotype_of_le {a b : Int} (h : a ≤ b) : allelotype (a, b) = (a, b) := by
  simp only [allelotype]
  rw [if_neg (by omega)]

theorem allelotype_swap_of_le {a b : Int} (h : a ≤ b) : allelotype (b, a) = (a, b) := by
  simp only [allelotype]
  by_cases hab : b > a
  · rw [if_pos hab]
  · rw [if_neg hab]
    have : a = b := by omega
    subst this
    rfl

theorem allelotype_le (p : Int × Int) : (allelotype p).1 ≤ (allelotype p).2 := by
  simp only [allelotype]
  split
  · show p.2 ≤ p.1
    omega
  · omega

theorem allelotype_mem {l : List Int} {p : Int × Int} (h : p ∈ loopPairs l) :
    (allelotype p).1 ∈ l ∧ (allelotype p).2 ∈ l := by
  have hp := mem_loopPairs h
  simp only [allelotype]
  split
  · exact ⟨hp.2, hp.1⟩
  · exact hp


/-- The test of the `if` that updates the call in one iteration of `FindMLE`. -/
theorem FindMLE.step_call (A : Arith) (noise_model : NoiseModel A) (min_het_freq : A.P)
    (reads : List AlignedRead) (haploid : Bool) (period : Int) (st : MLEState A)
    (p : Int × Int) :
    let q := allelotype p
    let score := (CalcLogLik A noise_model q.1 q.2 reads period).loglik
    let st1 := FindMLE.step A noise_model min_het_freq reads haploid period st p
    (selectable A noise_model min_het_freq reads haploid period q = true
        ∧ A.gtL score st.max_log_lik = true
        ∧ st1.allele1 = q.1 ∧ st1.allele2 = q.2 ∧ st1.max_log_lik = score)
      ∨ (¬ (selectable A noise_model min_het_freq reads haploid period q = true
            ∧ A.gtL score st.max_log_lik = true)
        ∧ st1.allele1 = st.allele1 ∧ st1.allele2 = st.allele2
        ∧ st1.max_log_lik = st.max_log_lik) := by
  intro q score st1
  by_cases h : selectable A noise_model min_het_freq reads haploid period q = true
      ∧ A.gtL score st.max_log_lik = true
  · left
    have hupd : (include_score haploid q.1 q.2 && A.gtL score st.max_log_lik
        && A.ge (hetfreq A q.1 q.2 (CalcLogLik A noise_model q.1 q.2 reads period).counta
            (CalcLogLik A noise_model q.1 q.2 reads period).countb) min_het_freq) = true := by
      have h1 := h.1
      simp only [selectable, Bool.and_eq_true] at h1
      simp only [Bool.and_eq_true]
      exact ⟨⟨h1.1, h.2⟩, h1.2⟩
    refine ⟨h.1, h.2, ?_, ?_, ?_⟩ <;>
      simp only [st1, FindMLE.step] <;> rw [if_pos hupd]
  · right
    have hupd : ¬ ((include_score haploid q.1 q.2 && A.gtL score st.max_log_lik
        && A.ge (hetfreq A q.1 q.2 (CalcLogLik A noise_model q.1 q.2 reads period).counta
            (CalcLogLik A noise_model q.1 q.2 reads period).countb) min_het_freq) = true) := by
      intro hu
      simp only [Bool.and_eq_true] at hu
      apply h
      refine ⟨?_, hu.1.2⟩
      simp only [selectable, Bool.and_eq_true]
      exact ⟨hu.1.1, hu.2⟩
    refine ⟨h, ?_, ?_, ?_⟩ <;>
      simp only [st1, FindMLE.step] <;> rw [if_neg hupd]


theorem CallInv.init (A : Arith) (noise_model : NoiseModel A) (MISSING : Int)
    (min_het_freq : A.P) (reads : List AlignedRead) (haploid : Bool) (period : Int) :
    CallInv A noise_model MISSING min_het_freq reads haploid period []
      (FindMLE.init A MISSING) :=
  ⟨Or.inl ⟨rfl, rfl⟩, fun p hp => absurd hp (List.not_mem_nil p)⟩

theorem CallInv.step (A : Arith) (noise_model : NoiseModel A) (MISSING : Int)
    (min_het_freq : A.P) (reads : List AlignedRead) (haploid : Bool) (period : Int)
    (hirr : ∀ x : A.L, A.gtL x x = false)
    (htrans : ∀ x y z : A.L, A.gtL x y = true → A.gtL y z = true → A.gtL x z = true)
    (done : List (Int × Int)) (st : MLEState A) (p : Int × Int)
    (hinv : CallInv A noise_model MISSING min_het_freq reads haploid period done st) :
    CallInv A noise_model MISSING min_het_freq reads haploid period (done ++ [p])
      (FindMLE.step A noise_model min_het_freq reads haploid period st p) := by
  obtain ⟨hcall, hmax⟩ := hinv
  rcases FindMLE.step_call A noise_model min_het_freq reads haploid period st p with
    ⟨hel, hgt, h1, h2, hm⟩ | ⟨hno, h1, h2, hm⟩
  · refine ⟨Or.inr ⟨p, List.mem_append_right _ (List.mem_singleton_self p), ?_, hel, hm⟩, ?_⟩
    · rw [h1, h2]
    · intro p0 hp0 hel0
      rw [hm]
      rcases List.mem_append.1 hp0 with hd | hs
      · have hle := hmax p0 hd hel0
        cases hc : A.gtL
            (CalcLogLik A noise_model (allelotype p0).1 (allelotype p0).2 reads period).loglik
            (CalcLogLik A noise_model (allelotype p).1 (allelotype p).2 reads period).loglik
        · rfl
        · rw [htrans _ _ _ hc hgt] at hle
          exact absurd hle (by decide)
      · rw [List.mem_singleton.1 hs]
        exact hirr _
  · refine ⟨?_, ?_⟩
    · rcases hcall with ⟨ha, hb⟩ | ⟨p0, hp0, hq, hel0, hs⟩
      · exact Or.inl ⟨h1.trans ha, h2.trans hb⟩
      · exact Or.inr ⟨p0, List.mem_append_left _ hp0, by rw [h1, h2]; exact hq, hel0,
          hm.trans hs⟩
    · intro p0 hp0 hel0
      rw [hm]
      rcases List.mem_append.1 hp0 with hd | hs
      · exact hmax p0 hd hel0
      · rw [List.mem_singleton.1 hs] at hel0 ⊢
        cases hc : A.gtL
            (CalcLogLik A noise_model (allelotype p).1 (allelotype p).2 reads period).loglik
            st.max_log_lik
        · rfl
        · exact absurd ⟨hel0, hc⟩ hno

theorem CallInv.foldl (A : Arith) (noise_model : NoiseModel A) (MISSING : Int)
    (min_het_freq : A.P) (reads : List AlignedRead) (haploid : Bool) (period : Int)
    (hirr : ∀ x : A.L, A.gtL x x = false)
    (htrans : ∀ x y z : A.L, A.gtL x y = true → A.gtL y z = true → A.gtL x z = true)
    (todo done : List (Int × Int)) (st : MLEState A)
    (hinv : CallInv A noise_model MISSING min_het_freq reads haploid period done st) :
    CallInv A noise_model MISSING min_het_freq reads haploid period (done ++ todo)
      (todo.foldl (FindMLE.step A noise_model min_het_freq reads haploid period) st) := by
  induction todo generalizing done st with
  | nil => simpa using hinv
  | cons p rest ih =>
    have h := ih (done ++ [p]) _
      (CallInv.step A noise_model MISSING min_het_freq reads haploid period hirr htrans
        done st p hinv)
    simpa [List.append_assoc] using h

theorem CallInv.loop (A : Arith) (noise_model : NoiseModel A) (MISSING : Int)
    (min_het_freq : A.P) (reads : List AlignedRead) (haploid : Bool) (period : Int)
    (hirr : ∀ x : A.L, A.gtL x x = false)
    (htrans : ∀ x y z : A.L, A.gtL x y = true → A.gtL y z = true → A.gtL x z = true)
    (alleles : List Int) :
    CallInv A noise_model MISSING min_het_freq reads haploid period (loopPairs alleles)
      (FindMLE.loop A noise_model MISSING min_het_freq reads haploid period alleles) := by
  have h := CallInv.foldl A noise_model MISSING min_het_freq reads haploid period hirr htrans
    (loopPairs alleles) [] (FindMLE.init A MISSING)
    (CallInv.init A noise_model MISSING min_het_freq reads haploid period)
  simpa [FindMLE.loop] using h


/-- Claim C2 fails as stated: with candidates `{0, 4}`, reads with offsets `1` and `3`
and the nearest-allele noise model, the diploid call is the non-missing pair `(0, 4)`
drawn from the candidates, which passes the test of the code but is not eligible in the
spec's words: it is heterozygous and no read supports either allele, so its support
fraction `0/0` is not at least `min_het_freq = 0.2`. -/
theorem C2_reported_call_not_eligible :
    Unsupported.called.allele1.getLast? = some 0
      ∧ Unsupported.called.allele2.getLast? = some 4
      ∧ (0 : Int) ≠ Scenario.MISSING ∧ (4 : Int) ≠ Scenario.MISSING
      ∧ (0 : Int) ∈ Unsupported.record.alleles_to_include
      ∧ (4 : Int) ∈ Unsupported.record.alleles_to_include
      ∧ specEligible exactArith Unsupported.nearest Scenario.min_het_freq Unsupported.reads
          false Unsupported.record.period (0, 4) = false
      ∧ selectable exactArith Unsupported.nearest Scenario.min_het_freq Unsupported.reads
          false Unsupported.record.period (0, 4) = true
      ∧ specSupportFraction exactArith
          (CalcLogLik exactArith Unsupported.nearest 0 4 Unsupported.reads 4).counta
          (CalcLogLik exactArith Unsupported.nearest 0 4 Unsupported.reads 4).countb
        = ExtQ.nan := by
  refine ⟨by decide!, by decide!, by decide, by decide, by decide, by decide, by decide!,
    by decide!, by decide!⟩

/-- Claim C2, amended: if `FindMLE` reports a non-missing call `(a1, a2)`, then the pair
is drawn from the candidate list (smaller allele first), it passes the test of the code
`include_score && (hetfreq >= min_het_freq)` (where `hetfreq` is `1.0` for a homozygous
pair and for a pair that no read matches), the recorded `max_log_lik` is
`CalcLogLik(a1, a2)`, and no pair of candidates that passes this test has a strictly
higher log-likelihood.  The float comparison `>` may be any irreflexive, transitive
relation. -/
theorem C2_FindMLE_reports_best_selectable (A : Arith) (noise_model : NoiseModel A)
    (MISSING : Int) (min_het_freq : A.P) (reads : List AlignedRead)
    (spanning_reads : Int → Int) (haploid : Bool) (str_record : STRRecord A)
    (hirr : ∀ x : A.L, A.gtL x x = false)
    (htrans : ∀ x y z : A.L, A.gtL x y = true → A.gtL y z = true → A.gtL x z = true)
    (a1 a2 : Int)
    (hcall1 : (FindMLE A noise_model MISSING min_het_freq reads spanning_reads haploid
      str_record).allele1.getLast? = some a1)
    (hcall2 : (FindMLE A noise_model MISSING min_het_freq reads spanning_reads haploid
      str_record).allele2.getLast? = some a2)
    (hnm1 : a1 ≠ MISSING) (_hnm2 : a2 ≠ MISSING) :
    a1 ∈ str_record.alleles_to_include ∧ a2 ∈ str_record.alleles_to_include ∧ a1 ≤ a2
      ∧ selectable A noise_model min_het_freq reads haploid str_record.period (a1, a2) = true
      ∧ (FindMLE A noise_model MISSING min_het_freq reads spanning_reads haploid
          str_record).max_log_lik.getLast?
        = some (CalcLogLik A noise_model a1 a2 reads str_record.period).loglik
      ∧ ∀ b1 b2 : Int, b1 ∈ str_record.alleles_to_include →
          b2 ∈ str_record.alleles_to_include → b1 ≤ b2 →
          selectable A noise_model min_het_freq reads haploid str_record.period (b1, b2) = true →
          A.gtL (CalcLogLik A noise_model b1 b2 reads str_record.period).loglik
            (CalcLogLik A noise_model a1 a2 reads str_record.period).loglik = false := by
  have hinv := CallInv.loop A noise_model MISSING min_het_freq reads haploid
    str_record.period hirr htrans str_record.alleles_to_include
  generalize hst : FindMLE.loop A noise_model MISSING min_het_freq reads haploid
    str_record.period str_record.alleles_to_include = st at hinv
  have e1 : st.allele1 = a1 := by
    have h := hcall1
    simp only [FindMLE, hst, List.getLast?_concat] at h
    exact Option.some.inj h
  have e2 : st.allele2 = a2 := by
    have h := hcall2
    simp only [FindMLE, hst, List.getLast?_concat] at h
    exact Option.some.inj h
  have em : (FindMLE A noise_model MISSING min_het_freq reads spanning_reads haploid
      str_record).max_log_lik.getLast? = some st.max_log_lik := by
    simp only [FindMLE, hst, List.getLast?_concat]
  obtain ⟨hcall, hmax⟩ := hinv
  rcases hcall with ⟨hm, _⟩ | ⟨p, hp, hq, hel, hs⟩
  · exact absurd (e1.symm.trans hm) hnm1
  · rw [e1, e2] at hq
    rw [hq] at hel hs
    have hmem := allelotype_mem hp
    have hle := allelotype_le p
    rw [hq] at hmem hle
    refine ⟨hmem.1, hmem.2, hle, hel, ?_, ?_⟩
    · rw [em, hs]
    · intro b1 b2 hb1 hb2 hb hel2
      rw [← hs]
      rcases loopPairs_complete hb1 hb2 with h | h
      · have := hmax (b1, b2) h
        rw [allelotype_of_le hb] at this
        exact this hel2
      · have := hmax (b2, b1) h
        rw [allelotype_swap_of_le hb] at this
        exact this hel2


/-- Witness of C2: on the scenario reads `{0, 0, -4}` with candidates `{-8, -4, 0, 4}` the
reported call is `(-4, 0)`. -/
theorem C2_FindMLE_reports_best_selectable_witness :
    (∀ x : exactArith.L, exactArith.gtL x x = false)
      ∧ (∀ x y z : exactArith.L, exactArith.gtL x y = true → exactArith.gtL y z = true →
          exactArith.gtL x z = true)
      ∧ Scenario.called.allele1.getLast? = some (-4)
      ∧ Scenario.called.allele2.getLast? = some 0
      ∧ (-4 : Int) ≠ Scenario.MISSING ∧ (0 : Int) ≠ Scenario.MISSING
      ∧ ((-4 : Int) ∈ Scenario.record.alleles_to_include
        ∧ (0 : Int) ∈ Scenario.record.alleles_to_include ∧ (-4 : Int) ≤ 0
        ∧ selectable exactArith Scenario.exactMatch Scenario.min_het_freq Scenario.reads false
            Scenario.record.period (-4, 0) = true
        ∧ Scenario.called.max_log_lik.getLast?
          = some (CalcLogLik exactArith Scenario.exactMatch (-4) 0 Scenario.reads
              Scenario.record.period).loglik
        ∧ ∀ b1 b2 : Int, b1 ∈ Scenario.record.alleles_to_include →
            b2 ∈ Scenario.record.alleles_to_include → b1 ≤ b2 →
            selectable exactArith Scenario.exactMatch Scenario.min_het_freq Scenario.reads false
              Scenario.record.period (b1, b2) = true →
            exactArith.gtL
              (CalcLogLik exactArith Scenario.exactMatch b1 b2 Scenario.reads
                Scenario.record.period).loglik
              (CalcLogLik exactArith Scenario.exactMatch (-4) 0 Scenario.reads
                Scenario.record.period).loglik = false) :=
  ⟨fun x => ExtQ.gt_irrefl x.arg, fun x y z => ExtQ.gt_trans x.arg y.arg z.arg,
    by decide!, by decide!, by decide, by decide,
    C2_FindMLE_reports_best_selectable exactArith Scenario.exactMatch Scenario.MISSING
      Scenario.min_het_freq Scenario.reads Scenario.spanning false Scenario.record
      (fun x => ExtQ.gt_irrefl x.arg) (fun x y z => ExtQ.gt_trans x.arg y.arg z.arg)
      (-4) 0 (by decide!) (by decide!) (by decide) (by decide)⟩

end Genotyper

/-! ## Heterozygous calls and the support fraction -/

namespace Genotyper

end Genotyper

/-! ## The quality score when the denominator is zero -/

namespace Genotyper

/-- Claim C4 at a locus without candidate alleles and without reads, in arithmetic with
underflow: the loop adds nothing to `sum_all_likelihoods = 0`, `pow(10, -1000000)`
underflows to `0`, the quotient `0/0` is NaN, the test `max_lik_score > 1` is false for
NaN, and the score appended to the record is NaN, which is neither `>= 0` nor `<= 1`.
The same happens when the only candidate pair gives a read probability `0`, so that the
sum of the likelihoods is `0`. -/
theorem C4_quality_score_nan_without_candidates :
    NoCandidates.called.max_lik_score = [ExtQ.nan]
      ∧ NoCandidates.calledUnexplained.max_lik_score = [ExtQ.nan]
      ∧ underflowArith.ge ExtQ.nan (underflowArith.ofInt 0) = false
      ∧ underflowArith.ge (underflowArith.ofInt 1) ExtQ.nan = false := by
  refine ⟨by decide!, by decide!, by decide, by decide⟩

end Genotyper

/-! ## The reference allele in the output of `GetAlleles` -/

namespace Genotyper

theorem GetAlleles.observe_append (refcopy : Int) (st : AlleleState) (it : AlignedRead) :
    ∃ t, (GetAlleles.observe refcopy st it).alleles = st.alleles ++ t := by
  unfold GetAlleles.observe
  split
  · exact ⟨[], by simp⟩
  · split
    · exact ⟨[it.diffFromRef], rfl⟩
    · exact ⟨[], by simp⟩

theorem GetAlleles.foldl_observe_append (refcopy : Int) (reads : List AlignedRead)
    (st : AlleleState) :
    ∃ t, (reads.foldl (GetAlleles.observe refcopy) st).alleles = st.alleles ++ t := by
  induction reads generalizing st with
  | nil => exact ⟨[], by simp⟩
  | cons it rest ih =>
    obtain ⟨t1, h1⟩ := GetAlleles.observe_append refcopy st it
    obtain ⟨t2, h2⟩ := ih (GetAlleles.observe refcopy st it)
    exact ⟨t1 ++ t2, by simp only [List.foldl_cons, h2, h1, List.append_assoc]⟩

theorem GetAlleles.pad_append (gridk refcopy mn mx : Int) (alleles : List Int) (i : Nat) :
    ∃ t, GetAlleles.pad gridk refcopy mn mx alleles i = alleles ++ t := by
  unfold GetAlleles.pad
  split
  · exact ⟨[mx + ((i : Int) + 1) * gridk, mn - ((i : Int) + 1) * gridk], by simp⟩
  · exact ⟨[mx + ((i : Int) + 1) * gridk], rfl⟩

theorem GetAlleles.foldl_pad_append (gridk refcopy mn mx : Int) (is : List Nat)
    (alleles : List Int) :
    ∃ t, is.foldl (GetAlleles.pad gridk refcopy mn mx) alleles = alleles ++ t := by
  induction is generalizing alleles with
  | nil => exact ⟨[], by simp⟩
  | cons i rest ih =>
    obtain ⟨t1, h1⟩ := GetAlleles.pad_append gridk refcopy mn mx alleles i
    obtain ⟨t2, h2⟩ := ih (GetAlleles.pad gridk refcopy mn mx alleles i)
    exact ⟨t1 ++ t2, by rw [List.foldl_cons, h2, h1, List.append_assoc]⟩

/-- Claim C5 fails as stated: for the empty read list `GetAlleles` returns the empty
allele list, which does not contain `0`. -/
theorem C5_no_reference_allele_without_reads :
    GetAlleles 4 [] = [] ∧ (0 : Int) ∉ GetAlleles 4 [] := by
  decide

/-- Claim C5, amended: for every non-empty read list (mate reads or not) and every
`gridk`, the allele list produced by `GetAlleles` contains the reference offset `0`, as
its first element. -/
theorem C5_reference_allele_of_nonempty (gridk : Int) (reads : List AlignedRead)
    (hne : reads ≠ []) :
    (0 : Int) ∈ GetAlleles gridk reads ∧ (GetAlleles gridk reads).head? = some 0 := by
  cases reads with
  | nil => exact absurd rfl hne
  | cons front rest =>
    obtain ⟨t1, h1⟩ := GetAlleles.foldl_observe_append (front.msEnd - front.msStart + 1)
      (front :: rest) { alleles := [0], min_allele := 0, max_allele := 0 }
    obtain ⟨t2, h2⟩ := GetAlleles.foldl_pad_append gridk (front.msEnd - front.msStart + 1)
      ((front :: rest).foldl (GetAlleles.observe (front.msEnd - front.msStart + 1))
        { alleles := [0], min_allele := 0, max_allele := 0 }).min_allele
      ((front :: rest).foldl (GetAlleles.observe (front.msEnd - front.msStart + 1))
        { alleles := [0], min_allele := 0, max_allele := 0 }).max_allele
      (List.range gridk.toNat)
      ((front :: rest).foldl (GetAlleles.observe (front.msEnd - front.msStart + 1))
        { alleles := [0], min_allele := 0, max_allele := 0 }).alleles
    have h : GetAlleles gridk (front :: rest) = 0 :: (t1 ++ t2) := by
      simp only [GetAlleles]
      rw [h2, h1]
      simp
    rw [h]
    exact ⟨List.mem_cons_self _ _, rfl⟩

/-- Witness of the amended C5: a read list that consists of one mate read. -/
theorem C5_reference_allele_of_nonempty_witness :
    [{ Scenario.read (-4) with mate := true }] ≠ []
      ∧ ((0 : Int) ∈ GetAlleles 4 [{ Scenario.read (-4) with mate := true }]
        ∧ (GetAlleles 4 [{ Scenario.read (-4) with mate := true }]).head? = some 0) :=
  ⟨by decide, C5_reference_allele_of_nonempty 4 [{ Scenario.read (-4) with mate := true }]
    (by decide)⟩

end Genotyper

/-! ## The comparison of placements -/

/-- Claim C6 on two placements that differ only in the chromosome: `operator<` holds in
both directions, so it is not asymmetric, and it is not transitive (`p1 < p2` and
`p2 < p1` but not `p1 < p1`). -/
theorem C6_placement_order_both_directions :
    ALIGNMENT.lt Placements.p1 Placements.p2 = true
      ∧ ALIGNMENT.lt Placements.p2 Placements.p1 = true
      ∧ ALIGNMENT.lt Placements.p1 Placements.p1 = false := by
  decide

/-! ## The allele scenario -/

namespace Genotyper

theorem GetAlleles_scenario (gridk : Int) :
    GetAlleles gridk Scenario.reads
      = (List.range gridk.toNat).foldl (GetAlleles.pad gridk 40 (-4) 0) [0, -4] := by
  rfl

theorem GetAlleles_scenario_mem_gridk (gridk : Int) (hpos : 1 ≤ gridk) :
    gridk ∈ GetAlleles gridk Scenario.reads := by
  rw [GetAlleles_scenario]
  obtain ⟨n, hn⟩ : ∃ n, gridk.toNat = n + 1 := ⟨gridk.toNat - 1, by omega⟩
  rw [hn, List.range_succ_eq_map, List.foldl_cons]
  obtain ⟨t, ht⟩ := GetAlleles.foldl_pad_append gridk 40 (-4) 0
    (List.map Nat.succ (List.range n)) (GetAlleles.pad gridk 40 (-4) 0 [0, -4] 0)
  rw [ht]
  apply List.mem_append_left
  obtain ⟨t0, ht0⟩ : ∃ t0, GetAlleles.pad gridk 40 (-4) 0 [0, -4] 0 = [0, -4, gridk] ++ t0 := by
    unfold GetAlleles.pad
    split
    · exact ⟨[-4 - ((((0 : Nat) : Int)) + 1) * gridk], by simp⟩
    · exact ⟨[], by simp⟩
  rw [ht0]
  simp

/-- Claim C7 fails as stated: on the scenario reads `{0, 0, -4}` with a reference tract of
40 bases, no value of the grid parameter `gridk` (which the code uses both as the step and
as the number of padding steps) makes `GetAlleles` yield the set `{-8, -4, 0, 4}`; with
`gridk = 4` the output contains `8`, with `gridk = 1` it contains `1`. -/
theorem C7_scenario_set_never_produced :
    (¬ ∃ gridk : Int, ∀ x : Int, x ∈ GetAlleles gridk Scenario.reads ↔ x ∈ [-8, -4, 0, 4])
      ∧ (8 : Int) ∈ GetAlleles 4 Scenario.reads
      ∧ (1 : Int) ∈ GetAlleles 1 Scenario.reads := by
  refine ⟨?_, by decide, by decide⟩
  rintro ⟨gridk, h⟩
  by_cases hpos : 1 ≤ gridk
  · have hg := (h gridk).1 (GetAlleles_scenario_mem_gridk gridk hpos)
    have h4 : gridk = 4 := by
      simp only [List.mem_cons, List.mem_singleton, List.not_mem_nil, or_false] at hg
      omega
    subst h4
    have h8 := (h 8).1 (by decide)
    revert h8
    decide
  · have h0 : gridk.toNat = 0 := by omega
    have hm := (h (-8)).2 (by decide)
    rw [GetAlleles_scenario, h0] at hm
    simp only [List.range_zero, List.foldl_nil] at hm
    revert hm
    decide

/-- Claim C7, amended: on the scenario reads, `GetAlleles` with `gridk = 4` yields the
list `0, -4, 4, -8, 8, -12, 12, -16, 16, -20`, as a set exactly
`{-20, -16, -12, -8, -4, 0, 4, 8, 12, 16}`; with `gridk = 1` it yields `0, -4, 1, -5`. -/
theorem C7_scenario_alleles :
    GetAlleles 4 Scenario.reads = [0, -4, 4, -8, 8, -12, 12, -16, 16, -20]
      ∧ (∀ x : Int, x ∈ GetAlleles 4 Scenario.reads
          ↔ x ∈ [-20, -16, -12, -8, -4, 0, 4, 8, 12, 16])
      ∧ GetAlleles 1 Scenario.reads = [0, -4, 1, -5] := by
  refine ⟨by decide, ?_, by decide⟩
  intro x
  have h : GetAlleles 4 Scenario.reads = [0, -4, 4, -8, 8, -12, 12, -16, 16, -20] := by decide
  rw [h]
  simp only [List.mem_cons, List.mem_singleton, List.not_mem_nil, or_false]
  omega

end Genotyper

/-! ## The likelihood scenario -/

namespace Genotyper

/-- Pairs that do not score above `max_log_lik` leave the call as it is. -/
theorem FindMLE.foldl_call_unchanged (A : Arith) (noise_model : NoiseModel A)
    (min_het_freq : A.P) (reads : List AlignedRead) (haploid : Bool) (period : Int)
    (l : List (Int × Int)) (st : MLEState A)
    (h : ∀ p ∈ l, A.gtL
      (CalcLogLik A noise_model (allelotype p).1 (allelotype p).2 reads period).loglik
      st.max_log_lik = false) :
    (l.foldl (FindMLE.step A noise_model min_het_freq reads haploid period) st).allele1
        = st.allele1
      ∧ (l.foldl (FindMLE.step A noise_model min_het_freq reads haploid period) st).allele2
        = st.allele2
      ∧ (l.foldl (FindMLE.step A noise_model min_het_freq reads haploid period) st).max_log_lik
        = st.max_log_lik := by
  induction l generalizing st with
  | nil => exact ⟨rfl, rfl, rfl⟩
  | cons p rest ih =>
    rcases FindMLE.step_call A noise_model min_het_freq reads haploid period st p with
      ⟨_, hgt, _⟩ | ⟨_, h1, h2, hm⟩
    · rw [h p (List.mem_cons_self _ _)] at hgt
      exact absurd hgt (by decide)
    · have hrest := ih (FindMLE.step A noise_model min_het_freq reads haploid period st p)
        (fun q hq => by rw [hm]; exact h q (List.mem_cons_of_mem _ hq))
      simp only [List.foldl_cons]
      exact ⟨hrest.1.trans h1, hrest.2.1.trans h2, hrest.2.2.trans hm⟩

/-- Claim C8 fails as stated: on the scenario (candidates `{-8, -4, 0, 4}`, diploid locus,
reads `{0, 0, -4}`, exact-match noise model, `min_het_freq = 0.2`) `FindMLE` reports the
pair `(-4, 0)`, not `(0, 0)`, and `CalcLogLik` for `(0, 0)` yields `countb = 2`, not `0`. -/
theorem C8_scenario_call_is_not_reference :
    Scenario.called.allele1.getLast? = some (-4)
      ∧ Scenario.called.allele2.getLast? = some 0
      ∧ ¬ (Scenario.called.allele1.getLast? = some 0
          ∧ Scenario.called.allele2.getLast? = some 0)
      ∧ (CalcLogLik exactArith Scenario.exactMatch 0 0 Scenario.reads 4).counta = 2
      ∧ (CalcLogLik exactArith Scenario.exactMatch 0 0 Scenario.reads 4).countb = 2
      ∧ (CalcLogLik exactArith Scenario.exactMatch 0 0 Scenario.reads 4).countb ≠ 0 := by
  refine ⟨by decide!, by decide!, by decide!, by decide!, by decide!, by decide!⟩

/-- Claim C8, amended: on the scenario, for every `min_het_freq <= 1/3` and every value of
`MISSING`, `FindMLE` reports the pair `(-4, 0)`, for which `CalcLogLik` yields
`counta = 1` and `countb = 2`; for the pair `(0, 0)` `CalcLogLik` yields `counta = 2` and
`countb = 2` and the log-likelihood `log10 0`. -/
theorem C8_scenario_call (MISSING : Int) (min_het_freq : ExtQ)
    (hmin : ExtQ.ge (.fin (1 / 3)) min_het_freq = true) :
    (FindMLE exactArith Scenario.exactMatch MISSING min_het_freq Scenario.reads
        Scenario.spanning false Scenario.record).allele1.getLast? = some (-4)
      ∧ (FindMLE exactArith Scenario.exactMatch MISSING min_het_freq Scenario.reads
        Scenario.spanning false Scenario.record).allele2.getLast? = some 0
      ∧ (CalcLogLik exactArith Scenario.exactMatch (-4) 0 Scenario.reads 4).counta = 1
      ∧ (CalcLogLik exactArith Scenario.exactMatch (-4) 0 Scenario.reads 4).countb = 2
      ∧ (CalcLogLik exactArith Scenario.exactMatch 0 0 Scenario.reads 4).counta = 2
      ∧ (CalcLogLik exactArith Scenario.exactMatch 0 0 Scenario.reads 4).countb = 2
      ∧ (CalcLogLik exactArith Scenario.exactMatch 0 0 Scenario.reads 4).loglik
        = exactArith.log10 (exactArith.ofInt 0) := by
  have hpairs : loopPairs Scenario.record.alleles_to_include
      = [(0, 0)] ++ ((0, -4) :: [(0, 4), (0, -8), (-4, -4), (-4, 4), (-4, -8), (4, 4),
          (4, -8), (-8, -8)]) := by decide
  -- the pair (0, 0) scores log10 0 and is not selected
  have hinit : (FindMLE.init exactArith MISSING).max_log_lik = exactArith.ofIntL (-1000000) :=
    rfl
  have h0 := FindMLE.foldl_call_unchanged exactArith Scenario.exactMatch min_het_freq
    Scenario.reads false 4 [(0, 0)] (FindMLE.init exactArith MISSING)
    (by rw [hinit]; decide!)
  generalize hs0 : List.foldl
    (FindMLE.step exactArith Scenario.exactMatch min_het_freq Scenario.reads false 4)
    (FindMLE.init exactArith MISSING) [(0, 0)] = st0 at h0
  -- the pair (-4, 0) is selected
  have hel : selectable exactArith Scenario.exactMatch min_het_freq Scenario.reads false 4
      (allelotype (0, -4)) = true := by
    have hf : hetfreq exactArith (-4) 0 1 2 = ExtQ.fin (1 / 3) := by decide!
    have hc : (CalcLogLik exactArith Scenario.exactMatch (-4) 0 Scenario.reads 4).counta = 1
        ∧ (CalcLogLik exactArith Scenario.exactMatch (-4) 0 Scenario.reads 4).countb = 2 :=
      by decide!
    have ha : allelotype (0, -4) = (-4, 0) := by decide
    simp only [selectable, ha, hc.1, hc.2, hf, Bool.and_eq_true]
    exact ⟨by decide, hmin⟩
  have hgt : exactArith.gtL
      (CalcLogLik exactArith Scenario.exactMatch (allelotype (0, -4)).1 (allelotype (0, -4)).2
        Scenario.reads 4).loglik st0.max_log_lik = true := by
    rw [h0.2.2, hinit]
    decide!
  have h1 : (FindMLE.step exactArith Scenario.exactMatch min_het_freq Scenario.reads false 4
        st0 (0, -4)).allele1 = -4
      ∧ (FindMLE.step exactArith Scenario.exactMatch min_het_freq Scenario.reads false 4
        st0 (0, -4)).allele2 = 0
      ∧ (FindMLE.step exactArith Scenario.exactMatch min_het_freq Scenario.reads false 4
        st0 (0, -4)).max_log_lik = ⟨.fin (1 / 8)⟩ := by
    rcases FindMLE.step_call exactArith Scenario.exactMatch min_het_freq Scenario.reads false 4
      st0 (0, -4) with ⟨_, _, e1, e2, em⟩ | ⟨hno, _⟩
    · refine ⟨e1, e2, ?_⟩
      rw [em]
      decide!
    · exact absurd ⟨hel, hgt⟩ hno
  generalize hs1 : FindMLE.step exactArith Scenario.exactMatch min_het_freq Scenario.reads
    false 4 st0 (0, -4) = st1 at h1
  -- no later pair scores above log10 (1/8)
  have h2 := FindMLE.foldl_call_unchanged exactArith Scenario.exactMatch min_het_freq
    Scenario.reads false 4
    [(0, 4), (0, -8), (-4, -4), (-4, 4), (-4, -8), (4, 4), (4, -8), (-8, -8)] st1
    (by rw [h1.2.2]; decide!)
  have hloop : FindMLE.loop exactArith Scenario.exactMatch MISSING min_het_freq
      Scenario.reads false Scenario.record.period Scenario.record.alleles_to_include
      = List.foldl
          (FindMLE.step exactArith Scenario.exactMatch min_het_freq Scenario.reads false 4)
          st1 [(0, 4), (0, -8), (-4, -4), (-4, 4), (-4, -8), (4, 4), (4, -8), (-8, -8)] := by
    have hper : Scenario.record.period = 4 := rfl
    rw [FindMLE.loop, hpairs, hper, List.foldl_append, List.foldl_cons, hs0, hs1]
  refine ⟨?_, ?_, by decide!, by decide!, by decide!, by decide!, by decide!⟩
  · simp only [FindMLE, List.getLast?_concat, hloop, h2.1, h1.1]
  · simp only [FindMLE, List.getLast?_concat, hloop, h2.2.1, h1.2.1]

/-- Witness of the amended C8 at `min_het_freq = 0.2`. -/
theorem C8_scenario_call_witness :
    ExtQ.ge (.fin (1 / 3)) Scenario.min_het_freq = true
      ∧ Scenario.called.allele1.getLast? = some (-4)
      ∧ Scenario.called.allele2.getLast? = some 0 :=
  ⟨by decide!,
    (C8_scenario_call Scenario.MISSING Scenario.min_het_freq (by decide!)).1,
    (C8_scenario_call Scenario.MISSING Scenario.min_het_freq (by decide!)).2.1⟩

end Genotyper

/-! ## Reads per sample -/

namespace Genotyper

theorem sample_to_index_enumFrom (l : List String) (n : Nat) (m : String → Option Nat)
    (k : String) :
    (k ∈ l → ∃ i, (l.enumFrom n).foldl
        (fun m (e : Nat × String) => fun k => if k = e.2 then some e.1 else m k) m k = some i
        ∧ n ≤ i ∧ i < n + l.length ∧ l.get? (i - n) = some k)
      ∧ (k ∉ l → (l.enumFrom n).foldl
        (fun m (e : Nat × String) => fun k => if k = e.2 then some e.1 else m k) m k = m k) := by
  induction l generalizing n m with
  | nil => simp
  | cons x xs ih =>
    simp only [List.enumFrom_cons, List.foldl_cons]
    have ih1 := ih (n + 1) (fun k => if k = x then some n else m k)
    constructor
    · intro hk
      by_cases hxs : k ∈ xs
      · obtain ⟨i, hi, hle, hlt, hget⟩ := ih1.1 hxs
        refine ⟨i, hi, by omega, by simp only [List.length_cons]; omega, ?_⟩
        have : i - n = (i - (n + 1)) + 1 := by omega
        rw [this, List.get?_cons_succ]
        exact hget
      · have hkx : k = x := by
          rcases List.mem_cons.1 hk with h | h
          · exact h
          · exact absurd h hxs
        refine ⟨n, ?_, le_refl _, by simp only [List.length_cons]; omega, ?_⟩
        · rw [ih1.2 hxs]
          simp [hkx]
        · simp [hkx]
    · intro hk
      have hxs : k ∉ xs := fun h => hk (List.mem_cons_of_mem _ h)
      have hkx : k ≠ x := fun h => hk (h ▸ List.mem_cons_self _ _)
      rw [ih1.2 hxs]
      simp [hkx]


theorem sample_to_index_of_mem (samples : List String) (k : String) (hk : k ∈ samples) :
    ∃ i, sample_to_index samples k = some i ∧ i < samples.length ∧ samples.get? i = some k := by
  obtain ⟨i, hi, _, hlt, hget⟩ := (sample_to_index_enumFrom samples 0 (fun _ => none) k).1 hk
  exact ⟨i, hi, by omega, by simpa using hget⟩

theorem sample_to_index_of_not_mem (samples : List String) (k : String) (hk : k ∉ samples) :
    sample_to_index samples k = none :=
  (sample_to_index_enumFrom samples 0 (fun _ => none) k).2 hk

theorem sample_to_index_lt (samples : List String) (hne : samples ≠ []) (k : String) :
    ((sample_to_index samples) k).getD 0 < samples.length := by
  by_cases hk : k ∈ samples
  · obtain ⟨i, hi, hlt, _⟩ := sample_to_index_of_mem samples k hk
    rw [hi]
    exact hlt
  · rw [sample_to_index_of_not_mem samples k hk]
    exact List.length_pos.2 hne

theorem pushAt_ok (read : AlignedRead) (i : Nat) (ls : List (List AlignedRead))
    (hi : i < ls.length) :
    ∃ out, pushAt read i ls = .ok out ∧ out.length = ls.length
      ∧ ∀ j, out.get? j = if j = i then (ls.get? j).map (fun l => l ++ [read]) else ls.get? j := by
  induction ls generalizing i with
  | nil => simp at hi
  | cons l rest ih =>
    cases i with
    | zero =>
      refine ⟨(l ++ [read]) :: rest, rfl, rfl, ?_⟩
      intro j
      cases j with
      | zero => simp
      | succ j => simp
    | succ i =>
      obtain ⟨out, hout, hlen, hget⟩ := ih i (by simpa using hi)
      refine ⟨l :: out, by simp only [pushAt, hout], by simp [hlen], ?_⟩
      intro j
      cases j with
      | zero => simp
      | succ j => simpa using hget j

theorem pushAt_out_of_range (read : AlignedRead) (i : Nat) (ls : List (List AlignedRead))
    (hi : ls.length ≤ i) : pushAt read i ls = .error Failure.out_of_range := by
  induction ls generalizing i with
  | nil => cases i <;> rfl
  | cons l rest ih =>
    cases i with
    | zero => simp at hi
    | succ i => simp only [pushAt, ih i (by simpa using hi)]


theorem GetReadsPerSample.loop_ok (samples : List String)
    (rg_id_to_sample : String → Option String) (hne : samples ≠ [])
    (reads : List AlignedRead) (acc : List (List AlignedRead))
    (hlen : acc.length = samples.length)
    (hres : ∀ r ∈ reads, (rg_id_to_sample r.read_group).isSome = true) :
    ∃ out, GetReadsPerSample.loop samples rg_id_to_sample reads acc = .ok out
      ∧ out.length = samples.length
      ∧ ∀ j, out.get? j = (acc.get? j).map (fun l => l ++ reads.filter
          (fun r => decide (GetReadsPerSample.index samples rg_id_to_sample r = j))) := by
  induction reads generalizing acc with
  | nil =>
    refine ⟨acc, rfl, hlen, ?_⟩
    intro j
    cases acc.get? j <;> simp
  | cons r rest ih =>
    have hr := hres r (List.mem_cons_self _ _)
    obtain ⟨s, hs⟩ := Option.isSome_iff_exists.1 hr
    have hidx : GetReadsPerSample.index samples rg_id_to_sample r
        = ((sample_to_index samples) s).getD 0 := by
      simp only [GetReadsPerSample.index, hs]
    have hlt : ((sample_to_index samples) s).getD 0 < acc.length := by
      rw [hlen]
      exact sample_to_index_lt samples hne s
    obtain ⟨next, hnext, hnlen, hnget⟩ := pushAt_ok r _ acc hlt
    obtain ⟨out, hout, holen, hoget⟩ := ih next (hnlen.trans hlen)
      (fun r0 h0 => hres r0 (List.mem_cons_of_mem _ h0))
    refine ⟨out, ?_, holen, ?_⟩
    · simp only [GetReadsPerSample.loop, GetReadsPerSample.step, hs, hnext, hout]
    · intro j
      rw [hoget j, hnget j, List.filter_cons, hidx]
      by_cases hj : j = ((sample_to_index samples) s).getD 0
      · subst hj
        cases acc.get? (((sample_to_index samples) s).getD 0) <;> simp
      · have hj2 : ¬ (((sample_to_index samples) s).getD 0 = j) := fun h => hj h.symm
        rw [if_neg hj]
        simp [hj2]

theorem GetReadsPerSample.loop_fatal (samples : List String)
    (rg_id_to_sample : String → Option String) (hne : samples ≠ [])
    (reads : List AlignedRead) (acc : List (List AlignedRead))
    (hlen : acc.length = samples.length)
    (habs : ∃ r ∈ reads, rg_id_to_sample r.read_group = none) :
    ∃ msg, GetReadsPerSample.loop samples rg_id_to_sample reads acc
      = .error (Failure.fatal msg) := by
  induction reads generalizing acc with
  | nil =>
    obtain ⟨r, hr, _⟩ := habs
    exact absurd hr (List.not_mem_nil r)
  | cons r rest ih =>
    cases hs : rg_id_to_sample r.read_group with
    | none =>
      exact ⟨"Could not find sample for read group " ++ r.read_group, by
        simp only [GetReadsPerSample.loop, GetReadsPerSample.step, hs,
          PrintMessageDieOnError_ERROR]⟩
    | some s =>
      have hlt : ((sample_to_index samples) s).getD 0 < acc.length := by
        rw [hlen]
        exact sample_to_index_lt samples hne s
      obtain ⟨next, hnext, hnlen, _⟩ := pushAt_ok r _ acc hlt
      have hrest : ∃ r0 ∈ rest, rg_id_to_sample r0.read_group = none := by
        obtain ⟨r0, hr0, h0⟩ := habs
        rcases List.mem_cons.1 hr0 with h | h
        · rw [h, hs] at h0
          exact absurd h0 (by simp)
        · exact ⟨r0, h, h0⟩
      obtain ⟨msg, hmsg⟩ := ih next (hnlen.trans hlen) hrest
      exact ⟨msg, by simp only [GetReadsPerSample.loop, GetReadsPerSample.step, hs, hnext, hmsg]⟩

/-- With a non-empty sample list and every read group in the map, `GetReadsPerSample`
returns one list per sample, and the list at index `j` holds, in input order, exactly
the reads whose computed index is `j`. -/
theorem GetReadsPerSample_ok (reads : List AlignedRead) (samples : List String)
    (rg_id_to_sample : String → Option String) (hne : samples ≠ [])
    (hres : ∀ r ∈ reads, (rg_id_to_sample r.read_group).isSome = true) :
    ∃ out, GetReadsPerSample reads samples rg_id_to_sample = .ok out
      ∧ out.length = samples.length
      ∧ ∀ j, j < samples.length → out.get? j = some (reads.filter
          (fun r => decide (GetReadsPerSample.index samples rg_id_to_sample r = j))) := by
  obtain ⟨out, hout, hlen, hget⟩ := GetReadsPerSample.loop_ok samples rg_id_to_sample hne reads
    (samples.map (fun _ => [])) (by simp) hres
  refine ⟨out, hout, hlen, ?_⟩
  intro j hj
  have hnil : (samples.map (fun _ => ([] : List AlignedRead))).get? j = some [] := by
    rw [List.get?_eq_getElem?, List.getElem?_map, List.getElem?_eq_getElem hj]
    rfl
  rw [hget j, hnil]
  simp

/-- The index computed for a read whose sample is in the sample list points at that
sample. -/
theorem GetReadsPerSample.index_spec (samples : List String)
    (rg_id_to_sample : String → Option String) (r : AlignedRead) (s : String)
    (hs : rg_id_to_sample r.read_group = some s) (hmem : s ∈ samples) :
    samples.get? (GetReadsPerSample.index samples rg_id_to_sample r) = some s := by
  obtain ⟨i, hi, _, hget⟩ := sample_to_index_of_mem samples s hmem
  simp only [GetReadsPerSample.index, hs, hi, Option.getD_some]
  exact hget

/-- With a non-empty sample list, `GetReadsPerSample` ends in the fatal error exactly
when some read has a read group that is absent from the map, and returns otherwise. -/
theorem GetReadsPerSample_fatal_iff (reads : List AlignedRead) (samples : List String)
    (rg_id_to_sample : String → Option String) (hne : samples ≠ []) :
    ((∃ msg, GetReadsPerSample reads samples rg_id_to_sample = .error (Failure.fatal msg))
        ↔ ∃ r ∈ reads, rg_id_to_sample r.read_group = none)
      ∧ ((∀ r ∈ reads, (rg_id_to_sample r.read_group).isSome = true) →
          ∃ out, GetReadsPerSample reads samples rg_id_to_sample = .ok out) := by
  have hok : (∀ r ∈ reads, (rg_id_to_sample r.read_group).isSome = true) →
      ∃ out, GetReadsPerSample reads samples rg_id_to_sample = .ok out := by
    intro hres
    obtain ⟨out, hout, _⟩ := GetReadsPerSample_ok reads samples rg_id_to_sample hne hres
    exact ⟨out, hout⟩
  refine ⟨⟨?_, ?_⟩, hok⟩
  · rintro ⟨msg, hmsg⟩
    by_contra hno
    have hres : ∀ r ∈ reads, (rg_id_to_sample r.read_group).isSome = true := by
      intro r hr
      cases h : rg_id_to_sample r.read_group with
      | none => exact absurd ⟨r, hr, h⟩ hno
      | some s => rfl
    obtain ⟨out, hout⟩ := hok hres
    rw [hout] at hmsg
    cases hmsg
  · intro habs
    exact GetReadsPerSample.loop_fatal samples rg_id_to_sample hne reads
      (samples.map (fun _ => [])) (by simp) habs


/-- Claim C9 at a read whose read group is mapped to a sample that is not in the sample
list: the group `rg1` is resolved (to `B`), the sample list is `[A]`, and the read is
appended to the list at index `0`, the list of sample `A`. -/
theorem C9_read_filed_under_other_sample :
    Unlisted.rg_id_to_sample (Scenario.read 0).read_group = some "B"
      ∧ GetReadsPerSample Unlisted.reads ["A"] Unlisted.rg_id_to_sample
        = .ok [[Scenario.read 0]]
      ∧ (["A"] : List String).get? 0 = some "A"
      ∧ "A" ≠ "B" := by
  refine ⟨by decide, rfl, rfl, by decide⟩

/-- Claim C10 at an empty sample list: every read group of the input is resolved, and
the call neither returns `true` nor ends in the fatal error: `sample_reads->at(0)` throws
`std::out_of_range`. -/
theorem C10_out_of_range_with_resolved_groups :
    (∀ r ∈ Unlisted.reads, (Unlisted.rg_id_to_sample r.read_group).isSome = true)
      ∧ GetReadsPerSample Unlisted.reads [] Unlisted.rg_id_to_sample
        = .error Failure.out_of_range := by
  refine ⟨by decide, rfl⟩

end Genotyper

/-! ## The reference log-likelihood -/

namespace Genotyper

/-- Claim C14 at a locus with candidates `{0, 4}` and two reads of offset `0`: the
reference allele is a candidate and the call is `(0, 0)`, whose log-likelihood is `0`
(`log10 1`); the recorded `ref_log_lik` is the score of the pair evaluated last, `(4, 4)`,
which is `log10 0`, and the recorded `prob_ref` is `log10 0` instead of `log10 (4/5)`. -/
theorem C14_ref_log_lik_is_last_pair_score :
    (0 : Int) ∈ RefCall.record.alleles_to_include
      ∧ RefCall.state.allele1 = 0 ∧ RefCall.state.allele2 = 0
      ∧ (CalcLogLik exactArith Scenario.exactMatch 0 0 RefCall.reads 4).loglik
        = exactArith.log10 (.fin 1)
      ∧ RefCall.state.ref_log_lik = exactArith.log10 (.fin 0)
      ∧ RefCall.state.ref_log_lik
        = (CalcLogLik exactArith Scenario.exactMatch 4 4 RefCall.reads 4).loglik
      ∧ RefCall.state.ref_log_lik
        ≠ (CalcLogLik exactArith Scenario.exactMatch 0 0 RefCall.reads 4).loglik
      ∧ RefCall.called.prob_ref = [exactArith.log10 (.fin 0)]
      ∧ exactArith.subL (CalcLogLik exactArith Scenario.exactMatch 0 0 RefCall.reads 4).loglik
          (exactArith.log10 RefCall.state.sum_all_likelihoods)
        = exactArith.log10 (.fin (4 / 5)) := by
  refine ⟨by decide, by decide!, by decide!, by decide!, by decide!, by decide!, by decide!,
    by decide!, by decide!⟩

end Genotyper

/-! ## The marginal scores -/

namespace Genotyper

theorem FindMLE.step_sum (A : Arith) (noise_model : NoiseModel A) (min_het_freq : A.P)
    (reads : List AlignedRead) (haploid : Bool) (period : Int) (st : MLEState A)
    (p : Int × Int) :
    (FindMLE.step A noise_model min_het_freq reads haploid period st p).sum_all_likelihoods
      = A.add st.sum_all_likelihoods (pairEvidence A noise_model reads period p) := rfl

theorem FindMLE.step_marginal (A : Arith) (noise_model : NoiseModel A) (min_het_freq : A.P)
    (reads : List AlignedRead) (haploid : Bool) (period : Int) (st : MLEState A)
    (p : Int × Int) (x : Int) :
    (FindMLE.step A noise_model min_het_freq reads haploid period st p).marginal_lik_score_numerator x
      = if (allelotype p).1 = x ∨ (allelotype p).2 = x then
          A.add (st.marginal_lik_score_numerator x) (pairEvidence A noise_model reads period p)
        else st.marginal_lik_score_numerator x := by
  simp only [FindMLE.step, pairEvidence]
  by_cases h12 : (allelotype p).1 = (allelotype p).2
  · rw [if_neg (not_not.2 h12)]
    by_cases hx : x = (allelotype p).1
    · have hc : (allelotype p).1 = x ∨ (allelotype p).2 = x := Or.inl hx.symm
      rw [if_pos hc]
      simp only [mapAdd, if_pos hx]
    · have hc : ¬ ((allelotype p).1 = x ∨ (allelotype p).2 = x) := by
        rintro (h | h)
        · exact hx h.symm
        · exact hx (h12.trans h).symm
      rw [if_neg hc]
      simp only [mapAdd, if_neg hx]
  · rw [if_pos h12]
    by_cases hx1 : x = (allelotype p).1
    · have hx2 : ¬ x = (allelotype p).2 := fun h => h12 (hx1.symm.trans h)
      have hc : (allelotype p).1 = x ∨ (allelotype p).2 = x := Or.inl hx1.symm
      rw [if_pos hc]
      simp only [mapAdd, if_neg hx2, if_pos hx1]
    · by_cases hx2 : x = (allelotype p).2
      · have hc : (allelotype p).1 = x ∨ (allelotype p).2 = x := Or.inr hx2.symm
        rw [if_pos hc]
        simp only [mapAdd, if_pos hx2, if_neg hx1]
      · have hc : ¬ ((allelotype p).1 = x ∨ (allelotype p).2 = x) := by
          rintro (h | h)
          · exact hx1 h.symm
          · exact hx2 h.symm
        rw [if_neg hc]
        simp only [mapAdd, if_neg hx2, if_neg hx1]

theorem FindMLE.foldl_sum (A : Arith) (noise_model : NoiseModel A) (min_het_freq : A.P)
    (reads : List AlignedRead) (haploid : Bool) (period : Int) (l : List (Int × Int))
    (st : MLEState A) :
    (l.foldl (FindMLE.step A noise_model min_het_freq reads haploid period) st).sum_all_likelihoods
      = l.foldl (fun acc p => A.add acc (pairEvidence A noise_model reads period p))
          st.sum_all_likelihoods := by
  induction l generalizing st with
  | nil => rfl
  | cons p rest ih => simp only [List.foldl_cons, ih, FindMLE.step_sum]

theorem FindMLE.foldl_marginal (A : Arith) (noise_model : NoiseModel A) (min_het_freq : A.P)
    (reads : List AlignedRead) (haploid : Bool) (period : Int) (x : Int)
    (l : List (Int × Int)) (st : MLEState A) :
    (l.foldl (FindMLE.step A noise_model min_het_freq reads haploid period)
        st).marginal_lik_score_numerator x
      = (l.filter (fun p => decide ((allelotype p).1 = x ∨ (allelotype p).2 = x))).foldl
          (fun acc p => A.add acc (pairEvidence A noise_model reads period p))
          (st.marginal_lik_score_numerator x) := by
  induction l generalizing st with
  | nil => rfl
  | cons p rest ih =>
    simp only [List.foldl_cons, ih, FindMLE.step_marginal, List.filter_cons]
    by_cases hc : (allelotype p).1 = x ∨ (allelotype p).2 = x
    · simp only [hc, if_true, decide_True, List.foldl_cons]
    · simp only [hc, if_false, decide_False]
      rfl

/-- Claim C15: the marginal score that `FindMLE` appends for each allele of the reported
call is the sum of `10^(pair log-likelihood)` over every evaluated candidate pair that
contains the allele (each pair once, in loop order), divided by the sum over all
evaluated candidate pairs. -/
theorem C15_marginal_scores (A : Arith) (noise_model : NoiseModel A) (MISSING : Int)
    (min_het_freq : A.P) (reads : List AlignedRead) (spanning_reads : Int → Int)
    (haploid : Bool) (str_record : STRRecord A) :
    ∃ a1 a2 : Int,
      (FindMLE A noise_model MISSING min_het_freq reads spanning_reads haploid
          str_record).allele1 = str_record.allele1 ++ [a1]
      ∧ (FindMLE A noise_model MISSING min_het_freq reads spanning_reads haploid
          str_record).allele2 = str_record.allele2 ++ [a2]
      ∧ (FindMLE A noise_model MISSING min_het_freq reads spanning_reads haploid
          str_record).allele1_marginal_lik_score
        = str_record.allele1_marginal_lik_score ++
          [A.div (specMarginalNumerator A noise_model reads str_record.period
              str_record.alleles_to_include a1)
            (specDenominator A noise_model reads str_record.period
              str_record.alleles_to_include)]
      ∧ (FindMLE A noise_model MISSING min_het_freq reads spanning_reads haploid
          str_record).allele2_marginal_lik_score
        = str_record.allele2_marginal_lik_score ++
          [A.div (specMarginalNumerator A noise_model reads str_record.period
              str_record.alleles_to_include a2)
            (specDenominator A noise_model reads str_record.period
              str_record.alleles_to_include)] := by
  have hsum := FindMLE.foldl_sum A noise_model min_het_freq reads haploid str_record.period
    (loopPairs str_record.alleles_to_include) (FindMLE.init A MISSING)
  have hmarg := fun x => FindMLE.foldl_marginal A noise_model min_het_freq reads haploid
    str_record.period x (loopPairs str_record.alleles_to_include) (FindMLE.init A MISSING)
  refine ⟨(FindMLE.loop A noise_model MISSING min_het_freq reads haploid str_record.period
      str_record.alleles_to_include).allele1,
    (FindMLE.loop A noise_model MISSING min_het_freq reads haploid str_record.period
      str_record.alleles_to_include).allele2, rfl, rfl, ?_, ?_⟩
  · simp only [FindMLE, FindMLE.loop, hsum, hmarg, specMarginalNumerator, specDenominator]
    rfl
  · simp only [FindMLE, FindMLE.loop, hsum, hmarg, specMarginalNumerator, specDenominator]
    rfl

end Genotyper

/-! ## The Phred-like score -/

namespace Genotyper

theorem tenPow_zero : tenPow 0 = 1 := by
  simp [tenPow]

theorem phred_exact (a : ℚ) (ha : a < 1) :
    phred exactArith (ExtQ.fin a) = ⟨ExtQ.fin (1 / (1 - a))⟩ := by
  have h1 : ¬ ((1 : ℚ) + -a < 0) := by linarith
  have h2 : ¬ ((1 : ℚ) + -a = 0) := by
    intro h
    linarith
  simp only [phred, ExtQ.sub, ExtQ.neg, ExtQ.add, LogVal.log10, Int.cast_one, if_neg h1,
    ExtQ.div, if_neg h2]
  rw [sub_eq_add_neg]

end Genotyper

/-! ## Mean distance from the read ends -/

namespace Genotyper

theorem GetMeanDistEnds.foldl_exact (allele1 allele2 : Int) (reads : List AlignedRead)
    (s n : ℚ) :
    reads.foldl
        (fun (acc : ExtQ × ExtQ) it =>
          if it.diffFromRef = allele1 ∨ it.diffFromRef = allele2 then
            (ExtQ.add acc.1 (ExtQ.fin (it.dist_from_end : ℚ)), ExtQ.add acc.2 (ExtQ.fin ((1 : Int) : ℚ)))
          else acc)
        (ExtQ.fin s, ExtQ.fin n)
      = (ExtQ.fin (s + (((reads.filter (fun it => decide (it.diffFromRef = allele1
              ∨ it.diffFromRef = allele2))).map (fun it => it.dist_from_end)).sum : Int)),
          ExtQ.fin (n + ((reads.filter (fun it => decide (it.diffFromRef = allele1
              ∨ it.diffFromRef = allele2))).length : Nat))) := by
  induction reads generalizing s n with
  | nil => simp
  | cons it rest ih =>
    have hadd : ∀ x y : ℚ, ExtQ.add (ExtQ.fin x) (ExtQ.fin y) = ExtQ.fin (x + y) :=
      fun _ _ => rfl
    by_cases hc : it.diffFromRef = allele1 ∨ it.diffFromRef = allele2
    · rw [List.filter_cons_of_pos (by simpa using hc), List.foldl_cons]
      simp only [if_pos hc, hadd]
      rw [ih]
      simp only [List.map_cons, List.sum_cons, List.length_cons]
      congr 2
      · push_cast
        ring
      · push_cast
        ring
    · rw [List.filter_cons_of_neg (by simpa using hc), List.foldl_cons]
      simp only [if_neg hc]
      rw [ih]

/-- Claim C17: in exact arithmetic `GetMeanDistEnds` returns `0` when no read has offset
`allele1` or `allele2` (so also for the empty list), and otherwise the arithmetic mean of
`dist_from_end` over exactly the reads whose offset is `allele1` or `allele2`; the
division is performed only with a positive denominator, the number of those reads. -/
theorem C17_mean_dist_ends (reads : List AlignedRead) (allele1 allele2 : Int) :
    GetMeanDistEnds exactArith reads allele1 allele2
      = if reads.filter (fun it => decide (it.diffFromRef = allele1
            ∨ it.diffFromRef = allele2)) = [] then ExtQ.fin 0
        else ExtQ.fin
          ((((reads.filter (fun it => decide (it.diffFromRef = allele1
                ∨ it.diffFromRef = allele2))).map (fun it => it.dist_from_end)).sum : Int)
            / ((reads.filter (fun it => decide (it.diffFromRef = allele1
                ∨ it.diffFromRef = allele2))).length : Nat)) := by
  have h := GetMeanDistEnds.foldl_exact allele1 allele2 reads 0 0
  simp only [GetMeanDistEnds]
  show (if ExtQ.eq (List.foldl _ (ExtQ.fin ((0 : Int) : ℚ), ExtQ.fin ((0 : Int) : ℚ)) reads).2
      (ExtQ.fin ((0 : Int) : ℚ)) = true then ExtQ.fin ((0 : Int) : ℚ)
    else ExtQ.div (List.foldl _ (ExtQ.fin ((0 : Int) : ℚ), ExtQ.fin ((0 : Int) : ℚ)) reads).1
      (List.foldl _ (ExtQ.fin ((0 : Int) : ℚ), ExtQ.fin ((0 : Int) : ℚ)) reads).2) = _
  simp only [Int.cast_zero]
  rw [h]
  simp only [zero_add, ExtQ.eq, decide_eq_true_eq, ExtQ.div]
  by_cases hnil : reads.filter (fun it => decide (it.diffFromRef = allele1
      ∨ it.diffFromRef = allele2)) = []
  · rw [hnil]
    simp
  · have hlen : ((reads.filter (fun it => decide (it.diffFromRef = allele1
        ∨ it.diffFromRef = allele2))).length : ℚ) ≠ 0 := by
      have := List.length_pos.2 hnil
      exact_mod_cast (Nat.pos_iff_ne_zero.1 this)
    rw [if_neg hlen, if_neg hlen, if_neg hnil]

end Genotyper

/-! ## The strand-bias statistic -/

namespace Genotyper

theorem ExtQ_div_fin (x y : ℚ) (hy : y ≠ 0) :
    ExtQ.div (ExtQ.fin x) (ExtQ.fin y) = ExtQ.fin (x / y) := by
  simp only [ExtQ.div, if_neg hy]

/-- A fold that adds to four rational counters what four predicates select. -/
theorem Buckets.foldl_count (f : Buckets exactArith → AlignedRead → Buckets exactArith)
    (pa pb pc pd : AlignedRead → Bool)
    (hf : ∀ (a0 b0 c0 d0 : ℚ) (it : AlignedRead),
      f { a := ExtQ.fin a0, b := ExtQ.fin b0, c := ExtQ.fin c0, d := ExtQ.fin d0 } it
        = { a := ExtQ.fin (a0 + if pa it then 1 else 0),
            b := ExtQ.fin (b0 + if pb it then 1 else 0),
            c := ExtQ.fin (c0 + if pc it then 1 else 0),
            d := ExtQ.fin (d0 + if pd it then 1 else 0) })
    (reads : List AlignedRead) (a0 b0 c0 d0 : ℚ) :
    reads.foldl f { a := ExtQ.fin a0, b := ExtQ.fin b0, c := ExtQ.fin c0, d := ExtQ.fin d0 }
      = { a := ExtQ.fin (a0 + (reads.countP pa : Nat)),
          b := ExtQ.fin (b0 + (reads.countP pb : Nat)),
          c := ExtQ.fin (c0 + (reads.countP pc : Nat)),
          d := ExtQ.fin (d0 + (reads.countP pd : Nat)) } := by
  induction reads generalizing a0 b0 c0 d0 with
  | nil => simp
  | cons it rest ih =>
    rw [List.foldl_cons, hf, ih]
    simp only [List.countP_cons]
    congr 2
    · split <;> push_cast <;> ring
    · split <;> push_cast <;> ring
    · split <;> push_cast <;> ring
    · split <;> push_cast <;> ring

theorem GetStrandBias.buckets_exact (allele1 allele2 : Int) (reads : List AlignedRead) :
    GetStrandBias.buckets exactArith reads allele1 allele2
      = { a := ExtQ.fin (1 + (reads.countP
            (fun it => decide (it.diffFromRef = allele1) && !it.strand) : Nat)),
          b := ExtQ.fin (1 + (reads.countP
            (fun it => !decide (it.diffFromRef = allele1) && decide (it.diffFromRef = allele2)
              && !it.strand) : Nat)),
          c := ExtQ.fin (1 + (reads.countP
            (fun it => decide (it.diffFromRef = allele1) && it.strand) : Nat)),
          d := ExtQ.fin (1 + (reads.countP
            (fun it => !decide (it.diffFromRef = allele1) && decide (it.diffFromRef = allele2)
              && it.strand) : Nat)) } := by
  have h := Buckets.foldl_count
    (fun (k : Buckets exactArith) it =>
      if it.diffFromRef = allele1 then
        if it.strand then { k with c := exactArith.add k.c (exactArith.ofInt 1) }
        else { k with a := exactArith.add k.a (exactArith.ofInt 1) }
      else if it.diffFromRef = allele2 then
        if it.strand then { k with d := exactArith.add k.d (exactArith.ofInt 1) }
        else { k with b := exactArith.add k.b (exactArith.ofInt 1) }
      else k)
    (fun it => decide (it.diffFromRef = allele1) && !it.strand)
    (fun it => !decide (it.diffFromRef = allele1) && decide (it.diffFromRef = allele2)
      && !it.strand)
    (fun it => decide (it.diffFromRef = allele1) && it.strand)
    (fun it => !decide (it.diffFromRef = allele1) && decide (it.diffFromRef = allele2)
      && it.strand)
    (by
      intro a0 b0 c0 d0 it
      have hadd : ∀ x : ℚ, ExtQ.add (ExtQ.fin x) (ExtQ.fin 1) = ExtQ.fin (x + 1) :=
        fun _ => rfl
      by_cases h1 : it.diffFromRef = allele1
      · cases hs : it.strand <;> simp [h1, hs, hadd]
      · by_cases h2 : it.diffFromRef = allele2
        · have h21 : ¬ allele2 = allele1 := fun h => h1 (h2.trans h)
          cases hs : it.strand <;> simp [h2, h21, hs, hadd]
        · cases hs : it.strand <;> simp [h1, h2, hs])
    reads 1 1 1 1
  simpa [GetStrandBias.buckets] using h

/-- Claim C18: in exact arithmetic the four strand buckets of `GetStrandBias` are each at
least `1` (the pseudo-count plus a number of reads), no test of the guard that returns
`-1` holds, every divisor is non-zero, and the returned value is
`(R + 1/R) * (refratio/altratio)` with `R = (a*d)/(c*b)`, `refratio` the larger of `a`,
`c` over the smaller and `altratio` the larger of `b`, `d` over the smaller; it is
strictly positive. -/
theorem C18_strand_bias (reads : List AlignedRead) (allele1 allele2 : Int) :
    ∃ a b c d : ℚ,
      GetStrandBias.buckets exactArith reads allele1 allele2
          = { a := ExtQ.fin a, b := ExtQ.fin b, c := ExtQ.fin c, d := ExtQ.fin d }
        ∧ 1 ≤ a ∧ 1 ≤ b ∧ 1 ≤ c ∧ 1 ≤ d
        ∧ (exactArith.eq (ExtQ.fin a) (exactArith.ofInt 0)
            || exactArith.eq (ExtQ.fin b) (exactArith.ofInt 0)
            || exactArith.eq (ExtQ.fin c) (exactArith.ofInt 0)
            || exactArith.eq (ExtQ.fin d) (exactArith.ofInt 0)) = false
        ∧ c * b ≠ 0 ∧ a * d / (c * b) ≠ 0
        ∧ (if c < a then a / c else c / a) ≠ 0 ∧ (if d < b then b / d else d / b) ≠ 0
        ∧ GetStrandBias exactArith reads allele1 allele2
          = ExtQ.fin ((a * d / (c * b) + 1 / (a * d / (c * b)))
              * ((if c < a then a / c else c / a) / (if d < b then b / d else d / b)))
        ∧ 0 < (a * d / (c * b) + 1 / (a * d / (c * b)))
              * ((if c < a then a / c else c / a) / (if d < b then b / d else d / b)) := by
  have hbk := GetStrandBias.buckets_exact allele1 allele2 reads
  generalize ha : (1 : ℚ) + (reads.countP
    (fun it => decide (it.diffFromRef = allele1) && !it.strand) : Nat) = a at hbk
  generalize hb : (1 : ℚ) + (reads.countP
    (fun it => !decide (it.diffFromRef = allele1) && decide (it.diffFromRef = allele2)
      && !it.strand) : Nat) = b at hbk
  generalize hc : (1 : ℚ) + (reads.countP
    (fun it => decide (it.diffFromRef = allele1) && it.strand) : Nat) = c at hbk
  generalize hd : (1 : ℚ) + (reads.countP
    (fun it => !decide (it.diffFromRef = allele1) && decide (it.diffFromRef = allele2)
      && it.strand) : Nat) = d at hbk
  have ha1 : 1 ≤ a := by rw [← ha]; exact le_add_of_nonneg_right (Nat.cast_nonneg _)
  have hb1 : 1 ≤ b := by rw [← hb]; exact le_add_of_nonneg_right (Nat.cast_nonneg _)
  have hc1 : 1 ≤ c := by rw [← hc]; exact le_add_of_nonneg_right (Nat.cast_nonneg _)
  have hd1 : 1 ≤ d := by rw [← hd]; exact le_add_of_nonneg_right (Nat.cast_nonneg _)
  have hap : 0 < a := by linarith
  have hbp : 0 < b := by linarith
  have hcp : 0 < c := by linarith
  have hdp : 0 < d := by linarith
  have hcb : c * b ≠ 0 := ne_of_gt (mul_pos hcp hbp)
  have hRp : 0 < a * d / (c * b) := div_pos (mul_pos hap hdp) (mul_pos hcp hbp)
  have hR : a * d / (c * b) ≠ 0 := ne_of_gt hRp
  have hrefp : 0 < (if c < a then a / c else c / a) := by
    split
    · exact div_pos hap hcp
    · exact div_pos hcp hap
  have haltp : 0 < (if d < b then b / d else d / b) := by
    split
    · exact div_pos hbp hdp
    · exact div_pos hdp hbp
  have hguard : (exactArith.eq (ExtQ.fin a) (exactArith.ofInt 0)
      || exactArith.eq (ExtQ.fin b) (exactArith.ofInt 0)
      || exactArith.eq (ExtQ.fin c) (exactArith.ofInt 0)
      || exactArith.eq (ExtQ.fin d) (exactArith.ofInt 0)) = false := by
    simp [ExtQ.eq, ne_of_gt hap, ne_of_gt hbp, ne_of_gt hcp, ne_of_gt hdp]
  refine ⟨a, b, c, d, hbk, ha1, hb1, hc1, hd1, hguard, hcb, hR, ne_of_gt hrefp,
    ne_of_gt haltp, ?_, ?_⟩
  · have hval : GetStrandBias exactArith reads allele1 allele2
        = ExtQ.div (ExtQ.mul
            (ExtQ.add (ExtQ.div (ExtQ.mul (ExtQ.fin a) (ExtQ.fin d))
                (ExtQ.mul (ExtQ.fin c) (ExtQ.fin b)))
              (ExtQ.div (ExtQ.fin ((1 : Int) : ℚ)) (ExtQ.div (ExtQ.mul (ExtQ.fin a) (ExtQ.fin d))
                (ExtQ.mul (ExtQ.fin c) (ExtQ.fin b)))))
            (if ExtQ.gt (ExtQ.fin a) (ExtQ.fin c) = true then ExtQ.div (ExtQ.fin a) (ExtQ.fin c)
              else ExtQ.div (ExtQ.fin c) (ExtQ.fin a)))
          (if ExtQ.gt (ExtQ.fin b) (ExtQ.fin d) = true then ExtQ.div (ExtQ.fin b) (ExtQ.fin d)
            else ExtQ.div (ExtQ.fin d) (ExtQ.fin b)) := by
      simp only [GetStrandBias, hbk]
      rw [if_neg (by rw [hguard]; decide)]
    rw [hval]
    have hmul : ∀ x y : ℚ, ExtQ.mul (ExtQ.fin x) (ExtQ.fin y) = ExtQ.fin (x * y) :=
      fun _ _ => rfl
    have hadd : ∀ x y : ℚ, ExtQ.add (ExtQ.fin x) (ExtQ.fin y) = ExtQ.fin (x + y) :=
      fun _ _ => rfl
    have hgt : ∀ x y : ℚ, (ExtQ.gt (ExtQ.fin x) (ExtQ.fin y) = true) = (y < x) := by
      intro x y
      simp [ExtQ.gt]
    have href : (if ExtQ.gt (ExtQ.fin a) (ExtQ.fin c) = true then ExtQ.div (ExtQ.fin a) (ExtQ.fin c)
        else ExtQ.div (ExtQ.fin c) (ExtQ.fin a)) = ExtQ.fin (if c < a then a / c else c / a) := by
      simp only [hgt, ExtQ_div_fin a c (ne_of_gt hcp), ExtQ_div_fin c a (ne_of_gt hap)]
      split <;> rfl
    have halt : (if ExtQ.gt (ExtQ.fin b) (ExtQ.fin d) = true then ExtQ.div (ExtQ.fin b) (ExtQ.fin d)
        else ExtQ.div (ExtQ.fin d) (ExtQ.fin b)) = ExtQ.fin (if d < b then b / d else d / b) := by
      simp only [hgt, ExtQ_div_fin b d (ne_of_gt hdp), ExtQ_div_fin d b (ne_of_gt hbp)]
      split <;> rfl
    rw [href, halt, hmul, hmul, ExtQ_div_fin _ _ hcb, ExtQ_div_fin _ _ hR, hadd, hmul,
      ExtQ_div_fin _ _ (ne_of_gt haltp), Int.cast_one, mul_div_assoc]
  · have hsum : 0 < a * d / (c * b) + 1 / (a * d / (c * b)) :=
      add_pos hRp (one_div_pos.2 hRp)
    exact mul_pos hsum (div_pos hrefp haltp)

end Genotyper

/-! ## The per-read mixture of `CalcLogLik` -/

namespace Genotyper

theorem CalcLogLik.foldl_loglik (A : Arith) (noise_model : NoiseModel A) (a b period : Int)
    (reads : List AlignedRead) (acc : LogLik A) :
    (reads.foldl (CalcLogLik.step A noise_model a b period) acc).loglik
      = (reads.map (fun it =>
          let gc := (noise_model.strInfo (it.chrom, it.msStart)).1
          let score := (noise_model.strInfo (it.chrom, it.msStart)).2
          let length := it.msEnd - it.msStart + it.diffFromRef
          let x := noise_model.GetTransitionProb a it.diffFromRef period length gc score
          let y := noise_model.GetTransitionProb b it.diffFromRef period length gc score
          A.log10 (A.add (specMixture A (A.ofInt 0) x y) (A.ofInt 0)))).foldl A.addL
          acc.loglik := by
  induction reads generalizing acc with
  | nil => rfl
  | cons it rest ih =>
    rw [List.foldl_cons, ih, List.map_cons, List.foldl_cons]
    rfl

theorem toadd_exact (x y : ℚ) :
    toadd exactArith (ExtQ.fin x) (ExtQ.fin y) = ExtQ.fin ((x + y) / 2) := by
  show ExtQ.fin ((((1 : Int) : ℚ) + -((0 : Int) : ℚ)) * (x * (1 / 2)
    + y * (((1 : Int) : ℚ) + -(1 / 2))) + ((0 : Int) : ℚ)) = _
  congr 1
  push_cast
  ring

theorem specMixture_exact_zero (e : ℚ) :
    specMixture exactArith (ExtQ.fin e) (ExtQ.fin 0) (ExtQ.fin 0) = ExtQ.fin e := by
  show ExtQ.fin ((((1 : Int) : ℚ) + -e) * (0 * (1 / 2) + 0 * (((1 : Int) : ℚ) + -(1 / 2))) + e) = _
  congr 1
  ring

/-- Claim C19 fails as stated: the error floor of `CalcLogLik` is `err = 0.0` and
`SMALL_CONST = 0`, so the per-read mixture is `0`, not strictly positive, when both
transition probabilities are `0`; with any positive floor `e` the mixture would be `e`.
On the scenario reads the pair `(0, 0)` therefore has the log-likelihood `log10 0`. -/
theorem C19_mixture_not_positive :
    toadd exactArith (ExtQ.fin 0) (ExtQ.fin 0) = ExtQ.fin 0
      ∧ exactArith.gt (toadd exactArith (ExtQ.fin 0) (ExtQ.fin 0)) (ExtQ.fin 0) = false
      ∧ (∀ e : ℚ, 0 < e →
          specMixture exactArith (ExtQ.fin e) (ExtQ.fin 0) (ExtQ.fin 0)
            ≠ toadd exactArith (ExtQ.fin 0) (ExtQ.fin 0))
      ∧ (CalcLogLik exactArith Scenario.exactMatch 0 0 Scenario.reads 4).loglik
        = exactArith.log10 (ExtQ.fin 0) := by
  have h0 : toadd exactArith (ExtQ.fin 0) (ExtQ.fin 0) = ExtQ.fin 0 := by
    rw [toadd_exact]
    norm_num
  refine ⟨h0, ?_, ?_, by decide!⟩
  · rw [h0]
    decide
  · intro e he
    rw [h0, specMixture_exact_zero]
    intro h
    have : e = 0 := ExtQ.fin.inj h
    linarith

/-- Claim C19, amended: for every read list and alleles `a`, `b`, `CalcLogLik` returns the
sum over all reads of `log10(mixture + SMALL_CONST)` with
`mixture = (1-err)*(x*s + y*(1-s)) + err`, `x` and `y` the transition probabilities of
`a` and `b`, `s = 0.5`, and `err = 0` and `SMALL_CONST = 0`; for the empty read list it
returns `0`.  In exact arithmetic the mixture is `(x + y)/2`. -/
theorem C19_CalcLogLik_is_sum_of_log_mixtures (A : Arith) (noise_model : NoiseModel A)
    (a b : Int) (reads : List AlignedRead) (period : Int) :
    (CalcLogLik A noise_model a b reads period).loglik
        = specLogLik A (A.ofInt 0) (A.ofInt 0) noise_model a b reads period
      ∧ (CalcLogLik A noise_model a b [] period).loglik = A.ofIntL 0
      ∧ ∀ x y : ℚ, specMixture exactArith (exactArith.ofInt 0) (ExtQ.fin x) (ExtQ.fin y)
          = ExtQ.fin ((x + y) / 2) := by
  refine ⟨?_, rfl, fun x y => toadd_exact x y⟩
  unfold CalcLogLik specLogLik
  split
  · rename_i h
    rw [List.length_eq_zero.1 h]
    rfl
  · exact CalcLogLik.foldl_loglik A noise_model a b period reads _

end Genotyper

/-! ## The observed alleles of `GetAlleles` -/

namespace Genotyper

theorem GetAlleles.observe_mem_mono (refcopy : Int) (st : AlleleState) (it : AlignedRead)
    (x : Int) (hx : x ∈ st.alleles) : x ∈ (GetAlleles.observe refcopy st it).alleles := by
  obtain ⟨t, ht⟩ := GetAlleles.observe_append refcopy st it
  rw [ht]
  exact List.mem_append_left _ hx

theorem GetAlleles.foldl_observe_mem_mono (refcopy : Int) (reads : List AlignedRead)
    (st : AlleleState) (x : Int) (hx : x ∈ st.alleles) :
    x ∈ (reads.foldl (GetAlleles.observe refcopy) st).alleles := by
  obtain ⟨t, ht⟩ := GetAlleles.foldl_observe_append refcopy reads st
  rw [ht]
  exact List.mem_append_left _ hx

theorem GetAlleles.observe_collects (refcopy : Int) (st : AlleleState) (it : AlignedRead)
    (hmate : it.mate = false) (hne : it.diffFromRef ≠ 0) (hfloor : it.diffFromRef + refcopy ≥ 1) :
    it.diffFromRef ∈ (GetAlleles.observe refcopy st it).alleles := by
  unfold GetAlleles.observe
  rw [if_neg (by simp [hmate])]
  by_cases hin : it.diffFromRef ∈ st.alleles
  · rw [if_neg (fun h => h.2.1 hin)]
    exact hin
  · rw [if_pos ⟨hne, hin, hfloor⟩]
    exact List.mem_append_right _ (List.mem_singleton_self _)

theorem GetAlleles.foldl_observe_collects (refcopy : Int) (reads : List AlignedRead)
    (st : AlleleState) (r : AlignedRead) (hr : r ∈ reads)
    (hmate : r.mate = false) (hne : r.diffFromRef ≠ 0) (hfloor : r.diffFromRef + refcopy ≥ 1) :
    r.diffFromRef ∈ (reads.foldl (GetAlleles.observe refcopy) st).alleles := by
  induction reads generalizing st with
  | nil => exact absurd hr (List.not_mem_nil r)
  | cons it rest ih =>
    rw [List.foldl_cons]
    rcases List.mem_cons.1 hr with h | h
    · subst h
      exact GetAlleles.foldl_observe_mem_mono refcopy rest _ _
        (GetAlleles.observe_collects refcopy st r hmate hne hfloor)
    · exact ih _ h

theorem GetAlleles.foldl_observe_filter (refcopy : Int) (reads : List AlignedRead)
    (st : AlleleState) :
    reads.foldl (GetAlleles.observe refcopy) st
      = (reads.filter (fun r => !r.mate)).foldl (GetAlleles.observe refcopy) st := by
  induction reads generalizing st with
  | nil => rfl
  | cons it rest ih =>
    cases hm : it.mate
    · rw [List.filter_cons_of_pos (by simp [hm]), List.foldl_cons, List.foldl_cons, ih]
    · rw [List.filter_cons_of_neg (by simp [hm]), List.foldl_cons, ih]
      have : GetAlleles.observe refcopy st it = st := by
        unfold GetAlleles.observe
        rw [if_pos hm]
      rw [this]

theorem GetAlleles.foldl_observe_origin (refcopy : Int) (reads : List AlignedRead)
    (st : AlleleState) (x : Int)
    (hx : x ∈ (reads.foldl (GetAlleles.observe refcopy) st).alleles) :
    x ∈ st.alleles ∨ ∃ r ∈ reads, r.mate = false ∧ r.diffFromRef = x := by
  induction reads generalizing st with
  | nil => exact Or.inl hx
  | cons it rest ih =>
    rw [List.foldl_cons] at hx
    rcases ih _ hx with h | ⟨r, hr, hm, hd⟩
    · unfold GetAlleles.observe at h
      split at h
      · exact Or.inl h
      · rename_i hmate
        split at h
        · rcases List.mem_append.1 h with h1 | h1
          · exact Or.inl h1
          · exact Or.inr ⟨it, List.mem_cons_self _ _, by simpa using hmate,
              (List.mem_singleton.1 h1).symm⟩
        · exact Or.inl h
    · exact Or.inr ⟨r, List.mem_cons_of_mem _ hr, hm, hd⟩

end Genotyper

namespace Genotyper

/-- Claim C20: for a non-empty read list with first read `front`, every non-zero offset
carried by a non-mate read `r` and not below the floor (offset plus
`front.msEnd - front.msStart + 1` at least `1`) occurs in the output of `GetAlleles`; the
reads flagged as mate do not change the collected alleles nor the tracked minimum and
maximum, and every collected allele is `0` or the offset of a non-mate read. -/
theorem C20_observed_offsets (gridk : Int) (front : AlignedRead) (rest : List AlignedRead)
    (r : AlignedRead) (hr : r ∈ front :: rest) (hmate : r.mate = false)
    (hne : r.diffFromRef ≠ 0)
    (hfloor : r.diffFromRef + (front.msEnd - front.msStart + 1) ≥ 1) :
    r.diffFromRef ∈ GetAlleles gridk (front :: rest)
      ∧ GetAlleles.observed (front.msEnd - front.msStart + 1) (front :: rest)
        = GetAlleles.observed (front.msEnd - front.msStart + 1)
            ((front :: rest).filter (fun it => !it.mate))
      ∧ ∀ x ∈ (GetAlleles.observed (front.msEnd - front.msStart + 1) (front :: rest)).alleles,
          x = 0 ∨ ∃ it ∈ front :: rest, it.mate = false ∧ it.diffFromRef = x := by
  refine ⟨?_, GetAlleles.foldl_observe_filter _ _ _, ?_⟩
  · obtain ⟨t, ht⟩ := GetAlleles.foldl_pad_append gridk (front.msEnd - front.msStart + 1)
      (GetAlleles.observed (front.msEnd - front.msStart + 1) (front :: rest)).min_allele
      (GetAlleles.observed (front.msEnd - front.msStart + 1) (front :: rest)).max_allele
      (List.range gridk.toNat)
      (GetAlleles.observed (front.msEnd - front.msStart + 1) (front :: rest)).alleles
    have hget : GetAlleles gridk (front :: rest)
        = (GetAlleles.observed (front.msEnd - front.msStart + 1) (front :: rest)).alleles ++ t := by
      rw [← ht]
      rfl
    rw [hget]
    exact List.mem_append_left _
      (GetAlleles.foldl_observe_collects _ (front :: rest) _ r hr hmate hne hfloor)
  · intro x hx
    rcases GetAlleles.foldl_observe_origin _ (front :: rest) _ x hx with h | h
    · exact Or.inl (List.mem_singleton.1 h)
    · exact Or.inr h

/-- Witness of C20: the scenario reads preceded by a mate read of offset `8`; the offset
`-4` of a non-mate read is in the output. -/
theorem C20_observed_offsets_witness :
    Scenario.read (-4) ∈ { Scenario.read 8 with mate := true } :: Scenario.reads
      ∧ (Scenario.read (-4)).mate = false
      ∧ (Scenario.read (-4)).diffFromRef ≠ 0
      ∧ (Scenario.read (-4)).diffFromRef
          + (({ Scenario.read 8 with mate := true } : AlignedRead).msEnd
            - ({ Scenario.read 8 with mate := true } : AlignedRead).msStart + 1) ≥ 1
      ∧ (Scenario.read (-4)).diffFromRef
          ∈ GetAlleles 4 ({ Scenario.read 8 with mate := true } :: Scenario.reads)
      ∧ (GetAlleles.observed 40 ({ Scenario.read 8 with mate := true } :: Scenario.reads)).alleles
        = [0, -4] :=
  ⟨by decide, by decide, by decide, by decide,
    (C20_observed_offsets 4 { Scenario.read 8 with mate := true } Scenario.reads
      (Scenario.read (-4)) (by decide) (by decide) (by decide) (by decide)).1,
    by decide⟩

end Genotyper

/-! ## The per-sample vectors of the record -/

namespace Genotyper

theorem ProcessLocus_appendsOne (A : Arith) (cfg : Config A) (reads : List AlignedRead)
    (str_record : STRRecord A) (is_haploid : Bool) :
    appendsOne (ProcessLocus A cfg reads str_record is_haploid) str_record :=
  ⟨⟨_, rfl⟩, ⟨_, rfl⟩, ⟨_, rfl⟩, ⟨_, rfl⟩, ⟨_, rfl⟩, ⟨_, rfl⟩, ⟨_, rfl⟩, ⟨_, rfl⟩, ⟨_, rfl⟩,
    ⟨_, rfl⟩, ⟨_, rfl⟩, ⟨_, rfl⟩, ⟨_, rfl⟩, ⟨_, rfl⟩, ⟨_, rfl⟩, ⟨_, rfl⟩, ⟨_, rfl⟩, ⟨_, rfl⟩⟩

theorem ProcessLocus_totalcov (A : Arith) (cfg : Config A) (reads : List AlignedRead)
    (str_record : STRRecord A) (is_haploid : Bool) :
    (ProcessLocus A cfg reads str_record is_haploid).totalcov = str_record.totalcov
      ∧ (ProcessLocus A cfg reads str_record is_haploid).samples = str_record.samples
      ∧ (ProcessLocus A cfg reads str_record is_haploid).alleles_to_include
        = str_record.alleles_to_include
      ∧ (ProcessLocus A cfg reads str_record is_haploid).numcovered = str_record.numcovered :=
  ⟨rfl, rfl, rfl, rfl⟩

theorem appendsOne_length {A : Arith} {r r0 : STRRecord A} (h : appendsOne r r0) (n : Nat)
    (h0 : processedLength r0 n) : processedLength r (n + 1) := by
  obtain ⟨⟨_, a1⟩, ⟨_, a2⟩, ⟨_, a3⟩, ⟨_, a4⟩, ⟨_, a5⟩, ⟨_, a6⟩, ⟨_, a7⟩, ⟨_, a8⟩, ⟨_, a9⟩,
    ⟨_, a10⟩, ⟨_, a11⟩, ⟨_, a12⟩, ⟨_, a13⟩, ⟨_, a14⟩, ⟨_, a15⟩, ⟨_, a16⟩, ⟨_, a17⟩,
    ⟨_, a18⟩⟩ := h
  obtain ⟨b1, b2, b3, b4, b5, b6, b7, b8, b9, b10, b11, b12, b13, b14, b15, b16, b17, b18⟩ := h0
  refine ⟨?_, ?_, ?_, ?_, ?_, ?_, ?_, ?_, ?_, ?_, ?_, ?_, ?_, ?_, ?_, ?_, ?_, ?_⟩
  · rw [a1, List.length_append, b1]; rfl
  · rw [a2, List.length_append, b2]; rfl
  · rw [a3, List.length_append, b3]; rfl
  · rw [a4, List.length_append, b4]; rfl
  · rw [a5, List.length_append, b5]; rfl
  · rw [a6, List.length_append, b6]; rfl
  · rw [a7, List.length_append, b7]; rfl
  · rw [a8, List.length_append, b8]; rfl
  · rw [a9, List.length_append, b9]; rfl
  · rw [a10, List.length_append, b10]; rfl
  · rw [a11, List.length_append, b11]; rfl
  · rw [a12, List.length_append, b12]; rfl
  · rw [a13, List.length_append, b13]; rfl
  · rw [a14, List.length_append, b14]; rfl
  · rw [a15, List.length_append, b15]; rfl
  · rw [a16, List.length_append, b16]; rfl
  · rw [a17, List.length_append, b17]; rfl
  · rw [a18, List.length_append, b18]; rfl

theorem Genotype.sample_ok (A : Arith) (cfg : Config A) (is_haploid : Bool)
    (sample_reads overlap : List (List AlignedRead)) (str_record : STRRecord A) (i : Nat)
    (out : STRRecord A)
    (h : Genotype.sample A cfg is_haploid sample_reads overlap str_record i = .ok out) :
    ∃ (reads : List AlignedRead) (ov : Nat),
      out = { ProcessLocus A cfg reads str_record is_haploid with
        totalcov := str_record.totalcov ++ [(ov : Int)],
        numcovered := if ov > 0 then str_record.numcovered + 1 else str_record.numcovered } := by
  unfold Genotype.sample at h
  cases hs : sample_reads.get? i with
  | none =>
    rw [hs] at h
    cases h
  | some reads0 =>
    rw [hs] at h
    simp only at h
    cases ho : overlap.get? i with
    | none =>
      rw [ho] at h
      cases h
    | some overlap0 =>
      rw [ho] at h
      injection h with h
      exact ⟨_, overlap0.length, h.symm⟩

theorem Genotype.sample_length (A : Arith) (cfg : Config A) (is_haploid : Bool)
    (sample_reads overlap : List (List AlignedRead)) (str_record : STRRecord A) (i : Nat)
    (out : STRRecord A)
    (h : Genotype.sample A cfg is_haploid sample_reads overlap str_record i = .ok out)
    (n : Nat) (h0 : perSampleLength str_record n) :
    perSampleLength out (n + 1) ∧ out.samples = str_record.samples := by
  obtain ⟨reads, ov, rfl⟩ := Genotype.sample_ok A cfg is_haploid sample_reads overlap
    str_record i out h
  refine ⟨⟨appendsOne_length (ProcessLocus_appendsOne A cfg reads str_record is_haploid) n h0.1,
    ?_⟩, rfl⟩
  show (str_record.totalcov ++ [(ov : Int)]).length = n + 1
  rw [List.length_append, h0.2]
  rfl

theorem Genotype.loop_length (A : Arith) (cfg : Config A) (is_haploid : Bool)
    (sample_reads overlap : List (List AlignedRead)) (is : List Nat) (str_record : STRRecord A)
    (out : STRRecord A)
    (h : Genotype.loop A cfg is_haploid sample_reads overlap is str_record = .ok out)
    (n : Nat) (h0 : perSampleLength str_record n) :
    perSampleLength out (n + is.length) ∧ out.samples = str_record.samples := by
  induction is generalizing str_record n with
  | nil =>
    injection h with h
    subst h
    exact ⟨h0, rfl⟩
  | cons i rest ih =>
    unfold Genotype.loop at h
    split at h
    · rename_i next hnext
      obtain ⟨hl, hs⟩ := Genotype.sample_length A cfg is_haploid sample_reads overlap
        str_record i next hnext n h0
      obtain ⟨hl2, hs2⟩ := ih next h (n + 1) hl
      refine ⟨?_, hs2.trans hs⟩
      have : n + (i :: rest).length = n + 1 + rest.length := by
        simp only [List.length_cons]
        omega
      rw [this]
      exact hl2
    · cases h

theorem Genotype.setup_spec (A : Arith) (cfg : Config A)
    (read_list overlapping_reads : List AlignedRead) (hap ann : Bool) (rec1 : STRRecord A)
    (h : Genotype.setup A cfg read_list overlapping_reads = .ok (some (hap, ann, rec1))) :
    perSampleLength rec1 0 ∧ rec1.samples = cfg.samples ∧ rec1.numcalls = 0
      ∧ rec1.numcovered = 0
      ∧ ∃ front rest, overlapping_reads = front :: rest
        ∧ ann = (cfg.annotations (front.chrom, front.msStart)).isSome := by
  unfold Genotype.setup at h
  split at h
  · cases h
  · rename_i front rest
    simp only at h
    split at h
    · cases h
    · split at h
      · cases h
      · split at h
        · cases h
        · split at h
          · cases h
          · split at h
            · cases h
            · split at h
              · rename_i annot hannot
                injection h with h
                injection h with h
                injection h with h1 h2
                injection h2 with h2 h3
                subst h3
                subst h2
                refine ⟨⟨⟨rfl, rfl, rfl, rfl, rfl, rfl, rfl, rfl, rfl, rfl, rfl, rfl, rfl, rfl,
                  rfl, rfl, rfl, rfl⟩, rfl⟩, rfl, rfl, rfl, front, rest, rfl, ?_⟩
                rw [hannot]
                rfl
              · rename_i hannot
                split at h
                · cases h
                · injection h with h
                  injection h with h
                  injection h with h1 h2
                  injection h2 with h2 h3
                  subst h3
                  subst h2
                  refine ⟨⟨⟨rfl, rfl, rfl, rfl, rfl, rfl, rfl, rfl, rfl, rfl, rfl, rfl, rfl,
                    rfl, rfl, rfl, rfl, rfl⟩, rfl⟩, rfl, rfl, rfl, front, rest, rfl, ?_⟩
                  rw [hannot]
                  rfl

end Genotyper

namespace Genotyper

theorem Genotype.afterLoop_spec (A : Arith) (cfg : Config A)
    (read_list overlapping_reads : List AlignedRead) (ann : Bool) (out : STRRecord A)
    (h : Genotype.afterLoop A cfg read_list overlapping_reads = .ok (some (ann, out))) :
    ∃ hap rec1 sample_reads overlap,
      Genotype.setup A cfg read_list overlapping_reads = .ok (some (hap, ann, rec1))
        ∧ Genotype.loop A cfg hap sample_reads overlap (List.range cfg.samples.length) rec1
          = .ok out := by
  unfold Genotype.afterLoop at h
  split at h
  · cases h
  · cases h
  · rename_i hap ann1 rec1 hsetup
    split at h
    · cases h
    · rename_i overlap _
      split at h
      · cases h
      · rename_i sample_reads _
        split at h
        · cases h
        · rename_i rec2 hloop
          injection h with h
          injection h with h
          injection h with h1 h2
          subst h1
          subst h2
          exact ⟨hap, rec1, sample_reads, overlap, hsetup, hloop⟩

/-- Claim C11: every call to `ProcessLocus` appends exactly one element to each of the
eighteen per-sample vectors it fills, so vectors of equal length `n` have length `n + 1`
after the call; and after the per-sample loop of `Genotype`, which also appends
`totalcov`, every per-sample vector has length equal to the number of samples. -/
theorem C11_per_sample_vectors (A : Arith) (cfg : Config A) (reads : List AlignedRead)
    (str_record : STRRecord A) (is_haploid : Bool) (n : Nat)
    (read_list overlapping_reads : List AlignedRead) (ann : Bool) (out : STRRecord A)
    (hn : processedLength str_record n)
    (h : Genotype.afterLoop A cfg read_list overlapping_reads = .ok (some (ann, out))) :
    appendsOne (ProcessLocus A cfg reads str_record is_haploid) str_record
      ∧ processedLength (ProcessLocus A cfg reads str_record is_haploid) (n + 1)
      ∧ perSampleLength out cfg.samples.length := by
  refine ⟨ProcessLocus_appendsOne A cfg reads str_record is_haploid,
    appendsOne_length (ProcessLocus_appendsOne A cfg reads str_record is_haploid) n hn, ?_⟩
  obtain ⟨hap, rec1, sample_reads, overlap, hsetup, hloop⟩ :=
    Genotype.afterLoop_spec A cfg read_list overlapping_reads ann out h
  have h0 := (Genotype.setup_spec A cfg read_list overlapping_reads hap ann rec1 hsetup).1
  have hl := (Genotype.loop_length A cfg hap sample_reads overlap
    (List.range cfg.samples.length) rec1 out hloop 0 h0).1
  simpa using hl

/-- Witness of C11: the scenario record, and the one-sample locus with the scenario
reads. -/
theorem C11_per_sample_vectors_witness :
    processedLength Scenario.record 0
      ∧ Genotype.afterLoop exactArith Locus.config Scenario.reads Scenario.reads
        = .ok (some (false,
            Locus.looped (Genotype.afterLoop exactArith Locus.config Scenario.reads
              Scenario.reads)))
      ∧ perSampleLength
          (Locus.looped (Genotype.afterLoop exactArith Locus.config Scenario.reads
            Scenario.reads))
          Locus.config.samples.length :=
  ⟨⟨rfl, rfl, rfl, rfl, rfl, rfl, rfl, rfl, rfl, rfl, rfl, rfl, rfl, rfl, rfl, rfl, rfl, rfl⟩,
    rfl,
    (C11_per_sample_vectors exactArith Locus.config Scenario.reads Scenario.record false 0
      Scenario.reads Scenario.reads false
      (Locus.looped (Genotype.afterLoop exactArith Locus.config Scenario.reads Scenario.reads))
      ⟨rfl, rfl, rfl, rfl, rfl, rfl, rfl, rfl, rfl, rfl, rfl, rfl, rfl, rfl, rfl, rfl, rfl, rfl⟩
      rfl).2.2⟩

end Genotyper

/-! ## The allele list after genotyping -/

namespace Genotyper

theorem mem_pushIfNew (l : List Int) (a x : Int) :
    x ∈ pushIfNew l a ↔ x ∈ l ∨ (x = a ∧ a ≠ 0) := by
  unfold pushIfNew
  by_cases h0 : a ≠ 0
  · rw [if_pos h0]
    by_cases hin : a ∈ l
    · rw [if_neg (not_not.2 hin)]
      constructor
      · exact Or.inl
      · rintro (h | ⟨rfl, _⟩)
        · exact h
        · exact hin
    · rw [if_pos hin]
      simp only [List.mem_append, List.mem_singleton]
      constructor
      · rintro (h | h)
        · exact Or.inl h
        · exact Or.inr ⟨h, h0⟩
      · rintro (h | ⟨h, _⟩)
        · exact Or.inl h
        · exact Or.inr h
  · rw [if_neg h0]
    constructor
    · exact Or.inl
    · rintro (h | ⟨_, h⟩)
      · exact h
      · exact absurd h h0

theorem nodup_pushIfNew (l : List Int) (a : Int) (h : l.Nodup) : (pushIfNew l a).Nodup := by
  unfold pushIfNew
  split
  · split
    · rename_i hin
      exact List.Nodup.append h (List.nodup_singleton a)
        (by
          intro x hx hxa
          rw [List.mem_singleton.1 hxa] at hx
          exact hin hx)
    · exact h
  · exact h

theorem Genotype.calledAlleles_spec {A : Arith} (str_record : STRRecord A) (is : List Nat)
    (acc l : List Int) (h : Genotype.calledAlleles str_record is acc = .ok l)
    (hnd : acc.Nodup) (h0 : (0 : Int) ∉ acc) :
    l.Nodup ∧ (0 : Int) ∉ l
      ∧ ∀ x, x ∈ l ↔ x ∈ acc ∨ (x ≠ 0 ∧ ∃ i ∈ is,
          str_record.allele1.get? i = some x ∨ str_record.allele2.get? i = some x) := by
  induction is generalizing acc with
  | nil =>
    injection h with h
    subst h
    refine ⟨hnd, h0, fun x => ⟨Or.inl, ?_⟩⟩
    rintro (h | ⟨_, i, hi, _⟩)
    · exact h
    · exact absurd hi (List.not_mem_nil i)
  | cons i rest ih =>
    unfold Genotype.calledAlleles at h
    split at h
    · rename_i a1 a2 h1 h2
      have hnd2 := nodup_pushIfNew _ a2 (nodup_pushIfNew acc a1 hnd)
      have h02 : (0 : Int) ∉ pushIfNew (pushIfNew acc a1) a2 := by
        intro hz
        rcases (mem_pushIfNew _ _ _).1 hz with hz | ⟨hz, hne⟩
        · rcases (mem_pushIfNew _ _ _).1 hz with hz | ⟨hz, hne⟩
          · exact h0 hz
          · exact hne hz.symm
        · exact hne hz.symm
      obtain ⟨r1, r2, r3⟩ := ih _ h hnd2 h02
      refine ⟨r1, r2, fun x => ?_⟩
      rw [r3 x, mem_pushIfNew, mem_pushIfNew]
      constructor
      · rintro ((((h | ⟨rfl, hne⟩) | ⟨rfl, hne⟩)) | ⟨hne, j, hj, hget⟩)
        · exact Or.inl h
        · exact Or.inr ⟨hne, i, List.mem_cons_self _ _, Or.inl h1⟩
        · exact Or.inr ⟨hne, i, List.mem_cons_self _ _, Or.inr h2⟩
        · exact Or.inr ⟨hne, j, List.mem_cons_of_mem _ hj, hget⟩
      · rintro (h | ⟨hne, j, hj, hget⟩)
        · exact Or.inl (Or.inl (Or.inl h))
        · rcases List.mem_cons.1 hj with rfl | hj
          · rcases hget with hget | hget
            · rw [h1] at hget
              have : a1 = x := Option.some.inj hget
              subst this
              exact Or.inl (Or.inl (Or.inr ⟨rfl, hne⟩))
            · rw [h2] at hget
              have : a2 = x := Option.some.inj hget
              subst this
              exact Or.inl (Or.inr ⟨rfl, hne⟩)
          · exact Or.inr ⟨hne, j, hj, hget⟩
    · cases h

theorem mem_iff_get?_range {l : List Int} {n : Nat} (hn : l.length = n) (x : Int) :
    (∃ i ∈ List.range n, l.get? i = some x) ↔ x ∈ l := by
  constructor
  · rintro ⟨i, _, hi⟩
    exact List.mem_iff_get?.2 ⟨i, hi⟩
  · intro hx
    obtain ⟨i, hi⟩ := List.mem_iff_get?.1 hx
    refine ⟨i, ?_, hi⟩
    rw [List.mem_range, ← hn]
    obtain ⟨hlt, _⟩ := List.get?_eq_some.1 hi
    exact hlt

theorem Genotype.finish_spec {A : Arith} (ann : Bool) (rec2 out : STRRecord A)
    (h : Genotype.finish ann rec2 = .ok out) :
    out.allele1 = rec2.allele1 ∧ out.allele2 = rec2.allele2 ∧ out.coverage = rec2.coverage
      ∧ out.totalcov = rec2.totalcov ∧ out.numcalls = rec2.numcalls
      ∧ out.numcovered = rec2.numcovered
      ∧ ∃ l, out.alleles_to_include = 0 :: l.insertionSort (fun x y => x ≤ y)
        ∧ (ann = false →
            Genotype.calledAlleles rec2 (List.range rec2.samples.length) [] = .ok l)
        ∧ (ann = true → l = rec2.alleles_to_include) := by
  unfold Genotype.finish at h
  simp only at h
  split at h
  · cases h
  · rename_i l hl
    injection h with h
    subst h
    refine ⟨rfl, rfl, rfl, rfl, rfl, rfl, l, rfl, ?_, ?_⟩
    · intro hann
      rw [if_pos hann] at hl
      exact hl
    · intro hann
      rw [if_neg (by simp [hann])] at hl
      injection hl with hl
      exact hl.symm

end Genotyper

namespace Genotyper

theorem Genotype.record_spec (A : Arith) (cfg : Config A)
    (read_list overlapping_reads : List AlignedRead) (out : STRRecord A)
    (h : Genotype.record A cfg read_list overlapping_reads = .ok (some out)) :
    ∃ ann rec2, Genotype.afterLoop A cfg read_list overlapping_reads = .ok (some (ann, rec2))
      ∧ Genotype.finish ann rec2 = .ok out := by
  unfold Genotype.record at h
  split at h
  · cases h
  · cases h
  · rename_i ann rec2 hloop
    split at h
    · cases h
    · rename_i rec3 hfin
      injection h with h
      injection h with h
      subst h
      exact ⟨ann, rec2, hloop, hfin⟩

theorem Genotype_spec (A : Arith) (cfg : Config A)
    (read_list overlapping_reads : List AlignedRead) (out : STRRecord A)
    (h : Genotype A cfg read_list overlapping_reads = .ok (some out)) :
    Genotype.record A cfg read_list overlapping_reads = .ok (some out)
      ∧ (out.numcalls > 0 ∨ (cfg.report_nocalls = true ∧ out.numcovered > 0)) := by
  unfold Genotype at h
  split at h
  · cases h
  · cases h
  · rename_i str_record hrec
    split at h
    · rename_i hcond
      injection h with h
      injection h with h
      subst h
      exact ⟨hrec, hcond⟩
    · cases h

/-- Claim C12 fails as stated: at the one-sample locus with the scenario reads (no
annotation) the call is `(-4, 0)` and the allele list that `Genotype` leaves in the
written record is `0, -4`, which is not in ascending order. -/
theorem C12_allele_list_not_ascending :
    Locus.config.annotations ("chr1", 101) = none
      ∧ Genotype exactArith Locus.config Scenario.reads Scenario.reads
        = .ok (some (Locus.written
            (Genotype exactArith Locus.config Scenario.reads Scenario.reads)))
      ∧ (Locus.written (Genotype exactArith Locus.config Scenario.reads
          Scenario.reads)).allele1 = [-4]
      ∧ (Locus.written (Genotype exactArith Locus.config Scenario.reads
          Scenario.reads)).allele2 = [0]
      ∧ (Locus.written (Genotype exactArith Locus.config Scenario.reads
          Scenario.reads)).alleles_to_include = [0, -4]
      ∧ ¬ List.Sorted (fun x y : Int => x ≤ y)
          (Locus.written (Genotype exactArith Locus.config Scenario.reads
            Scenario.reads)).alleles_to_include := by
  have h : (Locus.written (Genotype exactArith Locus.config Scenario.reads
      Scenario.reads)).alleles_to_include = [0, -4] := by decide!
  refine ⟨rfl, rfl, by decide!, by decide!, h, ?_⟩
  rw [h]
  decide

/-- Claim C12, amended: when the locus has no external annotation, the allele list that
`Genotype` leaves in the record is `0` followed, in strictly ascending order, by the
distinct non-zero values of the per-sample entries `allele1` and `allele2`. -/
theorem C12_allele_list_after_genotyping (A : Arith) (cfg : Config A)
    (read_list : List AlignedRead) (front : AlignedRead) (rest : List AlignedRead)
    (out : STRRecord A)
    (hann : cfg.annotations (front.chrom, front.msStart) = none)
    (h : Genotype.record A cfg read_list (front :: rest) = .ok (some out)) :
    ∃ tail : List Int, out.alleles_to_include = 0 :: tail
      ∧ tail.Sorted (fun x y => x < y) ∧ (0 : Int) ∉ tail
      ∧ ∀ x, x ∈ tail ↔ x ≠ 0 ∧ (x ∈ out.allele1 ∨ x ∈ out.allele2) := by
  obtain ⟨ann, rec2, hloop, hfin⟩ := Genotype.record_spec A cfg read_list (front :: rest) out h
  obtain ⟨hap, rec1, sample_reads, overlap, hsetup, hl⟩ :=
    Genotype.afterLoop_spec A cfg read_list (front :: rest) ann rec2 hloop
  obtain ⟨hlen0, hsamples, _, _, front1, rest1, hfr, hannval⟩ :=
    Genotype.setup_spec A cfg read_list (front :: rest) hap ann rec1 hsetup
  have hfront : front1 = front := by
    injection hfr with h1 _
    exact h1.symm
  rw [hfront, hann] at hannval
  have hannf : ann = false := hannval
  obtain ⟨hlen, hs2⟩ := Genotype.loop_length A cfg hap sample_reads overlap
    (List.range cfg.samples.length) rec1 rec2 hl 0 hlen0
  have hn : rec2.samples.length = cfg.samples.length := by rw [hs2, hsamples]
  have hl1 : rec2.allele1.length = rec2.samples.length := by
    rw [hn]
    simpa using hlen.1.2.1
  have hl2 : rec2.allele2.length = rec2.samples.length := by
    rw [hn]
    simpa using hlen.1.2.2.1
  obtain ⟨e1, e2, _, _, _, _, l, hal, hcalled, _⟩ := Genotype.finish_spec ann rec2 out hfin
  obtain ⟨hnd, h0, hmem⟩ := Genotype.calledAlleles_spec rec2 _ [] l (hcalled hannf)
    List.nodup_nil (List.not_mem_nil _)
  have hperm := List.perm_insertionSort (fun x y : Int => x ≤ y) l
  refine ⟨l.insertionSort (fun x y => x ≤ y), hal, ?_, ?_, ?_⟩
  · exact (List.sorted_insertionSort (fun x y : Int => x ≤ y) l).lt_of_le
      (hperm.nodup_iff.2 hnd)
  · exact fun hz => h0 (hperm.mem_iff.1 hz)
  · intro x
    rw [hperm.mem_iff, hmem x, e1, e2]
    constructor
    · rintro (hx | ⟨hne, i, hi, hget⟩)
      · exact absurd hx (List.not_mem_nil x)
      · refine ⟨hne, ?_⟩
        rcases hget with hget | hget
        · exact Or.inl ((mem_iff_get?_range hl1 x).1 ⟨i, hi, hget⟩)
        · exact Or.inr ((mem_iff_get?_range hl2 x).1 ⟨i, hi, hget⟩)
    · rintro ⟨hne, hx | hx⟩
      · obtain ⟨i, hi, hget⟩ := (mem_iff_get?_range hl1 x).2 hx
        exact Or.inr ⟨hne, i, hi, Or.inl hget⟩
      · obtain ⟨i, hi, hget⟩ := (mem_iff_get?_range hl2 x).2 hx
        exact Or.inr ⟨hne, i, hi, Or.inr hget⟩

/-- Witness of the amended C12: the one-sample locus with the scenario reads. -/
theorem C12_allele_list_after_genotyping_witness :
    Locus.config.annotations ((Scenario.read 0).chrom, (Scenario.read 0).msStart) = none
      ∧ Genotype.record exactArith Locus.config Scenario.reads
          (Scenario.read 0 :: [Scenario.read 0, Scenario.read (-4)])
        = .ok (some (Locus.written (Genotype.record exactArith Locus.config Scenario.reads
            Scenario.reads)))
      ∧ ∃ tail : List Int,
          (Locus.written (Genotype.record exactArith Locus.config Scenario.reads
            Scenario.reads)).alleles_to_include = 0 :: tail
          ∧ tail.Sorted (fun x y => x < y) ∧ (0 : Int) ∉ tail
          ∧ ∀ x, x ∈ tail ↔ x ≠ 0
            ∧ (x ∈ (Locus.written (Genotype.record exactArith Locus.config Scenario.reads
                  Scenario.reads)).allele1
              ∨ x ∈ (Locus.written (Genotype.record exactArith Locus.config Scenario.reads
                  Scenario.reads)).allele2) :=
  ⟨rfl, rfl,
    C12_allele_list_after_genotyping exactArith Locus.config Scenario.reads (Scenario.read 0)
      [Scenario.read 0, Scenario.read (-4)]
      (Locus.written (Genotype.record exactArith Locus.config Scenario.reads Scenario.reads))
      rfl rfl⟩

end Genotyper

/-! ## When the record is written -/

namespace Genotyper

theorem ProcessLocus_counts (A : Arith) (cfg : Config A) (reads : List AlignedRead)
    (str_record : STRRecord A) (is_haploid : Bool) :
    (ProcessLocus A cfg reads str_record is_haploid).numcalls
        = (if ((reads.length : Nat) : Int) ≠ 0 then str_record.numcalls + 1
          else str_record.numcalls)
      ∧ (ProcessLocus A cfg reads str_record is_haploid).coverage
        = str_record.coverage ++ [((reads.length : Nat) : Int)] :=
  ⟨rfl, rfl⟩

theorem Genotype.sample_counts (A : Arith) (cfg : Config A) (is_haploid : Bool)
    (sample_reads overlap : List (List AlignedRead)) (str_record : STRRecord A) (i : Nat)
    (out : STRRecord A)
    (h : Genotype.sample A cfg is_haploid sample_reads overlap str_record i = .ok out)
    (h1 : str_record.numcalls > 0 → ∃ c ∈ str_record.coverage, c ≠ 0)
    (h2 : str_record.numcovered > 0 → ∃ t ∈ str_record.totalcov, 0 < t) :
    (out.numcalls > 0 → ∃ c ∈ out.coverage, c ≠ 0)
      ∧ (out.numcovered > 0 → ∃ t ∈ out.totalcov, 0 < t) := by
  obtain ⟨reads, ov, rfl⟩ := Genotype.sample_ok A cfg is_haploid sample_reads overlap
    str_record i out h
  obtain ⟨hc, hv⟩ := ProcessLocus_counts A cfg reads str_record is_haploid
  constructor
  · intro hpos
    have hpos1 : (ProcessLocus A cfg reads str_record is_haploid).numcalls > 0 := hpos
    show ∃ c ∈ (ProcessLocus A cfg reads str_record is_haploid).coverage, c ≠ 0
    rw [hv]
    rw [hc] at hpos1
    by_cases hz : ((reads.length : Nat) : Int) ≠ 0
    · exact ⟨_, List.mem_append_right _ (List.mem_singleton_self _), hz⟩
    · rw [if_neg hz] at hpos1
      obtain ⟨c, hcm, hc0⟩ := h1 hpos1
      exact ⟨c, List.mem_append_left _ hcm, hc0⟩
  · intro hpos
    have hpos1 : (if ov > 0 then str_record.numcovered + 1 else str_record.numcovered) > 0 :=
      hpos
    show ∃ t ∈ str_record.totalcov ++ [(ov : Int)], 0 < t
    by_cases hz : ov > 0
    · exact ⟨_, List.mem_append_right _ (List.mem_singleton_self _), by exact_mod_cast hz⟩
    · rw [if_neg hz] at hpos1
      obtain ⟨t, htm, ht0⟩ := h2 hpos1
      exact ⟨t, List.mem_append_left _ htm, ht0⟩

theorem Genotype.loop_counts (A : Arith) (cfg : Config A) (is_haploid : Bool)
    (sample_reads overlap : List (List AlignedRead)) (is : List Nat) (str_record : STRRecord A)
    (out : STRRecord A)
    (h : Genotype.loop A cfg is_haploid sample_reads overlap is str_record = .ok out)
    (h1 : str_record.numcalls > 0 → ∃ c ∈ str_record.coverage, c ≠ 0)
    (h2 : str_record.numcovered > 0 → ∃ t ∈ str_record.totalcov, 0 < t) :
    (out.numcalls > 0 → ∃ c ∈ out.coverage, c ≠ 0)
      ∧ (out.numcovered > 0 → ∃ t ∈ out.totalcov, 0 < t) := by
  induction is generalizing str_record with
  | nil =>
    injection h with h
    subst h
    exact ⟨h1, h2⟩
  | cons i rest ih =>
    unfold Genotype.loop at h
    split at h
    · rename_i next hnext
      obtain ⟨n1, n2⟩ := Genotype.sample_counts A cfg is_haploid sample_reads overlap
        str_record i next hnext h1 h2
      exact ih next h n1 n2
    · cases h

/-- Claim C13 fails as stated: at the one-sample locus with three reads of offsets `4`,
`8` and `12` and the exact-match noise model, no pair of candidates has a finite
log-likelihood, the call of the sample is missing, and no-call reporting is off; the
record is handed to the sink all the same, because `numcalls` counts the samples with
reads. -/
theorem C13_written_without_a_call :
    Locus.config.report_nocalls = false
      ∧ Genotype exactArith Locus.config Locus.unexplained Locus.unexplained
        = .ok (some (Locus.written
            (Genotype exactArith Locus.config Locus.unexplained Locus.unexplained)))
      ∧ (Locus.written (Genotype exactArith Locus.config Locus.unexplained
          Locus.unexplained)).allele1 = [Locus.config.MISSING]
      ∧ (Locus.written (Genotype exactArith Locus.config Locus.unexplained
          Locus.unexplained)).allele2 = [Locus.config.MISSING]
      ∧ (Locus.written (Genotype exactArith Locus.config Locus.unexplained
          Locus.unexplained)).allele1_string = ["NA"]
      ∧ (Locus.written (Genotype exactArith Locus.config Locus.unexplained
          Locus.unexplained)).numcalls = 1 := by
  refine ⟨rfl, rfl, by decide!, by decide!, by decide!, by decide!⟩

/-- Claim C13, amended: `Genotype` hands the record to the sink only if at least one
sample had at least one read (a non-zero `coverage` entry, whether or not its call is
missing), or no-call reporting is enabled and at least one sample had overlap coverage (a
positive `totalcov` entry). -/
theorem C13_written_only_with_reads_or_coverage (A : Arith) (cfg : Config A)
    (read_list overlapping_reads : List AlignedRead) (out : STRRecord A)
    (h : Genotype A cfg read_list overlapping_reads = .ok (some out)) :
    (∃ c ∈ out.coverage, c ≠ 0)
      ∨ (cfg.report_nocalls = true ∧ ∃ t ∈ out.totalcov, 0 < t) := by
  obtain ⟨hrec, hcond⟩ := Genotype_spec A cfg read_list overlapping_reads out h
  obtain ⟨ann, rec2, hloop, hfin⟩ := Genotype.record_spec A cfg read_list overlapping_reads
    out hrec
  obtain ⟨hap, rec1, sample_reads, overlap, hsetup, hl⟩ :=
    Genotype.afterLoop_spec A cfg read_list overlapping_reads ann rec2 hloop
  obtain ⟨_, _, hnc, hncov, _⟩ :=
    Genotype.setup_spec A cfg read_list overlapping_reads hap ann rec1 hsetup
  obtain ⟨c1, c2⟩ := Genotype.loop_counts A cfg hap sample_reads overlap
    (List.range cfg.samples.length) rec1 rec2 hl
    (fun hp => by rw [hnc] at hp; exact absurd hp (by decide))
    (fun hp => by rw [hncov] at hp; exact absurd hp (by decide))
  obtain ⟨_, _, ecov, etot, enc, encov, _⟩ := Genotype.finish_spec ann rec2 out hfin
  rcases hcond with hp | ⟨hr, hp⟩
  · left
    rw [ecov]
    exact c1 (by rw [← enc]; exact hp)
  · right
    refine ⟨hr, ?_⟩
    rw [etot]
    exact c2 (by rw [← encov]; exact hp)

/-- Witness of the amended C13: the one-sample locus with the scenario reads is
written, and its sample has three reads. -/
theorem C13_written_only_with_reads_or_coverage_witness :
    Genotype exactArith Locus.config Scenario.reads Scenario.reads
        = .ok (some (Locus.written
            (Genotype exactArith Locus.config Scenario.reads Scenario.reads)))
      ∧ ((∃ c ∈ (Locus.written (Genotype exactArith Locus.config Scenario.reads
              Scenario.reads)).coverage, c ≠ 0)
        ∨ (Locus.config.report_nocalls = true
          ∧ ∃ t ∈ (Locus.written (Genotype exactArith Locus.config Scenario.reads
              Scenario.reads)).totalcov, 0 < t)) :=
  ⟨rfl,
    C13_written_only_with_reads_or_coverage exactArith Locus.config Scenario.reads
      Scenario.reads
      (Locus.written (Genotype exactArith Locus.config Scenario.reads Scenario.reads)) rfl⟩

end Genotyper

/-! ## The comparison of placements on one chromosome -/

/-- Claim C27: on placements of the same chromosome `operator<` is the strict
lexicographic order on `(start, end)`: it is irreflexive, asymmetric and transitive, and
two placements are incomparable exactly when they have equal start and equal end. -/
theorem C27_placement_order_same_chromosome (p q r : ALIGNMENT)
    (hpq : p.chrom = q.chrom) (hqr : q.chrom = r.chrom) :
    (ALIGNMENT.lt p q = true
        ↔ (p.start < q.start ∨ (p.start = q.start ∧ p.end_ < q.end_)))
      ∧ ALIGNMENT.lt p p = false
      ∧ (ALIGNMENT.lt p q = true → ALIGNMENT.lt q p = false)
      ∧ (ALIGNMENT.lt p q = true → ALIGNMENT.lt q r = true → ALIGNMENT.lt p r = true)
      ∧ ((ALIGNMENT.lt p q = false ∧ ALIGNMENT.lt q p = false)
        ↔ (p.start = q.start ∧ p.end_ = q.end_)) := by
  have hpr : p.chrom = r.chrom := hpq.trans hqr
  have key : ∀ a b : ALIGNMENT, a.chrom = b.chrom →
      (ALIGNMENT.lt a b = true ↔ (a.start < b.start ∨ (a.start = b.start ∧ a.end_ < b.end_))) := by
    intro a b hab
    unfold ALIGNMENT.lt
    rw [if_neg (not_not.2 hab)]
    by_cases hs : a.start = b.start
    · rw [if_pos hs, decide_eq_true_eq]
      constructor
      · exact fun h => Or.inr ⟨hs, h⟩
      · rintro (h | ⟨_, h⟩)
        · omega
        · exact h
    · rw [if_neg hs, decide_eq_true_eq]
      constructor
      · exact Or.inl
      · rintro (h | ⟨h, _⟩)
        · exact h
        · exact absurd h hs
  have hpp := key p p rfl
  have hpq1 := key p q hpq
  have hqp1 := key q p hpq.symm
  have hqr1 := key q r hqr
  have hpr1 := key p r hpr
  refine ⟨hpq1, ?_, ?_, ?_, ?_⟩
  · cases h : ALIGNMENT.lt p p
    · rfl
    · have := hpp.1 h
      omega
  · intro h
    have h1 := hpq1.1 h
    cases h2 : ALIGNMENT.lt q p
    · rfl
    · have := hqp1.1 h2
      omega
  · intro h1 h2
    have a1 := hpq1.1 h1
    have a2 := hqr1.1 h2
    apply hpr1.2
    omega
  · constructor
    · rintro ⟨h1, h2⟩
      have n1 : ¬ (p.start < q.start ∨ (p.start = q.start ∧ p.end_ < q.end_)) := by
        intro h
        rw [hpq1.2 h] at h1
        exact absurd h1 (by decide)
      have n2 : ¬ (q.start < p.start ∨ (q.start = p.start ∧ q.end_ < p.end_)) := by
        intro h
        rw [hqp1.2 h] at h2
        exact absurd h2 (by decide)
      omega
    · rintro ⟨h1, h2⟩
      constructor
      · cases h : ALIGNMENT.lt p q
        · rfl
        · have := hpq1.1 h
          omega
      · cases h : ALIGNMENT.lt q p
        · rfl
        · have := hqp1.1 h
          omega

/-- Witness of C27: three placements on `chr1`. -/
theorem C27_placement_order_same_chromosome_witness :
    Placements.p1.chrom = ({ Placements.p1 with end_ := 150 } : ALIGNMENT).chrom
      ∧ ({ Placements.p1 with end_ := 150 } : ALIGNMENT).chrom
        = ({ Placements.p1 with start := 120 } : ALIGNMENT).chrom
      ∧ ALIGNMENT.lt Placements.p1 { Placements.p1 with end_ := 150 } = true
      ∧ ALIGNMENT.lt Placements.p1 { Placements.p1 with start := 120 } = true :=
  ⟨rfl, rfl, by decide,
    (C27_placement_order_same_chromosome Placements.p1 { Placements.p1 with end_ := 150 }
      { Placements.p1 with start := 120 } rfl rfl).2.2.2.1 (by decide) (by decide)⟩

/-! ## A sample without reads -/

namespace Genotyper

theorem CalcLogLik_nil (A : Arith) (noise_model : NoiseModel A) (a b period : Int) :
    CalcLogLik A noise_model a b [] period
      = { loglik := A.ofIntL 0, counta := 0, countb := 0 } := rfl

/-- Claim C26: for a sample without reads and a non-empty candidate list `c0 :: cs`, with
`1.0 >= min_het_freq`, every pair scores the log-likelihood `0`, and `FindMLE` reports the
pair `(c0, c0)` with `max_log_lik = 0` and coverage `0`, and leaves `numcalls` as it is.
The float comparison needs `0 > -1000000` and not `0 > 0`. -/
theorem C26_call_without_reads (A : Arith) (noise_model : NoiseModel A) (MISSING : Int)
    (min_het_freq : A.P) (spanning_reads : Int → Int) (haploid : Bool)
    (str_record : STRRecord A) (c0 : Int) (cs : List Int)
    (hc : str_record.alleles_to_include = c0 :: cs)
    (hgt : A.gtL (A.ofIntL 0) (A.ofIntL (-1000000)) = true)
    (hirr : A.gtL (A.ofIntL 0) (A.ofIntL 0) = false)
    (hmin : A.ge (A.ofInt 1) min_het_freq = true) :
    (∀ a b : Int, (CalcLogLik A noise_model a b [] str_record.period).loglik = A.ofIntL 0)
      ∧ (FindMLE A noise_model MISSING min_het_freq [] spanning_reads haploid
          str_record).allele1 = str_record.allele1 ++ [c0]
      ∧ (FindMLE A noise_model MISSING min_het_freq [] spanning_reads haploid
          str_record).allele2 = str_record.allele2 ++ [c0]
      ∧ (FindMLE A noise_model MISSING min_het_freq [] spanning_reads haploid
          str_record).max_log_lik = str_record.max_log_lik ++ [A.ofIntL 0]
      ∧ (FindMLE A noise_model MISSING min_het_freq [] spanning_reads haploid
          str_record).coverage = str_record.coverage ++ [0]
      ∧ (FindMLE A noise_model MISSING min_het_freq [] spanning_reads haploid
          str_record).numcalls = str_record.numcalls := by
  have hq : allelotype (c0, c0) = (c0, c0) := allelotype_of_le (le_refl c0)
  have hel : selectable A noise_model min_het_freq [] haploid str_record.period
      (allelotype (c0, c0)) = true := by
    rw [hq]
    simp only [selectable, CalcLogLik_nil, hetfreq, include_score, Bool.and_eq_true]
    refine ⟨by simp, ?_⟩
    rw [if_neg (fun h => h.1 rfl)]
    exact hmin
  have hfirst := FindMLE.step_call A noise_model min_het_freq [] haploid str_record.period
    (FindMLE.init A MISSING) (c0, c0)
  simp only [hq, CalcLogLik_nil] at hfirst
  have hstep : (FindMLE.step A noise_model min_het_freq [] haploid str_record.period
        (FindMLE.init A MISSING) (c0, c0)).allele1 = c0
      ∧ (FindMLE.step A noise_model min_het_freq [] haploid str_record.period
        (FindMLE.init A MISSING) (c0, c0)).allele2 = c0
      ∧ (FindMLE.step A noise_model min_het_freq [] haploid str_record.period
        (FindMLE.init A MISSING) (c0, c0)).max_log_lik = A.ofIntL 0 := by
    rcases hfirst with ⟨_, _, e1, e2, em⟩ | ⟨hno, _⟩
    · exact ⟨e1, e2, em⟩
    · rw [hq] at hel
      exact absurd ⟨hel, hgt⟩ hno
  have hrest := FindMLE.foldl_call_unchanged A noise_model min_het_freq [] haploid
    str_record.period (cs.map (fun d => (c0, d)) ++ loopPairs cs)
    (FindMLE.step A noise_model min_het_freq [] haploid str_record.period
      (FindMLE.init A MISSING) (c0, c0))
    (by
      intro p _
      rw [hstep.2.2, CalcLogLik_nil]
      exact hirr)
  have hloop : FindMLE.loop A noise_model MISSING min_het_freq [] haploid str_record.period
      str_record.alleles_to_include
      = (cs.map (fun d => (c0, d)) ++ loopPairs cs).foldl
          (FindMLE.step A noise_model min_het_freq [] haploid str_record.period)
          (FindMLE.step A noise_model min_het_freq [] haploid str_record.period
            (FindMLE.init A MISSING) (c0, c0)) := by
    rw [FindMLE.loop, hc]
    rfl
  refine ⟨fun a b => rfl, ?_, ?_, ?_, rfl, rfl⟩
  · simp only [FindMLE, hloop, hrest.1, hstep.1]
  · simp only [FindMLE, hloop, hrest.2.1, hstep.2.1]
  · simp only [FindMLE, hloop, hrest.2.2, hstep.2.2]

/-- Witness of C26 in exact arithmetic: the scenario record and no reads. -/
theorem C26_call_without_reads_witness :
    Scenario.record.alleles_to_include = 0 :: [-4, 4, -8]
      ∧ exactArith.gtL (exactArith.ofIntL 0) (exactArith.ofIntL (-1000000)) = true
      ∧ exactArith.gtL (exactArith.ofIntL 0) (exactArith.ofIntL 0) = false
      ∧ exactArith.ge (exactArith.ofInt 1) Scenario.min_het_freq = true
      ∧ (FindMLE exactArith Scenario.exactMatch Scenario.MISSING Scenario.min_het_freq []
          (fun _ => 0) false Scenario.record).allele1 = Scenario.record.allele1 ++ [0]
      ∧ (FindMLE exactArith Scenario.exactMatch Scenario.MISSING Scenario.min_het_freq []
          (fun _ => 0) false Scenario.record).numcalls = Scenario.record.numcalls :=
  ⟨rfl, by decide!, by decide!, by decide!,
    (C26_call_without_reads exactArith Scenario.exactMatch Scenario.MISSING
      Scenario.min_het_freq (fun _ => 0) false Scenario.record 0 [-4, 4, -8] rfl
      (by decide!) (by decide!) (by decide!)).2.1,
    (C26_call_without_reads exactArith Scenario.exactMatch Scenario.MISSING
      Scenario.min_het_freq (fun _ => 0) false Scenario.record 0 [-4, 4, -8] rfl
      (by decide!) (by decide!) (by decide!)).2.2.2.2.2⟩

end Genotyper

/-! ## The allele list of `GetAlleles` -/

namespace Genotyper

theorem specPadding_succ (g : Int) (k : Nat) (feasible : Int → Bool) (mn mx : Int) :
    specPadding g (k + 1) feasible mn mx
      = specPadding g k feasible mn mx
        ++ (mx + ((k : Int) + 1) * g)
          :: (if feasible (mn - ((k : Int) + 1) * g) then [mn - ((k : Int) + 1) * g] else []) := by
  unfold specPadding
  rw [List.range_succ, List.flatMap_append]
  simp

theorem mem_specPadding (g : Int) (k : Nat) (feasible : Int → Bool) (mn mx x : Int) :
    x ∈ specPadding g k feasible mn mx
      ↔ ∃ i : Nat, i < k ∧ (x = mx + ((i : Int) + 1) * g
          ∨ (feasible (mn - ((i : Int) + 1) * g) = true ∧ x = mn - ((i : Int) + 1) * g)) := by
  unfold specPadding
  rw [List.mem_flatMap]
  constructor
  · rintro ⟨i, hi, hx⟩
    refine ⟨i, List.mem_range.1 hi, ?_⟩
    rcases List.mem_cons.1 hx with h | h
    · exact Or.inl h
    · by_cases hf : feasible (mn - ((i : Int) + 1) * g) = true
      · rw [if_pos hf] at h
        exact Or.inr ⟨hf, List.mem_singleton.1 h⟩
      · rw [if_neg hf] at h
        exact absurd h (List.not_mem_nil x)
  · rintro ⟨i, hi, hx⟩
    refine ⟨i, List.mem_range.2 hi, ?_⟩
    rcases hx with h | ⟨hf, h⟩
    · rw [h]
      exact List.mem_cons_self _ _
    · rw [if_pos hf, h]
      exact List.mem_cons_of_mem _ (List.mem_singleton_self _)

theorem GetAlleles.pad_eq (gridk refcopy mn mx : Int) (alleles : List Int) (i : Nat) :
    GetAlleles.pad gridk refcopy mn mx alleles i
      = alleles ++ (mx + ((i : Int) + 1) * gridk)
          :: (if decide (mn - ((i : Int) + 1) * gridk + refcopy ≥ 1) = true
              then [mn - ((i : Int) + 1) * gridk] else []) := by
  unfold GetAlleles.pad
  by_cases h : mn - ((i : Int) + 1) * gridk + refcopy ≥ 1
  · rw [if_pos h, if_pos (decide_eq_true h)]
    simp
  · rw [if_neg h, if_neg (by simpa using h)]

theorem GetAlleles.foldl_pad_range (gridk refcopy mn mx : Int) (alleles : List Int) (n : Nat) :
    (List.range n).foldl (GetAlleles.pad gridk refcopy mn mx) alleles
      = alleles ++ specPadding gridk n (fun a => decide (a + refcopy ≥ 1)) mn mx := by
  induction n with
  | zero => simp [specPadding]
  | succ n ih =>
    rw [List.range_succ, List.foldl_append, ih, List.foldl_cons, List.foldl_nil,
      GetAlleles.pad_eq, specPadding_succ, List.append_assoc]

theorem GetAlleles_eq (gridk : Int) (front : AlignedRead) (rest : List AlignedRead) :
    GetAlleles gridk (front :: rest)
      = (GetAlleles.observed (front.msEnd - front.msStart + 1) (front :: rest)).alleles
        ++ specPadding gridk gridk.toNat
            (fun a => decide (a + (front.msEnd - front.msStart + 1) ≥ 1))
            (GetAlleles.observed (front.msEnd - front.msStart + 1) (front :: rest)).min_allele
            (GetAlleles.observed (front.msEnd - front.msStart + 1) (front :: rest)).max_allele := by
  rw [← GetAlleles.foldl_pad_range]
  rfl

/-- The invariant of the first loop of `GetAlleles`: the list has no duplicate, the
tracked minimum and maximum are members and bound every member, and every member other
than `0` is at or above the floor. -/
theorem GetAlleles.observe_inv (refcopy : Int) (st : AlleleState) (it : AlignedRead)
    (h : st.alleles.Nodup ∧ st.min_allele ∈ st.alleles ∧ st.max_allele ∈ st.alleles
      ∧ (∀ a ∈ st.alleles, st.min_allele ≤ a ∧ a ≤ st.max_allele)
      ∧ (∀ a ∈ st.alleles, a = 0 ∨ a + refcopy ≥ 1)) :
    (GetAlleles.observe refcopy st it).alleles.Nodup
      ∧ (GetAlleles.observe refcopy st it).min_allele ∈ (GetAlleles.observe refcopy st it).alleles
      ∧ (GetAlleles.observe refcopy st it).max_allele ∈ (GetAlleles.observe refcopy st it).alleles
      ∧ (∀ a ∈ (GetAlleles.observe refcopy st it).alleles,
          (GetAlleles.observe refcopy st it).min_allele ≤ a
            ∧ a ≤ (GetAlleles.observe refcopy st it).max_allele)
      ∧ (∀ a ∈ (GetAlleles.observe refcopy st it).alleles, a = 0 ∨ a + refcopy ≥ 1) := by
  obtain ⟨hnd, hmn, hmx, hb, hf⟩ := h
  unfold GetAlleles.observe
  by_cases hm : it.mate = true
  · rw [if_pos hm]
    exact ⟨hnd, hmn, hmx, hb, hf⟩
  · rw [if_neg hm]
    by_cases hc : it.diffFromRef ≠ 0 ∧ it.diffFromRef ∉ st.alleles ∧ it.diffFromRef + refcopy ≥ 1
    · rw [if_pos hc]
      obtain ⟨_, hnin, hfl⟩ := hc
      refine ⟨?_, ?_, ?_, ?_, ?_⟩
      · show (st.alleles ++ [it.diffFromRef]).Nodup
        rw [List.nodup_append]
        refine ⟨hnd, List.nodup_singleton _, ?_⟩
        intro a ha hb2
        rw [List.mem_singleton.1 hb2] at ha
        exact hnin ha
      · show (if it.diffFromRef < st.min_allele then it.diffFromRef else st.min_allele)
          ∈ st.alleles ++ [it.diffFromRef]
        by_cases hlt : it.diffFromRef < st.min_allele
        · rw [if_pos hlt]
          exact List.mem_append_right _ (List.mem_singleton_self _)
        · rw [if_neg hlt]
          exact List.mem_append_left _ hmn
      · show (if it.diffFromRef > st.max_allele then it.diffFromRef else st.max_allele)
          ∈ st.alleles ++ [it.diffFromRef]
        by_cases hgt : it.diffFromRef > st.max_allele
        · rw [if_pos hgt]
          exact List.mem_append_right _ (List.mem_singleton_self _)
        · rw [if_neg hgt]
          exact List.mem_append_left _ hmx
      · intro a ha
        show (if it.diffFromRef < st.min_allele then it.diffFromRef else st.min_allele) ≤ a
          ∧ a ≤ (if it.diffFromRef > st.max_allele then it.diffFromRef else st.max_allele)
        have ha2 : a ∈ st.alleles ++ [it.diffFromRef] := ha
        rcases List.mem_append.1 ha2 with h1 | h1
        · have := hb a h1
          constructor
          · split <;> omega
          · split <;> omega
        · rw [List.mem_singleton.1 h1]
          constructor
          · split <;> omega
          · split <;> omega
      · intro a ha
        have ha2 : a ∈ st.alleles ++ [it.diffFromRef] := ha
        rcases List.mem_append.1 ha2 with h1 | h1
        · exact hf a h1
        · rw [List.mem_singleton.1 h1]
          exact Or.inr hfl
    · rw [if_neg hc]
      exact ⟨hnd, hmn, hmx, hb, hf⟩

theorem GetAlleles.foldl_observe_inv (refcopy : Int) (reads : List AlignedRead)
    (st : AlleleState)
    (h : st.alleles.Nodup ∧ st.min_allele ∈ st.alleles ∧ st.max_allele ∈ st.alleles
      ∧ (∀ a ∈ st.alleles, st.min_allele ≤ a ∧ a ≤ st.max_allele)
      ∧ (∀ a ∈ st.alleles, a = 0 ∨ a + refcopy ≥ 1)) :
    (reads.foldl (GetAlleles.observe refcopy) st).alleles.Nodup
      ∧ (reads.foldl (GetAlleles.observe refcopy) st).min_allele
          ∈ (reads.foldl (GetAlleles.observe refcopy) st).alleles
      ∧ (reads.foldl (GetAlleles.observe refcopy) st).max_allele
          ∈ (reads.foldl (GetAlleles.observe refcopy) st).alleles
      ∧ (∀ a ∈ (reads.foldl (GetAlleles.observe refcopy) st).alleles,
          (reads.foldl (GetAlleles.observe refcopy) st).min_allele ≤ a
            ∧ a ≤ (reads.foldl (GetAlleles.observe refcopy) st).max_allele)
      ∧ (∀ a ∈ (reads.foldl (GetAlleles.observe refcopy) st).alleles,
          a = 0 ∨ a + refcopy ≥ 1) := by
  induction reads generalizing st with
  | nil => exact h
  | cons it rest ih =>
    rw [List.foldl_cons]
    exact ih _ (GetAlleles.observe_inv refcopy st it h)

theorem GetAlleles.observed_inv (refcopy : Int) (reads : List AlignedRead) :
    (GetAlleles.observed refcopy reads).alleles.Nodup
      ∧ (GetAlleles.observed refcopy reads).min_allele ∈ (GetAlleles.observed refcopy reads).alleles
      ∧ (GetAlleles.observed refcopy reads).max_allele ∈ (GetAlleles.observed refcopy reads).alleles
      ∧ (∀ a ∈ (GetAlleles.observed refcopy reads).alleles,
          (GetAlleles.observed refcopy reads).min_allele ≤ a
            ∧ a ≤ (GetAlleles.observed refcopy reads).max_allele)
      ∧ (∀ a ∈ (GetAlleles.observed refcopy reads).alleles, a = 0 ∨ a + refcopy ≥ 1) := by
  unfold GetAlleles.observed
  apply GetAlleles.foldl_observe_inv
  refine ⟨List.nodup_singleton _, List.mem_singleton_self _, List.mem_singleton_self _, ?_, ?_⟩
  · intro a ha
    rw [List.mem_singleton.1 ha]
    exact ⟨le_refl _, le_refl _⟩
  · intro a ha
    exact Or.inl (List.mem_singleton.1 ha)

theorem GetAlleles.observed_zero (refcopy : Int) (reads : List AlignedRead) :
    (0 : Int) ∈ (GetAlleles.observed refcopy reads).alleles :=
  GetAlleles.foldl_observe_mem_mono refcopy reads _ 0 (List.mem_singleton_self _)

theorem GetAlleles.observed_min_max (refcopy : Int) (reads : List AlignedRead) :
    (GetAlleles.observed refcopy reads).min_allele ≤ 0
      ∧ 0 ≤ (GetAlleles.observed refcopy reads).max_allele :=
  (GetAlleles.observed_inv refcopy reads).2.2.2.1 0 (GetAlleles.observed_zero refcopy reads)

/-- With `1 ≤ g` and `mn ≤ mx`, a list without duplicates whose members lie in
`[mn, mx]` stays without duplicates when the padding alleles are appended. -/
theorem nodup_append_specPadding (g : Int) (hg : 1 ≤ g) (feasible : Int → Bool)
    (mn mx : Int) (hmm : mn ≤ mx) (l : List Int) (hnd : l.Nodup)
    (hb : ∀ a ∈ l, mn ≤ a ∧ a ≤ mx) (k : Nat) :
    (l ++ specPadding g k feasible mn mx).Nodup
      ∧ ∀ a ∈ l ++ specPadding g k feasible mn mx,
          mn - (k : Int) * g ≤ a ∧ a ≤ mx + (k : Int) * g := by
  induction k with
  | zero =>
    have h0 : specPadding g 0 feasible mn mx = [] := rfl
    rw [h0, List.append_nil]
    refine ⟨hnd, ?_⟩
    intro a ha
    have := hb a ha
    simp only [Nat.cast_zero, zero_mul, sub_zero, add_zero]
    exact this
  | succ k ih =>
    obtain ⟨ihnd, ihb⟩ := ih
    have hkg : (k : Int) * g ≥ 0 := mul_nonneg (Int.ofNat_nonneg k) (by omega)
    have hk1 : ((k : Int) + 1) * g = (k : Int) * g + g := by ring
    have hcast : ((k + 1 : Nat) : Int) * g = (k : Int) * g + g := by
      push_cast
      ring
    rw [specPadding_succ, ← List.append_assoc, hk1, hcast]
    have hup : mx + ((k : Int) * g + g) ∉ l ++ specPadding g k feasible mn mx := by
      intro hmem
      have := ihb _ hmem
      omega
    have hdn : mn - ((k : Int) * g + g) ∉ l ++ specPadding g k feasible mn mx := by
      intro hmem
      have := ihb _ hmem
      omega
    by_cases hf : feasible (mn - ((k : Int) * g + g)) = true
    · rw [if_pos hf]
      constructor
      · rw [List.nodup_append]
        refine ⟨ihnd, ?_, ?_⟩
        · rw [List.nodup_cons]
          refine ⟨?_, List.nodup_singleton _⟩
          intro h
          have := List.mem_singleton.1 h
          omega
        · intro a ha hb2
          rcases List.mem_cons.1 hb2 with h | h
          · rw [h] at ha
            exact hup ha
          · rw [List.mem_singleton.1 h] at ha
            exact hdn ha
      · intro a ha
        rcases List.mem_append.1 ha with h | h
        · have := ihb a h
          omega
        · rcases List.mem_cons.1 h with h1 | h1
          · omega
          · have := List.mem_singleton.1 h1
            omega
    · rw [if_neg hf]
      constructor
      · rw [List.nodup_append]
        refine ⟨ihnd, List.nodup_singleton _, ?_⟩
        intro a ha hb2
        rw [List.mem_singleton.1 hb2] at ha
        exact hup ha
      · intro a ha
        rcases List.mem_append.1 ha with h | h
        · have := ihb a h
          omega
        · have := List.mem_singleton.1 h
          omega

end Genotyper

/-! ## The feasibility floor, the padding and the distinctness of the alleles -/

namespace Genotyper

/-- Claim C21 fails as stated: for one read with offset `-38` at a locus with a reference
tract of 40 bases and period 4, `GetAlleles` keeps the allele `-38`, whose implied total
length `40 + (-38) = 2` is below the period. -/
theorem C21_allele_below_one_repeat_unit :
    (-38 : Int) ∈ GetAlleles 4 [Scenario.read (-38)]
      ∧ ((Scenario.read (-38)).msEnd - (Scenario.read (-38)).msStart + 1) + (-38)
          < (Scenario.read (-38)).period
      ∧ GetAlleles 4 [Scenario.read (-38)] = [0, -38, 4, 8, 12, 16] := by
  decide

/-- Claim C21, amended: for a non-empty read list whose first read spans a reference
tract of at least one base (`front.msEnd - front.msStart + 1 ≥ 1`), every allele `a` in
the output of `GetAlleles`, observed or padded, has an implied total length
`(front.msEnd - front.msStart + 1) + a` of at least `1`. -/
theorem C21_alleles_imply_positive_length (gridk : Int) (front : AlignedRead)
    (rest : List AlignedRead) (href : 1 ≤ front.msEnd - front.msStart + 1) :
    ∀ a ∈ GetAlleles gridk (front :: rest), (front.msEnd - front.msStart + 1) + a ≥ 1 := by
  intro a ha
  rw [GetAlleles_eq] at ha
  have hmm := GetAlleles.observed_min_max (front.msEnd - front.msStart + 1) (front :: rest)
  rcases List.mem_append.1 ha with h | h
  · rcases (GetAlleles.observed_inv (front.msEnd - front.msStart + 1) (front :: rest)).2.2.2.2
      a h with h0 | h0
    · omega
    · omega
  · obtain ⟨i, hi, hx⟩ := (mem_specPadding _ _ _ _ _ _).1 h
    rcases hx with hx | ⟨hf, hx⟩
    · have hg : 1 ≤ gridk := by omega
      have hpos : ((i : Int) + 1) * gridk ≥ 1 := by
        have : (1 : Int) * 1 ≤ ((i : Int) + 1) * gridk :=
          mul_le_mul (by omega) hg (by omega) (by omega)
        omega
      omega
    · have hf2 := of_decide_eq_true hf
      omega

/-- Witness of the amended C21: the scenario reads with `gridk = 4`. -/
theorem C21_alleles_imply_positive_length_witness :
    1 ≤ (Scenario.read 0).msEnd - (Scenario.read 0).msStart + 1
      ∧ ∀ a ∈ GetAlleles 4 (Scenario.read 0 :: [Scenario.read 0, Scenario.read (-4)]),
          ((Scenario.read 0).msEnd - (Scenario.read 0).msStart + 1) + a ≥ 1 :=
  ⟨by decide, C21_alleles_imply_positive_length 4 (Scenario.read 0)
    [Scenario.read 0, Scenario.read (-4)] (by decide)⟩

/-- Claim C22 fails as stated: the code has one grid parameter. For the scenario reads
(collected alleles `0, -4`) a grid step `2` with a grid count `3` asks for the padding
`2, 4, 6` and `-6, -8, -10`; no value of `gridk` makes `GetAlleles` return these alleles
(`gridk = 2` stops after two steps, `gridk = 3` steps by three). -/
theorem C22_step_and_count_not_separate :
    (GetAlleles.observed 40 Scenario.reads).alleles
        ++ specPadding 2 3 (fun a => decide (40 + a ≥ 4))
            (GetAlleles.observed 40 Scenario.reads).min_allele
            (GetAlleles.observed 40 Scenario.reads).max_allele
        = [0, -4, 2, -6, 4, -8, 6, -10]
      ∧ (¬ ∃ gridk : Int, ∀ x : Int, x ∈ GetAlleles gridk Scenario.reads
          ↔ x ∈ (GetAlleles.observed 40 Scenario.reads).alleles
              ++ specPadding 2 3 (fun a => decide (40 + a ≥ 4))
                  (GetAlleles.observed 40 Scenario.reads).min_allele
                  (GetAlleles.observed 40 Scenario.reads).max_allele)
      ∧ GetAlleles 2 Scenario.reads = [0, -4, 2, -6, 4, -8]
      ∧ GetAlleles 3 Scenario.reads = [0, -4, 3, -7, 6, -10, 9, -13] := by
  have hspec : (GetAlleles.observed 40 Scenario.reads).alleles
        ++ specPadding 2 3 (fun a => decide (40 + a ≥ 4))
            (GetAlleles.observed 40 Scenario.reads).min_allele
            (GetAlleles.observed 40 Scenario.reads).max_allele
        = [0, -4, 2, -6, 4, -8, 6, -10] := by decide
  refine ⟨hspec, ?_, by decide, by decide⟩
  rw [hspec]
  rintro ⟨gridk, h⟩
  by_cases hpos : 1 ≤ gridk
  · have hg := (h gridk).1 (GetAlleles_scenario_mem_gridk gridk hpos)
    simp only [List.mem_cons, List.mem_singleton, List.not_mem_nil, or_false] at hg
    have h3 : gridk = 2 ∨ gridk = 4 ∨ gridk = 6 := by omega
    rcases h3 with h3 | h3 | h3
    · subst h3
      have h6 := (h 6).2 (by decide)
      revert h6
      decide
    · subst h3
      have h8 := (h 8).1 (by decide)
      revert h8
      decide
    · subst h3
      have h12 := (h 12).1 (by decide)
      revert h12
      decide
  · have h0 : gridk.toNat = 0 := by omega
    have hm := (h 2).2 (by decide)
    rw [GetAlleles_scenario, h0] at hm
    simp only [List.range_zero, List.foldl_nil] at hm
    revert hm
    decide

/-- Claim C22, amended: with the one parameter `gridk` as step and as count, and the
floor `refcopy + a ≥ 1` for `refcopy = front.msEnd - front.msStart + 1`, the output of
`GetAlleles` on a non-empty read list is the list of collected alleles followed by the
padding `max + i*gridk` for `i = 1..gridk` and `min - i*gridk` for those `i = 1..gridk`
at or above the floor, and nothing else; `min ≤ 0 ≤ max` are the minimum and the maximum
of the collected alleles, which are `0` and offsets of non-mate reads. -/
theorem C22_padding_with_one_grid_parameter (gridk : Int) (front : AlignedRead)
    (rest : List AlignedRead) :
    GetAlleles gridk (front :: rest)
        = (GetAlleles.observed (front.msEnd - front.msStart + 1) (front :: rest)).alleles
          ++ specPadding gridk gridk.toNat
              (fun a => decide (a + (front.msEnd - front.msStart + 1) ≥ 1))
              (GetAlleles.observed (front.msEnd - front.msStart + 1) (front :: rest)).min_allele
              (GetAlleles.observed (front.msEnd - front.msStart + 1) (front :: rest)).max_allele
      ∧ (∀ x : Int, x ∈ GetAlleles gridk (front :: rest)
          ↔ (x ∈ (GetAlleles.observed (front.msEnd - front.msStart + 1) (front :: rest)).alleles
            ∨ ∃ i : Int, 1 ≤ i ∧ i ≤ gridk
                ∧ (x = (GetAlleles.observed (front.msEnd - front.msStart + 1)
                        (front :: rest)).max_allele + i * gridk
                  ∨ ((GetAlleles.observed (front.msEnd - front.msStart + 1)
                        (front :: rest)).min_allele - i * gridk
                        + (front.msEnd - front.msStart + 1) ≥ 1
                    ∧ x = (GetAlleles.observed (front.msEnd - front.msStart + 1)
                        (front :: rest)).min_allele - i * gridk))))
      ∧ (GetAlleles.observed (front.msEnd - front.msStart + 1) (front :: rest)).min_allele ≤ 0
      ∧ 0 ≤ (GetAlleles.observed (front.msEnd - front.msStart + 1) (front :: rest)).max_allele
      ∧ (GetAlleles.observed (front.msEnd - front.msStart + 1) (front :: rest)).min_allele
          ∈ (GetAlleles.observed (front.msEnd - front.msStart + 1) (front :: rest)).alleles
      ∧ (GetAlleles.observed (front.msEnd - front.msStart + 1) (front :: rest)).max_allele
          ∈ (GetAlleles.observed (front.msEnd - front.msStart + 1) (front :: rest)).alleles
      ∧ (∀ a ∈ (GetAlleles.observed (front.msEnd - front.msStart + 1) (front :: rest)).alleles,
          ((GetAlleles.observed (front.msEnd - front.msStart + 1) (front :: rest)).min_allele ≤ a
            ∧ a ≤ (GetAlleles.observed (front.msEnd - front.msStart + 1)
                (front :: rest)).max_allele)
          ∧ (a = 0 ∨ ∃ it ∈ front :: rest, it.mate = false ∧ it.diffFromRef = a)) := by
  have hinv := GetAlleles.observed_inv (front.msEnd - front.msStart + 1) (front :: rest)
  have hmm := GetAlleles.observed_min_max (front.msEnd - front.msStart + 1) (front :: rest)
  refine ⟨GetAlleles_eq gridk front rest, ?_, hmm.1, hmm.2, hinv.2.1, hinv.2.2.1, ?_⟩
  · intro x
    rw [GetAlleles_eq, List.mem_append, mem_specPadding]
    constructor
    · rintro (h | ⟨i, hi, hx⟩)
      · exact Or.inl h
      · refine Or.inr ⟨(i : Int) + 1, by omega, by omega, ?_⟩
        rcases hx with hx | ⟨hf, hx⟩
        · exact Or.inl hx
        · exact Or.inr ⟨of_decide_eq_true hf, hx⟩
    · rintro (h | ⟨i, h1, h2, hx⟩)
      · exact Or.inl h
      · refine Or.inr ⟨(i - 1).toNat, by omega, ?_⟩
        have hcast : (((i - 1).toNat : Nat) : Int) + 1 = i := by omega
        rw [hcast]
        rcases hx with hx | ⟨hf, hx⟩
        · exact Or.inl hx
        · exact Or.inr ⟨decide_eq_true hf, hx⟩
  · intro a ha
    refine ⟨hinv.2.2.2.1 a ha, ?_⟩
    rcases GetAlleles.foldl_observe_origin _ (front :: rest) _ a ha with h | h
    · exact Or.inl (List.mem_singleton.1 h)
    · exact Or.inr h

/-- Claim C23: for every read list and every `gridk` the list returned by `GetAlleles`
has no duplicate. On a non-empty list the collected alleles are pairwise distinct and
contain `0`, every upward padding allele `max + (i+1)*gridk` is strictly greater and
every downward padding allele `min - (i+1)*gridk` strictly smaller than every collected
allele, and the padding alleles are pairwise distinct. -/
theorem C23_alleles_without_duplicates (gridk : Int) (front : AlignedRead)
    (rest : List AlignedRead) :
    (∀ reads : List AlignedRead, (GetAlleles gridk reads).Nodup)
      ∧ (GetAlleles.observed (front.msEnd - front.msStart + 1) (front :: rest)).alleles.Nodup
      ∧ (0 : Int) ∈ (GetAlleles.observed (front.msEnd - front.msStart + 1) (front :: rest)).alleles
      ∧ (∀ a ∈ (GetAlleles.observed (front.msEnd - front.msStart + 1) (front :: rest)).alleles,
          ∀ i : Nat, i < gridk.toNat →
            a < (GetAlleles.observed (front.msEnd - front.msStart + 1)
                  (front :: rest)).max_allele + ((i : Int) + 1) * gridk
            ∧ (GetAlleles.observed (front.msEnd - front.msStart + 1)
                  (front :: rest)).min_allele - ((i : Int) + 1) * gridk < a)
      ∧ (specPadding gridk gridk.toNat
          (fun a => decide (a + (front.msEnd - front.msStart + 1) ≥ 1))
          (GetAlleles.observed (front.msEnd - front.msStart + 1) (front :: rest)).min_allele
          (GetAlleles.observed (front.msEnd - front.msStart + 1) (front :: rest)).max_allele).Nodup
      := by
  have hall : ∀ reads : List AlignedRead, (GetAlleles gridk reads).Nodup := by
    intro reads
    cases reads with
    | nil => exact List.nodup_nil
    | cons f r =>
      rw [GetAlleles_eq]
      have hinv := GetAlleles.observed_inv (f.msEnd - f.msStart + 1) (f :: r)
      have hmm := GetAlleles.observed_min_max (f.msEnd - f.msStart + 1) (f :: r)
      by_cases hg : 1 ≤ gridk
      · exact (nodup_append_specPadding gridk hg _ _ _ (by omega) _ hinv.1 hinv.2.2.2.1 _).1
      · have h0 : gridk.toNat = 0 := by omega
        rw [h0]
        have hnil : ∀ fe mn mx, specPadding gridk 0 fe mn mx = [] := fun _ _ _ => rfl
        rw [hnil, List.append_nil]
        exact hinv.1
  have hinv := GetAlleles.observed_inv (front.msEnd - front.msStart + 1) (front :: rest)
  refine ⟨hall, hinv.1, GetAlleles.observed_zero _ _, ?_, ?_⟩
  · intro a ha i hi
    have hb := hinv.2.2.2.1 a ha
    have hg : 1 ≤ gridk := by omega
    have hpos : ((i : Int) + 1) * gridk ≥ 1 := by
      have : (1 : Int) * 1 ≤ ((i : Int) + 1) * gridk :=
        mul_le_mul (by omega) hg (by omega) (by omega)
      omega
    omega
  · have h := hall (front :: rest)
    rw [GetAlleles_eq] at h
    exact h.of_append_right

end Genotyper

/-! ## Agreeing and conflicting reads -/

namespace Genotyper

theorem lookup_none_of_lt (d : Int) (m : List (Int × Int)) (h : ∀ e ∈ m, d < e.1) :
    m.lookup d = none := by
  induction m with
  | nil => rfl
  | cons e rest ih =>
    obtain ⟨k, v⟩ := e
    have hk : d < k := h (k, v) (List.mem_cons_self _ _)
    have hne : (d == k) = false := by
      rw [beq_eq_false_iff_ne]
      omega
    rw [List.lookup_cons, hne]
    exact ih (fun e he => h e (List.mem_cons_of_mem _ he))

theorem spanInc_mem (d : Int) (m : List (Int × Int)) (e : Int × Int)
    (he : e ∈ spanInc d m) : e.1 = d ∨ e ∈ m := by
  induction m with
  | nil =>
    have h1 : e ∈ [(d, (1 : Int))] := he
    rw [List.mem_singleton.1 h1]
    exact Or.inl rfl
  | cons kv rest ih =>
    obtain ⟨k, v⟩ := kv
    unfold spanInc at he
    by_cases h1 : d = k
    · rw [if_pos h1] at he
      rcases List.mem_cons.1 he with h | h
      · rw [h]
        exact Or.inl h1.symm
      · exact Or.inr (List.mem_cons_of_mem _ h)
    · rw [if_neg h1] at he
      by_cases h2 : d < k
      · rw [if_pos h2] at he
        rcases List.mem_cons.1 he with h | h
        · rw [h]
          exact Or.inl rfl
        · exact Or.inr h
      · rw [if_neg h2] at he
        rcases List.mem_cons.1 he with h | h
        · rw [h]
          exact Or.inr (List.mem_cons_self _ _)
        · rcases ih h with h3 | h3
          · exact Or.inl h3
          · exact Or.inr (List.mem_cons_of_mem _ h3)

/-- The statement `spanning_reads[d]++` keeps the keys of the map in ascending order. -/
theorem spanInc_sorted (d : Int) (m : List (Int × Int))
    (h : m.Pairwise (fun a b => a.1 < b.1)) :
    (spanInc d m).Pairwise (fun a b => a.1 < b.1) := by
  induction m with
  | nil => exact List.pairwise_singleton _ _
  | cons kv rest ih =>
    obtain ⟨k, v⟩ := kv
    obtain ⟨hhead, htail⟩ := List.pairwise_cons.1 h
    unfold spanInc
    by_cases h1 : d = k
    · rw [if_pos h1]
      exact List.pairwise_cons.2 ⟨hhead, htail⟩
    · rw [if_neg h1]
      by_cases h2 : d < k
      · rw [if_pos h2]
        refine List.pairwise_cons.2 ⟨?_, h⟩
        intro e he
        rcases List.mem_cons.1 he with h3 | h3
        · rw [h3]
          exact h2
        · have := hhead e h3
          show d < e.1
          have hk : k < e.1 := this
          omega
      · rw [if_neg h2]
        refine List.pairwise_cons.2 ⟨?_, ih htail⟩
        intro e he
        show k < e.1
        rcases spanInc_mem d rest e he with h3 | h3
        · omega
        · exact hhead e h3

/-- After `spanning_reads[d]++` the count of `d` is one higher and every other count is
unchanged. -/
theorem spanLookup_spanInc (d x : Int) (m : List (Int × Int))
    (h : m.Pairwise (fun a b => a.1 < b.1)) :
    spanLookup (spanInc d m) x = spanLookup m x + (if x = d then 1 else 0) := by
  induction m with
  | nil =>
    by_cases hx : x = d
    · subst hx
      simp [spanInc, spanLookup, List.lookup]
    · have hne : (x == d) = false := by
        rw [beq_eq_false_iff_ne]
        exact hx
      simp [spanInc, spanLookup, List.lookup, hne, hx]
  | cons kv rest ih =>
    obtain ⟨k, v⟩ := kv
    obtain ⟨hhead, htail⟩ := List.pairwise_cons.1 h
    unfold spanInc
    by_cases h1 : d = k
    · rw [if_pos h1]
      subst h1
      by_cases hx : x = d
      · subst hx
        simp [spanLookup, List.lookup]
      · have hne : (x == d) = false := by
          rw [beq_eq_false_iff_ne]
          exact hx
        simp [spanLookup, List.lookup, hne, hx]
    · rw [if_neg h1]
      by_cases h2 : d < k
      · rw [if_pos h2]
        by_cases hx : x = d
        · subst hx
          have hnone : ((k, v) :: rest).lookup x = none := by
            apply lookup_none_of_lt
            intro e he
            rcases List.mem_cons.1 he with h3 | h3
            · rw [h3]
              exact h2
            · have hk : k < e.1 := hhead e h3
              omega
          have hl : spanLookup ((k, v) :: rest) x = 0 := by
            unfold spanLookup
            rw [hnone]
          rw [hl]
          simp [spanLookup, List.lookup]
        · have hne : (x == d) = false := by
            rw [beq_eq_false_iff_ne]
            exact hx
          have hl : spanLookup ((d, 1) :: (k, v) :: rest) x = spanLookup ((k, v) :: rest) x := by
            unfold spanLookup
            rw [List.lookup_cons, hne]
          rw [hl, if_neg hx, add_zero]
      · rw [if_neg h2]
        by_cases hxk : x = k
        · subst hxk
          have hxd : ¬ x = d := fun h3 => h1 h3.symm
          simp [spanLookup, List.lookup, hxd]
        · have hne : (x == k) = false := by
            rw [beq_eq_false_iff_ne]
            exact hxk
          have hl : spanLookup ((k, v) :: spanInc d rest) x = spanLookup (spanInc d rest) x := by
            unfold spanLookup
            rw [List.lookup_cons, hne]
          have hr : spanLookup ((k, v) :: rest) x = spanLookup rest x := by
            unfold spanLookup
            rw [List.lookup_cons, hne]
          rw [hl, hr]
          exact ih htail

theorem ProcessLocus.foldl_spanning_reads (reads : List AlignedRead) (acc : Int × List (Int × Int))
    (h : acc.2.Pairwise (fun a b => a.1 < b.1)) (x : Int) :
    (reads.foldl
        (fun (acc : Int × List (Int × Int)) ar =>
          (if ar.stitched then acc.1 + 1 else acc.1, spanInc ar.diffFromRef acc.2))
        acc).2.Pairwise (fun a b => a.1 < b.1)
      ∧ spanLookup (reads.foldl
          (fun (acc : Int × List (Int × Int)) ar =>
            (if ar.stitched then acc.1 + 1 else acc.1, spanInc ar.diffFromRef acc.2))
          acc).2 x
        = spanLookup acc.2 x
          + ((reads.countP (fun r => decide (r.diffFromRef = x)) : Nat) : Int) := by
  induction reads generalizing acc with
  | nil => exact ⟨h, by simp⟩
  | cons r rest ih =>
    rw [List.foldl_cons]
    obtain ⟨ih1, ih2⟩ := ih (if r.stitched then acc.1 + 1 else acc.1, spanInc r.diffFromRef acc.2)
      (spanInc_sorted _ _ h)
    refine ⟨ih1, ?_⟩
    rw [ih2]
    show spanLookup (spanInc r.diffFromRef acc.2) x + _ = _
    rw [spanLookup_spanInc _ _ _ h, List.countP_cons]
    by_cases hx : r.diffFromRef = x
    · rw [if_pos hx.symm, if_pos (decide_eq_true hx)]
      push_cast
      ring
    · rw [if_neg (fun h3 => hx h3.symm), if_neg (by simpa using hx)]
      push_cast
      ring

/-- The map `spanning_reads` of `ProcessLocus` gives, for every offset, the number of
reads with this offset. -/
theorem ProcessLocus.count_lookup (reads : List AlignedRead) (x : Int) :
    spanLookup (ProcessLocus.count reads).2 x
      = ((reads.countP (fun r => decide (r.diffFromRef = x)) : Nat) : Int) := by
  unfold ProcessLocus.count
  rw [(ProcessLocus.foldl_spanning_reads reads (0, []) List.Pairwise.nil x).2]
  simp [spanLookup, List.lookup]

theorem countP_or_of_ne (reads : List AlignedRead) (a b : Int) (hab : a ≠ b) :
    reads.countP (fun r => decide (r.diffFromRef = a ∨ r.diffFromRef = b))
      = reads.countP (fun r => decide (r.diffFromRef = a))
        + reads.countP (fun r => decide (r.diffFromRef = b)) := by
  induction reads with
  | nil => rfl
  | cons r rest ih =>
    rw [List.countP_cons, List.countP_cons, List.countP_cons, ih]
    by_cases h1 : r.diffFromRef = a
    · have h2 : ¬ r.diffFromRef = b := fun h => hab (h1.symm.trans h)
      rw [if_pos (decide_eq_true (Or.inl h1)), if_pos (decide_eq_true h1),
        if_neg (by simpa using h2)]
      omega
    · by_cases h2 : r.diffFromRef = b
      · rw [if_pos (decide_eq_true (Or.inr h2)), if_neg (by simpa using h1),
          if_pos (decide_eq_true h2)]
        omega
      · rw [if_neg (by simp [h1, h2]), if_neg (by simpa using h1),
          if_neg (by simpa using h2)]
        omega

theorem countP_or_of_eq (reads : List AlignedRead) (a b : Int) (hab : a = b) :
    reads.countP (fun r => decide (r.diffFromRef = a ∨ r.diffFromRef = b))
      = reads.countP (fun r => decide (r.diffFromRef = a)) := by
  subst hab
  simp

/-- Claim C24: the counts that `ProcessLocus` appends for a sample. With `(a1, a2)` the
appended call, `agreeing` is the number of reads whose offset is `a1` or `a2` (a read is
counted once, also for a homozygous call), `coverage` is the number of reads,
`conflicting = coverage - agreeing`, and `agreeing + conflicting = coverage` with
`0 ≤ agreeing ≤ coverage` and `conflicting ≥ 0`. -/
theorem C24_agreeing_conflicting_coverage (A : Arith) (cfg : Config A)
    (reads : List AlignedRead) (str_record : STRRecord A) (is_haploid : Bool) :
    ∃ a1 a2 agreeing conflicting coverage : Int,
      (ProcessLocus A cfg reads str_record is_haploid).allele1 = str_record.allele1 ++ [a1]
        ∧ (ProcessLocus A cfg reads str_record is_haploid).allele2
            = str_record.allele2 ++ [a2]
        ∧ (ProcessLocus A cfg reads str_record is_haploid).agreeing
            = str_record.agreeing ++ [agreeing]
        ∧ (ProcessLocus A cfg reads str_record is_haploid).conflicting
            = str_record.conflicting ++ [conflicting]
        ∧ (ProcessLocus A cfg reads str_record is_haploid).coverage
            = str_record.coverage ++ [coverage]
        ∧ coverage = ((reads.length : Nat) : Int)
        ∧ agreeing
            = ((reads.countP
                (fun r => decide (r.diffFromRef = a1 ∨ r.diffFromRef = a2)) : Nat) : Int)
        ∧ agreeing + conflicting = coverage
        ∧ 0 ≤ agreeing ∧ agreeing ≤ coverage ∧ conflicting ≥ 0 := by
  have hag : ∀ a1 a2 : Int,
      (if a1 ≠ a2 then spanLookup (ProcessLocus.count reads).2 a1
          + spanLookup (ProcessLocus.count reads).2 a2
        else spanLookup (ProcessLocus.count reads).2 a1)
        = ((reads.countP
            (fun r => decide (r.diffFromRef = a1 ∨ r.diffFromRef = a2)) : Nat) : Int) := by
    intro a1 a2
    rw [ProcessLocus.count_lookup, ProcessLocus.count_lookup]
    by_cases h : a1 = a2
    · rw [if_neg (fun hne => hne h), countP_or_of_eq reads a1 a2 h]
    · rw [if_pos h, countP_or_of_ne reads a1 a2 h]
      push_cast
      rfl
  have hle : ∀ a1 a2 : Int,
      reads.countP (fun r => decide (r.diffFromRef = a1 ∨ r.diffFromRef = a2))
        ≤ reads.length := fun _ _ => List.countP_le_length _
  refine ⟨(FindMLE.loop A cfg.noise_model cfg.MISSING cfg.min_het_freq reads is_haploid
      str_record.period str_record.alleles_to_include).allele1,
    (FindMLE.loop A cfg.noise_model cfg.MISSING cfg.min_het_freq reads is_haploid
      str_record.period str_record.alleles_to_include).allele2,
    _, _, _, rfl, rfl, rfl, rfl, rfl, rfl, hag _ _, ?_, ?_, ?_, ?_⟩
  · omega
  · rw [hag]
    exact Int.ofNat_nonneg _
  · rw [hag]
    exact_mod_cast hle _ _
  · rw [hag]
    have key : ∀ c n : Nat, c ≤ n → ((n : Nat) : Int) - ((c : Nat) : Int) ≥ 0 := by
      intro c n hcn
      omega
    exact key _ _ (hle _ _)

end Genotyper

/-! ## The reference allele in the written allele list -/

namespace Genotyper

/-- Claim C25 at an annotated locus: `Genotype` on two reads of offset `0` at the locus
`chr1:101`, annotated with the alleles `0, 4`, writes a record whose final allele list is
`0, 0, 4`: the reference offset `0` occurs twice. The same reads at the locus without
annotation give the list `0`. In general the last step on an annotated record whose
alleles start with `0` yields a list with at least two `0`. -/
theorem C25_annotated_locus_reference_twice :
    Genotype exactArith Annotated.config RefCall.reads RefCall.reads
        = .ok (some (Locus.written
            (Genotype exactArith Annotated.config RefCall.reads RefCall.reads)))
      ∧ (Locus.written (Genotype exactArith Annotated.config RefCall.reads
          RefCall.reads)).alleles_to_include = [0, 0, 4]
      ∧ (Locus.written (Genotype exactArith Annotated.config RefCall.reads
          RefCall.reads)).alleles_to_include.count 0 = 2
      ∧ (Locus.written (Genotype exactArith Annotated.config RefCall.reads
          RefCall.reads)).numcalls = 1
      ∧ (Locus.written (Genotype exactArith Locus.config RefCall.reads
          RefCall.reads)).alleles_to_include = [0]
      ∧ (∀ (r : STRRecord exactArith) (alts : List Int),
          ∃ out, Genotype.finish true { r with alleles_to_include := 0 :: alts } = .ok out
            ∧ 2 ≤ out.alleles_to_include.count 0) := by
  refine ⟨rfl, by decide!, by decide!, by decide!, by decide!, ?_⟩
  intro r alts
  refine ⟨_, rfl, ?_⟩
  show 2 ≤ (0 :: (0 :: alts).insertionSort (fun x y => x ≤ y)).count 0
  rw [List.count_cons_self, (List.perm_insertionSort _ _).count_eq, List.count_cons_self]
  omega

end Genotyper

/-! ## Rounding to `float` is monotone -/

theorem twoPow_eq (z : Int) : twoPow z = (2 : ℚ) ^ z := by
  unfold twoPow
  by_cases h : 0 ≤ z
  · rw [if_pos h]
    obtain ⟨n, rfl⟩ := Int.eq_ofNat_of_zero_le h
    simp
  · rw [if_neg h]
    obtain ⟨n, hn⟩ := Int.eq_ofNat_of_zero_le (show 0 ≤ -z by omega)
    have hz : z = -(n : Int) := by omega
    subst hz
    simp

theorem twoPow_pos (z : Int) : 0 < twoPow z := by
  rw [twoPow_eq]
  positivity

theorem twoPow_mono {a b : Int} (h : a ≤ b) : twoPow a ≤ twoPow b := by
  rw [twoPow_eq, twoPow_eq]
  exact zpow_le_zpow_right₀ (by norm_num) h

theorem twoPow_succ (z : Int) : twoPow (z + 1) = 2 * twoPow z := by
  rw [twoPow_eq, twoPow_eq, zpow_add_one₀ (by norm_num)]
  ring

theorem twoPow_div (a b : Int) : twoPow a / twoPow b = twoPow (a - b) := by
  rw [twoPow_eq, twoPow_eq, twoPow_eq, zpow_sub₀ (by norm_num)]

theorem twoPow_natCast (n : Nat) : twoPow (n : Int) = (((2 ^ n : Nat) : Int) : ℚ) := by
  rw [twoPow_eq]
  simp

theorem floatExponent.search_ge (n : Nat) (x : ℚ) : -126 ≤ floatExponent.search n x := by
  induction n with
  | zero => exact le_refl _
  | succ n ih =>
    unfold floatExponent.search
    split
    · omega
    · exact ih

theorem floatExponent.search_le (n : Nat) (x : ℚ) :
    floatExponent.search n x ≤ (n : Int) - 126 := by
  induction n with
  | zero => exact le_refl _
  | succ n ih =>
    unfold floatExponent.search
    split
    · exact le_refl _
    · push_cast
      omega

theorem floatExponent.search_low (n : Nat) (x : ℚ) (h : -126 < floatExponent.search n x) :
    twoPow (floatExponent.search n x) ≤ x := by
  induction n with
  | zero => exact absurd h (lt_irrefl _)
  | succ n ih =>
    unfold floatExponent.search at h ⊢
    split
    · assumption
    · rename_i hn
      rw [if_neg hn] at h
      exact ih h

theorem floatExponent.search_high (n : Nat) (x : ℚ)
    (h : floatExponent.search n x < (n : Int) - 126) :
    x < twoPow (floatExponent.search n x + 1) := by
  induction n with
  | zero => exact absurd h (lt_irrefl _)
  | succ n ih =>
    unfold floatExponent.search at h ⊢
    split
    · rename_i hn
      rw [if_pos hn] at h
      exact absurd h (lt_irrefl _)
    · rename_i hn
      rw [if_neg hn] at h
      have hx : x < twoPow (((n + 1 : Nat) : Int) - 126) := not_le.1 hn
      by_cases hlt : floatExponent.search n x < (n : Int) - 126
      · exact ih hlt
      · have heq : floatExponent.search n x = (n : Int) - 126 :=
          le_antisymm (floatExponent.search_le n x) (not_lt.1 hlt)
        rw [heq]
        have : (n : Int) - 126 + 1 = ((n + 1 : Nat) : Int) - 126 := by
          push_cast
          ring
        rw [this]
        exact hx

theorem floatExponent.search_mono (n : Nat) {x y : ℚ} (h : x ≤ y) :
    floatExponent.search n x ≤ floatExponent.search n y := by
  induction n with
  | zero => exact le_refl _
  | succ n ih =>
    unfold floatExponent.search
    by_cases hx : twoPow (((n + 1 : Nat) : Int) - 126) ≤ x
    · rw [if_pos hx, if_pos (le_trans hx h)]
    · rw [if_neg hx]
      by_cases hy : twoPow (((n + 1 : Nat) : Int) - 126) ≤ y
      · rw [if_pos hy]
        have := floatExponent.search_le n x
        push_cast
        omega
      · rw [if_neg hy]
        exact ih

theorem roundHalfEven_intCast (k : Int) : roundHalfEven (k : ℚ) = k := by
  unfold roundHalfEven
  simp

theorem roundHalfEven_mem (m : ℚ) :
    roundHalfEven m = Int.floor m ∨ roundHalfEven m = Int.floor m + 1 := by
  unfold roundHalfEven
  simp only
  split
  · exact Or.inl rfl
  · split
    · exact Or.inr rfl
    · split
      · exact Or.inl rfl
      · exact Or.inr rfl

theorem roundHalfEven_mono {m n : ℚ} (h : m ≤ n) : roundHalfEven m ≤ roundHalfEven n := by
  have hf : Int.floor m ≤ Int.floor n := Int.floor_mono h
  rcases lt_or_eq_of_le hf with hlt | heq
  · rcases roundHalfEven_mem m with h1 | h1 <;> rcases roundHalfEven_mem n with h2 | h2 <;>
      omega
  · have hr : m - (Int.floor m : ℚ) ≤ n - (Int.floor n : ℚ) := by
      rw [heq]
      linarith
    unfold roundHalfEven
    simp only
    rw [heq] at hr ⊢
    by_cases h1 : m - (Int.floor n : ℚ) < 1 / 2
    · rw [if_pos h1]
      split
      · exact le_refl _
      · split
        · omega
        · split
          · exact le_refl _
          · omega
    · rw [if_neg h1]
      have h1n : ¬ (n - (Int.floor n : ℚ) < 1 / 2) := by
        intro hc
        exact h1 (lt_of_le_of_lt hr hc)
      rw [if_neg h1n]
      by_cases h2 : 1 / 2 < m - (Int.floor n : ℚ)
      · rw [if_pos h2, if_pos (lt_of_lt_of_le h2 hr)]
      · rw [if_neg h2]
        by_cases h3 : 1 / 2 < n - (Int.floor n : ℚ)
        · rw [if_pos h3]
          split <;> omega
        · rw [if_neg h3]

theorem roundHalfEven_neg (m : ℚ) : roundHalfEven (-m) = -roundHalfEven m := by
  by_cases hint : (Int.floor m : ℚ) = m
  · rw [← hint, ← Int.cast_neg, roundHalfEven_intCast, roundHalfEven_intCast]
  · have hlt : (Int.floor m : ℚ) < m := lt_of_le_of_ne (Int.floor_le m) hint
    have hfl : Int.floor (-m) = -Int.floor m - 1 := by
      rw [Int.floor_eq_iff]
      constructor
      · push_cast
        have := Int.lt_floor_add_one m
        linarith
      · push_cast
        linarith
    unfold roundHalfEven
    simp only
    rw [hfl]
    push_cast
    by_cases h1 : m - (Int.floor m : ℚ) < 1 / 2
    · rw [if_pos h1]
      have ha : ¬ (-m - (-(Int.floor m : ℚ) - 1) < 1 / 2) := by
        intro hc
        linarith
      have hb : 1 / 2 < -m - (-(Int.floor m : ℚ) - 1) := by linarith
      rw [if_neg ha, if_pos hb]
      ring
    · rw [if_neg h1]
      by_cases h2 : 1 / 2 < m - (Int.floor m : ℚ)
      · rw [if_pos h2]
        have ha : -m - (-(Int.floor m : ℚ) - 1) < 1 / 2 := by linarith
        rw [if_pos ha]
        ring
      · rw [if_neg h2]
        have ha : ¬ (-m - (-(Int.floor m : ℚ) - 1) < 1 / 2) := by
          intro hc
          linarith
        have hb : ¬ (1 / 2 < -m - (-(Int.floor m : ℚ) - 1)) := by
          intro hc
          linarith
        rw [if_neg ha, if_neg hb]
        by_cases h3 : Int.floor m % 2 = 0
        · rw [if_pos h3, if_neg (by omega)]
          ring
        · rw [if_neg h3, if_pos (by omega)]
          ring

/-- Splitting `2^e` into `2^23` units in the last place. -/
theorem twoPow_split_low (e : Int) :
    twoPow e = (((2 ^ 23 : Nat) : Int) : ℚ) * twoPow (e - 23) := by
  rw [twoPow_eq, twoPow_eq]
  have h : (((2 ^ 23 : Nat) : Int) : ℚ) = (2 : ℚ) ^ (23 : Int) := by norm_num
  rw [h, ← zpow_add₀ (by norm_num)]
  congr 1
  ring

/-- Splitting `2^(e+1)` into `2^24` units in the last place. -/
theorem twoPow_split_high (e : Int) :
    twoPow (e + 1) = (((2 ^ 24 : Nat) : Int) : ℚ) * twoPow (e - 23) := by
  rw [twoPow_eq, twoPow_eq]
  have h : (((2 ^ 24 : Nat) : Int) : ℚ) = (2 : ℚ) ^ (24 : Int) := by norm_num
  rw [h, ← zpow_add₀ (by norm_num)]
  congr 1
  ring

theorem floatExponent_ge (x : ℚ) : -126 ≤ floatExponent x :=
  floatExponent.search_ge 253 x

theorem floatExponent_le (x : ℚ) : floatExponent x ≤ 127 := by
  have := floatExponent.search_le 253 x
  unfold floatExponent
  omega

theorem floatExponent_low (x : ℚ) (h : -126 < floatExponent x) :
    twoPow (floatExponent x) ≤ x :=
  floatExponent.search_low 253 x h

theorem floatExponent_high (x : ℚ) (h : floatExponent x < 127) :
    x < twoPow (floatExponent x + 1) :=
  floatExponent.search_high 253 x (by unfold floatExponent at h; omega)

theorem floatExponent_mono {x y : ℚ} (h : x ≤ y) : floatExponent x ≤ floatExponent y :=
  floatExponent.search_mono 253 h

theorem roundFloat.value_zero : roundFloat.value 0 = 0 := by
  unfold roundFloat.value
  simp only [zero_div]
  rw [show (0 : ℚ) = ((0 : Int) : ℚ) by norm_num, roundHalfEven_intCast]
  simp

theorem roundFloat.value_neg (x : ℚ) : roundFloat.value (-x) = -roundFloat.value x := by
  unfold roundFloat.value
  simp only [abs_neg, neg_div, roundHalfEven_neg]
  push_cast
  ring

theorem roundFloat.value_nonneg {x : ℚ} (h : 0 ≤ x) : 0 ≤ roundFloat.value x := by
  unfold roundFloat.value
  simp only
  have hu := twoPow_pos (floatExponent |x| - 23)
  have h0 : roundHalfEven ((0 : Int) : ℚ) ≤ roundHalfEven (x / twoPow (floatExponent |x| - 23)) :=
    roundHalfEven_mono (by
      rw [Int.cast_zero]
      exact div_nonneg h (le_of_lt hu))
  rw [roundHalfEven_intCast] at h0
  have h1 : (0 : ℚ) ≤ (roundHalfEven (x / twoPow (floatExponent |x| - 23)) : ℚ) := by
    exact_mod_cast h0
  exact mul_nonneg (le_of_lt hu) h1

/-- A positive `x` with exponent `e > -126` rounds to at least `2^e`. -/
theorem roundFloat.value_low {x : ℚ} (hx : 0 < x) (h : -126 < floatExponent x) :
    twoPow (floatExponent x) ≤ roundFloat.value x := by
  unfold roundFloat.value
  simp only [abs_of_pos hx]
  have hu := twoPow_pos (floatExponent x - 23)
  have hlow := floatExponent_low x h
  have hdiv : (((2 ^ 23 : Nat) : Int) : ℚ) ≤ x / twoPow (floatExponent x - 23) := by
    rw [le_div_iff₀ hu, ← twoPow_split_low]
    exact hlow
  have hr := roundHalfEven_mono hdiv
  rw [roundHalfEven_intCast] at hr
  have hr2 : (((2 ^ 23 : Nat) : Int) : ℚ)
      ≤ (roundHalfEven (x / twoPow (floatExponent x - 23)) : ℚ) := by exact_mod_cast hr
  calc twoPow (floatExponent x)
      = twoPow (floatExponent x - 23) * (((2 ^ 23 : Nat) : Int) : ℚ) := by
        rw [mul_comm, ← twoPow_split_low]
    _ ≤ _ := mul_le_mul_of_nonneg_left hr2 (le_of_lt hu)

/-- A positive `x` with exponent `e < 127` rounds to at most `2^(e+1)`. -/
theorem roundFloat.value_high {x : ℚ} (hx : 0 < x) (h : floatExponent x < 127) :
    roundFloat.value x ≤ twoPow (floatExponent x + 1) := by
  unfold roundFloat.value
  simp only [abs_of_pos hx]
  have hu := twoPow_pos (floatExponent x - 23)
  have hhigh := floatExponent_high x h
  have hdiv : x / twoPow (floatExponent x - 23) ≤ (((2 ^ 24 : Nat) : Int) : ℚ) := by
    rw [div_le_iff₀ hu, ← twoPow_split_high]
    exact le_of_lt hhigh
  have hr := roundHalfEven_mono hdiv
  rw [roundHalfEven_intCast] at hr
  have hr2 : (roundHalfEven (x / twoPow (floatExponent x - 23)) : ℚ)
      ≤ (((2 ^ 24 : Nat) : Int) : ℚ) := by exact_mod_cast hr
  calc twoPow (floatExponent x - 23) * (roundHalfEven (x / twoPow (floatExponent x - 23)) : ℚ)
      ≤ twoPow (floatExponent x - 23) * (((2 ^ 24 : Nat) : Int) : ℚ) :=
        mul_le_mul_of_nonneg_left hr2 (le_of_lt hu)
    _ = twoPow (floatExponent x + 1) := by
        rw [mul_comm, ← twoPow_split_high]

theorem roundFloat.value_mono_pos {x y : ℚ} (hx : 0 < x) (hxy : x ≤ y) :
    roundFloat.value x ≤ roundFloat.value y := by
  have hy : 0 < y := lt_of_lt_of_le hx hxy
  have he := floatExponent_mono hxy
  rcases lt_or_eq_of_le he with hlt | heq
  · have h1 := roundFloat.value_high hx (by have := floatExponent_le y; omega)
    have h2 := roundFloat.value_low hy (by have := floatExponent_ge x; omega)
    have h3 : twoPow (floatExponent x + 1) ≤ twoPow (floatExponent y) :=
      twoPow_mono (by omega)
    exact le_trans h1 (le_trans h3 h2)
  · unfold roundFloat.value
    simp only [abs_of_pos hx, abs_of_pos hy, heq]
    have hu := twoPow_pos (floatExponent y - 23)
    have hdiv : x / twoPow (floatExponent y - 23) ≤ y / twoPow (floatExponent y - 23) :=
      div_le_div_of_nonneg_right hxy (le_of_lt hu)
    have hr := roundHalfEven_mono hdiv
    have hr2 : (roundHalfEven (x / twoPow (floatExponent y - 23)) : ℚ)
        ≤ (roundHalfEven (y / twoPow (floatExponent y - 23)) : ℚ) := by exact_mod_cast hr
    exact mul_le_mul_of_nonneg_left hr2 (le_of_lt hu)

/-- The rounded value does not decrease when the argument grows. -/
theorem roundFloat.value_mono {x y : ℚ} (hxy : x ≤ y) :
    roundFloat.value x ≤ roundFloat.value y := by
  rcases lt_trichotomy 0 x with hx | hx | hx
  · exact roundFloat.value_mono_pos hx hxy
  · subst hx
    rw [roundFloat.value_zero]
    exact roundFloat.value_nonneg hxy
  · rcases le_or_lt 0 y with hy | hy
    · have h1 : roundFloat.value x ≤ 0 := by
        have := roundFloat.value_nonneg (show (0 : ℚ) ≤ -x by linarith)
        rw [roundFloat.value_neg] at this
        linarith
      exact le_trans h1 (roundFloat.value_nonneg hy)
    · have := roundFloat.value_mono_pos (show (0 : ℚ) < -y by linarith)
        (show -y ≤ -x by linarith)
      rw [roundFloat.value_neg, roundFloat.value_neg] at this
      linarith

theorem roundFloat_eq (x : ℚ) :
    roundFloat x
      = if twoPow 128 ≤ roundFloat.value x then ExtQ.pinf
        else if roundFloat.value x ≤ -twoPow 128 then ExtQ.ninf
        else ExtQ.fin (roundFloat.value x) := by
  unfold roundFloat
  by_cases hx : x = 0
  · subst hx
    have hp := twoPow_pos 128
    rw [if_pos rfl, roundFloat.value_zero, if_neg (by linarith), if_neg (by linarith)]
  · rw [if_neg hx]

/-- Rounding to `float` is monotone. -/
theorem roundFloat_mono {x y : ℚ} (hxy : x ≤ y) :
    ExtQ.ge (roundFloat y) (roundFloat x) = true := by
  have hv := roundFloat.value_mono hxy
  have hp := twoPow_pos 128
  rw [roundFloat_eq, roundFloat_eq]
  by_cases h1 : twoPow 128 ≤ roundFloat.value x
  · rw [if_pos h1, if_pos (le_trans h1 hv)]
    rfl
  · rw [if_neg h1]
    by_cases h2 : twoPow 128 ≤ roundFloat.value y
    · rw [if_pos h2]
      split <;> rfl
    · rw [if_neg h2]
      by_cases h3 : roundFloat.value y ≤ -twoPow 128
      · rw [if_pos h3, if_pos (le_trans hv h3)]
        rfl
      · rw [if_neg h3]
        by_cases h4 : roundFloat.value x ≤ -twoPow 128
        · rw [if_pos h4]
          rfl
        · rw [if_neg h4]
          simp only [ExtQ.ge, ExtQ.gt, ExtQ.eq, Bool.or_eq_true, decide_eq_true_eq]
          rcases lt_or_eq_of_le hv with h | h
          · exact Or.inl h
          · exact Or.inr h.symm

theorem roundFloat_ne_nan (x : ℚ) : roundFloat x ≠ ExtQ.nan := by
  rw [roundFloat_eq]
  split
  · exact fun h => ExtQ.noConfusion h
  · split
    · exact fun h => ExtQ.noConfusion h
    · exact fun h => ExtQ.noConfusion h

theorem ExtQ_ge_pinf (x : ExtQ) (h : x ≠ ExtQ.nan) : ExtQ.ge ExtQ.pinf x = true := by
  cases x with
  | nan => exact absurd rfl h
  | _ => rfl

theorem ExtQ_ge_ninf (x : ExtQ) (h : x ≠ ExtQ.nan) : ExtQ.ge x ExtQ.ninf = true := by
  cases x with
  | nan => exact absurd rfl h
  | _ => rfl

/-- Rounding of float results, special values included, is monotone. -/
theorem ExtQ.round_mono (a b : ExtQ) (h : ExtQ.ge a b = true) :
    ExtQ.ge (ExtQ.round a) (ExtQ.round b) = true := by
  cases a with
  | fin x =>
    cases b with
    | fin y =>
      apply roundFloat_mono
      simp only [ExtQ.ge, ExtQ.gt, ExtQ.eq, Bool.or_eq_true, decide_eq_true_eq] at h
      rcases h with h | h
      · exact le_of_lt h
      · exact le_of_eq h.symm
    | pinf => simp [ExtQ.ge, ExtQ.gt, ExtQ.eq] at h
    | ninf => exact ExtQ_ge_ninf _ (roundFloat_ne_nan x)
    | nan => simp [ExtQ.ge, ExtQ.gt, ExtQ.eq] at h
  | pinf =>
    cases b with
    | fin y => exact ExtQ_ge_pinf _ (roundFloat_ne_nan y)
    | pinf => rfl
    | ninf => rfl
    | nan => simp [ExtQ.ge, ExtQ.gt, ExtQ.eq] at h
  | ninf =>
    cases b with
    | fin y => simp [ExtQ.ge, ExtQ.gt, ExtQ.eq] at h
    | pinf => simp [ExtQ.ge, ExtQ.gt, ExtQ.eq] at h
    | ninf => rfl
    | nan => simp [ExtQ.ge, ExtQ.gt, ExtQ.eq] at h
  | nan =>
    cases b <;> simp [ExtQ.ge, ExtQ.gt, ExtQ.eq] at h

/-! ## The Phred-like score under rounding -/

namespace Genotyper

theorem ExtQ_gt_nan_right (x : ExtQ) : ExtQ.gt x ExtQ.nan = false := by
  cases x <;> rfl

theorem ExtQ_one_sub_antitone (x y : ExtQ) (h : ExtQ.ge y x = true) :
    ExtQ.ge (ExtQ.sub (ExtQ.fin 1) x) (ExtQ.sub (ExtQ.fin 1) y) = true := by
  cases x <;> cases y <;>
    simp_all [ExtQ.ge, ExtQ.gt, ExtQ.eq, ExtQ.sub, ExtQ.add, ExtQ.neg]
  rcases h with h | h
  · left
    linarith
  · right
    exact h.symm

theorem LogVal_log10_arg (x : ExtQ) :
    (LogVal.log10 x).arg = ExtQ.nan ∨ (∃ q : ℚ, 0 ≤ q ∧ (LogVal.log10 x).arg = ExtQ.fin q)
      ∨ (LogVal.log10 x).arg = ExtQ.pinf := by
  cases x with
  | fin a =>
    by_cases ha : a < 0
    · left
      simp [LogVal.log10, ha]
    · right
      left
      exact ⟨a, not_lt.1 ha, by simp [LogVal.log10, ha]⟩
  | pinf => exact Or.inr (Or.inr rfl)
  | ninf => exact Or.inl rfl
  | nan => exact Or.inl rfl

theorem LogVal_log10_mono (x y : ExtQ) (h : ExtQ.ge x y = true) :
    ExtQ.gt (LogVal.log10 y).arg (LogVal.log10 x).arg = false := by
  cases x with
  | fin a =>
    cases y with
    | fin b =>
      have hba : b ≤ a := by
        simp only [ExtQ.ge, ExtQ.gt, ExtQ.eq, Bool.or_eq_true, decide_eq_true_eq] at h
        rcases h with h | h
        · exact le_of_lt h
        · exact le_of_eq h.symm
      by_cases ha : a < 0
      · have hb : b < 0 := lt_of_le_of_lt hba ha
        simp [LogVal.log10, ha, hb, ExtQ.gt]
      · by_cases hb : b < 0
        · simp [LogVal.log10, ha, hb, ExtQ.gt]
        · simp only [LogVal.log10, if_neg ha, if_neg hb, ExtQ.gt, decide_eq_false_iff_not,
            not_lt]
          exact hba
    | pinf => simp [ExtQ.ge, ExtQ.gt, ExtQ.eq] at h
    | ninf =>
      by_cases ha : a < 0 <;> simp [LogVal.log10, ha, ExtQ.gt]
    | nan => simp [ExtQ.ge, ExtQ.gt, ExtQ.eq] at h
  | pinf =>
    cases y with
    | fin b => by_cases hb : b < 0 <;> simp [LogVal.log10, hb, ExtQ.gt]
    | pinf => simp [LogVal.log10, ExtQ.gt]
    | ninf => simp [LogVal.log10, ExtQ.gt]
    | nan => simp [LogVal.log10, ExtQ.gt]
  | ninf =>
    show ExtQ.gt (LogVal.log10 y).arg ExtQ.nan = false
    exact ExtQ_gt_nan_right _
  | nan =>
    show ExtQ.gt (LogVal.log10 y).arg ExtQ.nan = false
    exact ExtQ_gt_nan_right _

theorem ExtQ_one_div_nonneg (q : ℚ) (hq : 0 ≤ q) :
    (q = 0 ∧ ExtQ.div (ExtQ.fin 1) (ExtQ.fin q) = ExtQ.pinf)
      ∨ (0 < q ∧ ExtQ.div (ExtQ.fin 1) (ExtQ.fin q) = ExtQ.fin (1 / q)) := by
  by_cases h0 : q = 0
  · left
    subst h0
    exact ⟨rfl, by simp [ExtQ.div, ExtQ.infTimes]⟩
  · right
    exact ⟨lt_of_le_of_ne hq (Ne.symm h0), by simp [ExtQ.div, h0]⟩

theorem LogVal_neg_log10_gt (x y : ExtQ) :
    ExtQ.gt (ExtQ.div (ExtQ.fin 1) (LogVal.log10 x).arg)
        (ExtQ.div (ExtQ.fin 1) (LogVal.log10 y).arg)
      = ExtQ.gt (LogVal.log10 y).arg (LogVal.log10 x).arg := by
  rcases LogVal_log10_arg x with hx | ⟨a, ha, hx⟩ | hx <;>
    rcases LogVal_log10_arg y with hy | ⟨b, hb, hy⟩ | hy <;> rw [hx, hy]
  · rfl
  · rcases ExtQ_one_div_nonneg b hb with ⟨_, h⟩ | ⟨_, h⟩ <;> rw [h] <;> rfl
  · rfl
  · rcases ExtQ_one_div_nonneg a ha with ⟨_, h⟩ | ⟨_, h⟩ <;> rw [h] <;> rfl
  · rcases ExtQ_one_div_nonneg a ha with ⟨ha0, h⟩ | ⟨ha0, h⟩ <;>
      rcases ExtQ_one_div_nonneg b hb with ⟨hb0, h2⟩ | ⟨hb0, h2⟩ <;> rw [h, h2]
    · subst ha0
      subst hb0
      simp [ExtQ.gt]
    · subst ha0
      simp [ExtQ.gt, hb0]
    · subst hb0
      simp [ExtQ.gt]
      exact le_of_lt ha0
    · simp only [ExtQ.gt]
      congr 1
      apply propext
      rw [one_div_lt_one_div hb0 ha0]
  · rcases ExtQ_one_div_nonneg a ha with ⟨ha0, h⟩ | ⟨ha0, h⟩ <;> rw [h]
    · subst ha0
      simp [ExtQ.gt, ExtQ.div]
    · simp [ExtQ.gt, ExtQ.div]
      exact ha0
  · rfl
  · rcases ExtQ_one_div_nonneg b hb with ⟨hb0, h⟩ | ⟨hb0, h⟩ <;> rw [h]
    · subst hb0
      simp [ExtQ.gt, ExtQ.div]
    · simp [ExtQ.gt, ExtQ.div]
      exact le_of_lt hb0
  · rfl

/-- In `float` arithmetic the rounded difference `1 - x` does not increase when `x`
grows. -/
theorem floatArith_one_sub_antitone (x y : ExtQ) (h : floatArith.ge y x = true) :
    floatArith.ge (floatArith.sub (floatArith.ofInt 1) x)
      (floatArith.sub (floatArith.ofInt 1) y) = true := by
  have h1 : floatArith.ofInt 1 = ExtQ.fin 1 := by decide!
  rw [h1]
  exact ExtQ.round_mono _ _ (ExtQ_one_sub_antitone x y h)

/-- Claim C16 fails as stated for `float`: the quality scores `0`, `2^-30` and the float
nearest `1e-9` lie in `[0, 1)` and differ, but `1 - q` rounds to `1` for each of them, so
the three Phred-like scores `-1 * log10(1 - q)` are the same: the score is not strictly
increasing. -/
theorem C16_phred_not_strict_in_float :
    ExtQ.round (ExtQ.fin (twoPow (-30))) = ExtQ.fin (twoPow (-30))
      ∧ ExtQ.round (ExtQ.fin (tenPow (-9))) = ExtQ.fin (9007199 * twoPow (-53))
      ∧ floatArith.gt (ExtQ.fin (twoPow (-30))) (floatArith.ofInt 0) = true
      ∧ floatArith.gt (floatArith.ofInt 1) (ExtQ.fin (twoPow (-30))) = true
      ∧ floatArith.gt (ExtQ.fin (9007199 * twoPow (-53))) (ExtQ.fin (twoPow (-30))) = true
      ∧ floatArith.gt (floatArith.ofInt 1) (ExtQ.fin (9007199 * twoPow (-53))) = true
      ∧ floatArith.sub (floatArith.ofInt 1) (ExtQ.fin (twoPow (-30))) = floatArith.ofInt 1
      ∧ floatArith.sub (floatArith.ofInt 1) (ExtQ.fin (9007199 * twoPow (-53)))
          = floatArith.ofInt 1
      ∧ phred floatArith (ExtQ.fin (twoPow (-30))) = phred floatArith (floatArith.ofInt 0)
      ∧ phred floatArith (ExtQ.fin (9007199 * twoPow (-53)))
          = phred floatArith (floatArith.ofInt 0)
      ∧ floatArith.gtL (phred floatArith (ExtQ.fin (9007199 * twoPow (-53))))
          (phred floatArith (ExtQ.fin (twoPow (-30)))) = false := by
  refine ⟨by decide!, by decide!, by decide!, by decide!, by decide!, by decide!, by decide!,
    by decide!, by decide!, by decide!, by decide!⟩

/-- Claim C16, amended: the Phred-like score that `FindMLE` appends is
`-1 * log10(1 - q)` of the quality score `q` that it appends; it is `0` at `q = 0`, and it
is non-decreasing in `q`: for `q2 >= q1` the score of `q1` is not greater than the score of
`q2`.  This holds in every arithmetic in which `1 - 0 = 1`, `log10(1) = 0`, `-1 * 0 = 0`,
the difference `1 - x` does not increase and `log10` does not decrease when the argument
grows, and `-1 * u > -1 * v` is `v > u` on values of `log10`. -/
theorem C16_phred_score_nondecreasing (A : Arith) (noise_model : NoiseModel A)
    (MISSING : Int) (min_het_freq : A.P) (reads : List AlignedRead)
    (spanning_reads : Int → Int) (haploid : Bool) (str_record : STRRecord A)
    (hsub0 : A.sub (A.ofInt 1) (A.ofInt 0) = A.ofInt 1)
    (hlog1 : A.log10 (A.ofInt 1) = A.ofIntL 0)
    (hneg0 : A.negL (A.ofIntL 0) = A.ofIntL 0)
    (hsub : ∀ x y : A.P, A.ge y x = true →
      A.ge (A.sub (A.ofInt 1) x) (A.sub (A.ofInt 1) y) = true)
    (hlog : ∀ x y : A.P, A.ge x y = true → A.gtL (A.log10 y) (A.log10 x) = false)
    (hneg : ∀ x y : A.P,
      A.gtL (A.negL (A.log10 x)) (A.negL (A.log10 y)) = A.gtL (A.log10 y) (A.log10 x))
    (q1 q2 : A.P) (h12 : A.ge q2 q1 = true) :
    (∃ q : A.P,
        (FindMLE A noise_model MISSING min_het_freq reads spanning_reads haploid
            str_record).max_lik_score = str_record.max_lik_score ++ [q]
        ∧ (FindMLE A noise_model MISSING min_het_freq reads spanning_reads haploid
            str_record).phred_max_lik_score
          = str_record.phred_max_lik_score ++ [phred A q])
      ∧ phred A (A.ofInt 0) = A.ofIntL 0
      ∧ A.gtL (phred A q1) (phred A q2) = false := by
  refine ⟨⟨_, rfl, rfl⟩, ?_, ?_⟩
  · unfold phred
    rw [hsub0, hlog1, hneg0]
  · unfold phred
    rw [hneg]
    exact hlog _ _ (hsub q1 q2 h12)

/-- Witness of the amended C16 in `float` arithmetic, at the quality scores `0` and
`2^-30`: the laws hold with rounding, and the two scores are equal. -/
theorem C16_phred_score_nondecreasing_witness :
    floatArith.ge (ExtQ.fin (twoPow (-30))) (ExtQ.fin 0) = true
      ∧ phred floatArith (floatArith.ofInt 0) = floatArith.ofIntL 0
      ∧ floatArith.gtL (phred floatArith (ExtQ.fin 0))
          (phred floatArith (ExtQ.fin (twoPow (-30)))) = false :=
  ⟨by decide!,
    (C16_phred_score_nondecreasing floatArith Rounded.exactMatch Scenario.MISSING
      Scenario.min_het_freq Scenario.reads Scenario.spanning false Rounded.record
      (by decide!) (by decide!) (by decide!) floatArith_one_sub_antitone LogVal_log10_mono
      LogVal_neg_log10_gt (ExtQ.fin 0) (ExtQ.fin (twoPow (-30))) (by decide!)).2.1,
    (C16_phred_score_nondecreasing floatArith Rounded.exactMatch Scenario.MISSING
      Scenario.min_het_freq Scenario.reads Scenario.spanning false Rounded.record
      (by decide!) (by decide!) (by decide!) floatArith_one_sub_antitone LogVal_log10_mono
      LogVal_neg_log10_gt (ExtQ.fin 0) (ExtQ.fin (twoPow (-30))) (by decide!)).2.2⟩

end Genotyper
